import Mathlib

/-!
# A verification development for the disk-resident B-Tree index (`btree.cc`)

The index lives in the blocks of a buffer cache.  Block 0 is the superblock, every
other block is a typed node.  The index operations of `btree.cc` are embedded as
functions that pass the index state (buffer cache and in-memory superblock)
explicitly.  Recursive walks take a fuel argument and return `none` when the fuel
runs out; `none` is also the result of a failed `assert`.

The node codec (`BTreeNode`, `NodeMetadata`), the buffer cache and the error codes
live in files of the repository other than `btree.cc`; they are modelled from the
specification and marked as such.  Sizes inside a slot area are counted in cells:
a key, a value and a block pointer occupy one cell each.

Block ids, counts and offsets (`SIZE_T`), keys (`KEY_T`) and values (`VALUE_T`) are
natural numbers.  For keys and values this is modelled from the spec: they are opaque
fixed-width byte strings, keys compared lexicographically; a key is represented by the
number its bytes spell most significant byte first, which orders the same way, and a
default-constructed value `VALUE_T()` by `0`.
-/

set_option autoImplicit false

namespace BTreeLab

/-! ## Data model -/

/-- Modelled from the spec: the error kinds of §7 under the names `btree.cc` uses,
together with `OutOfRange` (§4.2) and `IOError` (§6), which `btree.cc` never names. -/
inductive ERROR_T where
  | ERROR_NOERROR
  | ERROR_NOSPACE
  | ERROR_NONEXISTENT
  | ERROR_CONFLICT
  | ERROR_UNIMPL
  | ERROR_INSANE
  | ERROR_IOERROR
  | ERROR_OUTOFRANGE
  deriving DecidableEq, Repr

/-- Modelled from the spec: the node kinds of §3 under the names `btree.cc` uses. -/
inductive BTreeNodeType where
  | BTREE_SUPERBLOCK
  | BTREE_ROOT_NODE
  | BTREE_INTERIOR_NODE
  | BTREE_LEAF_NODE
  | BTREE_UNALLOCATED_BLOCK
  deriving DecidableEq, Repr

/-- Modelled from the spec: the two uses of the shared descent (`BTreeOp`). -/
inductive BTreeOp where
  | BTREE_OP_LOOKUP
  | BTREE_OP_UPDATE
  deriving DecidableEq, Repr

open ERROR_T BTreeNodeType BTreeOp

/-- Modelled from the spec: the two sizes the capacity formulas of §4.2 depend on and
the spec leaves open, the size of the block header (`sizeof(NodeMetadata)`) and the
pointer width `W` (`sizeof(SIZE_T)`), both in bytes. -/
structure Arch where
  sizeofNodeMetadata : Nat
  sizeofSIZE_T : Nat
  deriving DecidableEq, Repr

/-- Modelled from the spec: the block header of §3 and §6. -/
structure NodeMetadata where
  nodetype : BTreeNodeType
  keysize : Nat
  valuesize : Nat
  blocksize : Nat
  rootnode : Nat
  freelist : Nat
  numkeys : Nat
  deriving DecidableEq, Repr

/-- Modelled from the spec: the slot area begins right after the header and extends
to the end of the block (§4.2). -/
def NodeMetadata.GetNumDataBytes (A : Arch) (info : NodeMetadata) : Nat :=
  info.blocksize - A.sizeofNodeMetadata

/-- Modelled from the spec: interior capacity `floor((slot_area_bytes - W) / (keysize + W))`. -/
def NodeMetadata.GetNumSlotsAsInterior (A : Arch) (info : NodeMetadata) : Nat :=
  (info.GetNumDataBytes A - A.sizeofSIZE_T) / (info.keysize + A.sizeofSIZE_T)

/-- Modelled from the spec: leaf capacity `floor(slot_area_bytes / (keysize + valuesize))`. -/
def NodeMetadata.GetNumSlotsAsLeaf (A : Arch) (info : NodeMetadata) : Nat :=
  info.GetNumDataBytes A / (info.keysize + info.valuesize)

/-- Modelled from the spec: a typed node, header plus slot area (§4.2).  The slot area
is a list of cells; cells past the end of the list read as `0`. -/
structure BTreeNode where
  info : NodeMetadata
  data : List Nat
  deriving DecidableEq, Repr

/-- Read one cell of a slot area. -/
def getCell (d : List Nat) (i : Nat) : Nat := d.getD i 0

/-- Write one cell of a slot area. -/
def setCell (d : List Nat) (i v : Nat) : List Nat :=
  if i < d.length then d.set i v else d ++ List.replicate (i - d.length) 0 ++ [v]

/-- Read `n` consecutive cells starting at `src`. -/
def readCells (d : List Nat) (src n : Nat) : List Nat :=
  (List.range n).map (fun j => getCell d (src + j))

/-- Write the cells `xs` at `dest`, `dest + 1`, ... -/
def writeCells : List Nat → Nat → List Nat → List Nat
  | d, _, [] => d
  | d, dest, x :: xs => writeCells (setCell d dest x) (dest + 1) xs

/-- Modelled from the spec: the node constructor `BTreeNode(type, keysize, valuesize,
blocksize)`: a header with the given kind and sizes, the other fields zero, and a
zeroed slot area. -/
def BTreeNode.new (t : BTreeNodeType) (keysize valuesize blocksize : Nat) : BTreeNode :=
  { info := { nodetype := t, keysize := keysize, valuesize := valuesize, blocksize := blocksize,
              rootnode := 0, freelist := 0, numkeys := 0 },
    data := [] }

/-- Modelled from the spec: the default-constructed node `BTreeNode b;`, which the spec
does not describe; it is taken as an unallocated node with a zero header. -/
def BTreeNode.default : BTreeNode := BTreeNode.new BTREE_UNALLOCATED_BLOCK 0 0 0

/-- Modelled from the spec: the number of key slots of a node, the capacity of its kind
(§4.2); every kind other than LEAF counts as interior. -/
def BTreeNode.keySlots (A : Arch) (b : BTreeNode) : Nat :=
  if b.info.nodetype = BTREE_LEAF_NODE then b.info.GetNumSlotsAsLeaf A
  else b.info.GetNumSlotsAsInterior A

/-- Modelled from the spec: `resolve_key(i)`.  Interior layout `P₀ K₀ P₁ K₁ … P_k` puts
key `i` in cell `2i+1`; the leaf layout of key/value pairs puts key `i` in cell `2i`. -/
def BTreeNode.ResolveKey (b : BTreeNode) (offset : Nat) : Nat :=
  if b.info.nodetype = BTREE_LEAF_NODE then 2 * offset else 2 * offset + 1

/-- Modelled from the spec: `resolve_ptr(i)`, pointer `i` of the interior layout is in
cell `2i`. -/
def BTreeNode.ResolvePtr (_b : BTreeNode) (offset : Nat) : Nat := 2 * offset

/-- Modelled from the spec: `resolve_value(i)`, value `i` of the leaf layout is in cell
`2i+1`. -/
def BTreeNode.ResolveVal (_b : BTreeNode) (offset : Nat) : Nat := 2 * offset + 1

/-- Modelled from the spec: `resolve_kv(i)`, pair `i` of the leaf layout starts in cell
`2i`. -/
def BTreeNode.ResolveKeyVal (_b : BTreeNode) (offset : Nat) : Nat := 2 * offset

/-- Modelled from the spec: `get_key(i)`; fails with `OutOfRange` when `i` is not one of
the key slots of the node. -/
def BTreeNode.GetKey (A : Arch) (b : BTreeNode) (offset : Nat) : Except ERROR_T Nat :=
  if offset < b.keySlots A then .ok (getCell b.data (b.ResolveKey offset))
  else .error ERROR_OUTOFRANGE

/-- Modelled from the spec: `set_key(i, k)`. -/
def BTreeNode.SetKey (A : Arch) (b : BTreeNode) (offset : Nat) (k : Nat) :
    Except ERROR_T BTreeNode :=
  if offset < b.keySlots A then .ok { b with data := setCell b.data (b.ResolveKey offset) k }
  else .error ERROR_OUTOFRANGE

/-- Modelled from the spec: `get_ptr(i)`; an interior node has one pointer more than it
has key slots, so the call fails with `OutOfRange` when `i` exceeds the interior
capacity. -/
def BTreeNode.GetPtr (A : Arch) (b : BTreeNode) (offset : Nat) : Except ERROR_T Nat :=
  if offset ≤ b.info.GetNumSlotsAsInterior A then .ok (getCell b.data (b.ResolvePtr offset))
  else .error ERROR_OUTOFRANGE

/-- Modelled from the spec: `set_ptr(i, id)`. -/
def BTreeNode.SetPtr (A : Arch) (b : BTreeNode) (offset : Nat) (p : Nat) :
    Except ERROR_T BTreeNode :=
  if offset ≤ b.info.GetNumSlotsAsInterior A then
    .ok { b with data := setCell b.data (b.ResolvePtr offset) p }
  else .error ERROR_OUTOFRANGE

/-- Modelled from the spec: `get_value(i, v)`; fails with `OutOfRange` when `i` is not
one of the leaf slots. -/
def BTreeNode.GetVal (A : Arch) (b : BTreeNode) (offset : Nat) : Except ERROR_T Nat :=
  if offset < b.info.GetNumSlotsAsLeaf A then .ok (getCell b.data (b.ResolveVal offset))
  else .error ERROR_OUTOFRANGE

/-- Modelled from the spec: `set_value(i, v)`. -/
def BTreeNode.SetVal (A : Arch) (b : BTreeNode) (offset : Nat) (v : Nat) :
    Except ERROR_T BTreeNode :=
  if offset < b.info.GetNumSlotsAsLeaf A then
    .ok { b with data := setCell b.data (b.ResolveVal offset) v }
  else .error ERROR_OUTOFRANGE

/-- An accessor call whose return code the source ignores: the node stays as it was
when the call fails. -/
def orKeep (r : Except ERROR_T BTreeNode) (b : BTreeNode) : BTreeNode :=
  match r with
  | .ok b' => b'
  | .error _ => b

/-- Modelled from the spec: the buffer cache of §4.1 and §6, a fixed number of blocks
of one size.  A block holds the header and slot area last written to it.  The two
advisory notifications carry no state. -/
structure BufferCache where
  blocksize : Nat
  blocks : List BTreeNode
  deriving DecidableEq, Repr

/-- Modelled from the spec: `block_size()`. -/
def BufferCache.GetBlockSize (c : BufferCache) : Nat := c.blocksize

/-- Modelled from the spec: `num_blocks()`. -/
def BufferCache.GetNumBlocks (c : BufferCache) : Nat := c.blocks.length

/-- Modelled from the spec: the typed read of a whole block, `IOError` for an id
outside `[0, num_blocks)`; the node is left as it was when the read fails. -/
def BTreeNode.Unserialize (b : BTreeNode) (c : BufferCache) (n : Nat) : ERROR_T × BTreeNode :=
  match c.blocks[n]? with
  | some blk => (ERROR_NOERROR, blk)
  | none => (ERROR_IOERROR, b)

/-- Modelled from the spec: the typed write of a whole block, `IOError` for an id
outside `[0, num_blocks)`. -/
def BTreeNode.Serialize (b : BTreeNode) (c : BufferCache) (n : Nat) : ERROR_T × BufferCache :=
  if n < c.blocks.length then (ERROR_NOERROR, { c with blocks := c.blocks.set n b })
  else (ERROR_IOERROR, c)

/-- The index handle: `buffercache`, `superblock_index` and the in-memory `superblock`. -/
structure BTreeIndex where
  buffercache : BufferCache
  superblock_index : Nat
  superblock : BTreeNode
  deriving DecidableEq, Repr

/-- The constructor `BTreeIndex(keysize, valuesize, cache, unique)` records the two sizes
in the in-memory superblock, a default-constructed node, and keeps the cache;
`superblock_index`, which it leaves unset, is taken as 0. -/
def BTreeIndex.new (keysize valuesize : Nat) (cache : BufferCache) : BTreeIndex :=
  { buffercache := cache, superblock_index := 0,
    superblock := BTreeNode.new BTREE_UNALLOCATED_BLOCK keysize valuesize 0 }

/-! ## Allocator -/

/-- Assign `n` to `superblock.info.rootnode`. -/
def BTreeIndex.setRootnode (t : BTreeIndex) (n : Nat) : BTreeIndex :=
  { t with superblock := { t.superblock with info := { t.superblock.info with rootnode := n } } }

/-- Assign `n` to `superblock.info.freelist`. -/
def BTreeIndex.setFreelist (t : BTreeIndex) (n : Nat) : BTreeIndex :=
  { t with superblock := { t.superblock with info := { t.superblock.info with freelist := n } } }

/-- Write the in-memory superblock to its block, `superblock.Serialize(buffercache,
superblock_index)`, the return code dropped. -/
def BTreeIndex.flushSuperblock (t : BTreeIndex) : BTreeIndex :=
  { t with buffercache := (t.superblock.Serialize t.buffercache t.superblock_index).2 }

/-- `BTreeIndex::AllocateNode(SIZE_T &n)`.  The flag tells whether the reference `n` is
`superblock.info.rootnode` itself, as in the call of `Insert` that grows the tree, or a
local variable of the caller.  The result is the return code, the final value of `n` and
the index state; `none` is the failed assertion. -/
def AllocateNode (t : BTreeIndex) (nIsRootnode : Bool) : Option (ERROR_T × Nat × BTreeIndex) :=
  let n := t.superblock.info.freelist
  let t1 := if nIsRootnode then t.setRootnode n else t
  if n = 0 then some (ERROR_NOSPACE, n, t1)
  else
    let node := (BTreeNode.default.Unserialize t1.buffercache n).2
    if node.info.nodetype ≠ BTREE_UNALLOCATED_BLOCK then none
    else some (ERROR_NOERROR, n, (t1.setFreelist node.info.freelist).flushSuperblock)

/-- `BTreeIndex::DeallocateNode(const SIZE_T &n)`; `none` is the failed assertion. -/
def DeallocateNode (t : BTreeIndex) (n : Nat) : Option (ERROR_T × BTreeIndex) :=
  let node := (BTreeNode.default.Unserialize t.buffercache n).2
  if node.info.nodetype = BTREE_UNALLOCATED_BLOCK then none
  else
    let node1 : BTreeNode :=
      { node with info := { node.info with nodetype := BTREE_UNALLOCATED_BLOCK,
                                           freelist := t.superblock.info.freelist } }
    let t1 : BTreeIndex := { t with buffercache := (node1.Serialize t.buffercache n).2 }
    some (ERROR_NOERROR, (t1.setFreelist n).flushSuperblock)

/-! ## Attach -/

/-- The node `newsuperblock` that `Attach` builds. -/
def Attach.newsuperblock (t : BTreeIndex) : BTreeNode :=
  let b := BTreeNode.new BTREE_SUPERBLOCK t.superblock.info.keysize t.superblock.info.valuesize
    t.buffercache.GetBlockSize
  { b with info := { b.info with rootnode := t.superblock_index + 1,
                                 freelist := t.superblock_index + 2, numkeys := 0 } }

/-- The node `newrootnode` that `Attach` builds. -/
def Attach.newrootnode (t : BTreeIndex) : BTreeNode :=
  let b := BTreeNode.new BTREE_ROOT_NODE t.superblock.info.keysize t.superblock.info.valuesize
    t.buffercache.GetBlockSize
  { b with info := { b.info with rootnode := t.superblock_index + 1,
                                 freelist := t.superblock_index + 2, numkeys := 0 } }

/-- The node `newfreenode` that `Attach` builds for block `i`. -/
def Attach.newfreenode (t : BTreeIndex) (c : BufferCache) (i : Nat) : BTreeNode :=
  let b := BTreeNode.new BTREE_UNALLOCATED_BLOCK t.superblock.info.keysize
    t.superblock.info.valuesize c.GetBlockSize
  { b with info := { b.info with rootnode := t.superblock_index + 1,
                                 freelist := if i + 1 = c.GetNumBlocks then 0 else i + 1 } }

/-- The loop of `Attach` that writes the free blocks, run for `i`, `i + 1`, ... as many
times as the first argument says. -/
def Attach.freeLoop (t : BTreeIndex) : Nat → Nat → BufferCache → ERROR_T × BufferCache
  | 0, _, c => (ERROR_NOERROR, c)
  | k + 1, i, c =>
    match (Attach.newfreenode t c i).Serialize c i with
    | (rc, c1) =>
      if rc ≠ ERROR_NOERROR then (rc, c1)
      else Attach.freeLoop t k (i + 1) c1

/-- The formatting branch of `Attach` (`create` is true); the free blocks are those from
`superblock_index + 2` up to the last block of the cache. -/
def Attach.format (t : BTreeIndex) : ERROR_T × BufferCache :=
  match (Attach.newsuperblock t).Serialize t.buffercache t.superblock_index with
  | (rc, c1) =>
    if rc ≠ ERROR_NOERROR then (rc, c1)
    else
      match (Attach.newrootnode t).Serialize c1 (t.superblock_index + 1) with
      | (rc, c2) =>
        if rc ≠ ERROR_NOERROR then (rc, c2)
        else
          Attach.freeLoop t (c2.GetNumBlocks - (t.superblock_index + 2))
            (t.superblock_index + 2) c2

/-- `BTreeIndex::Attach(initblock, create)`; `none` is the failed assertion
`superblock_index == 0`. -/
def Attach (t : BTreeIndex) (initblock : Nat) (create : Bool) : Option (ERROR_T × BTreeIndex) :=
  let t0 : BTreeIndex := { t with superblock_index := initblock }
  if t0.superblock_index ≠ 0 then none
  else if create then
    match Attach.format t0 with
    | (rc, c) =>
      if rc ≠ ERROR_NOERROR then some (rc, { t0 with buffercache := c })
      else
        match t0.superblock.Unserialize c initblock with
        | (rc1, sb) => some (rc1, { t0 with buffercache := c, superblock := sb })
  else
    match t0.superblock.Unserialize t0.buffercache initblock with
    | (rc1, sb) => some (rc1, { t0 with superblock := sb })

/-! ## Search -/

/-- The key scan of an interior node, `for (offset = ...; offset < numkeys; offset++)`,
with the first argument the number of iterations left: the pointer in front of the first
key larger than `key`, `none` when no key is larger. -/
def scanInterior (A : Arch) (b : BTreeNode) (key : Nat) :
    Nat → Nat → Except ERROR_T (Option Nat)
  | 0, _ => .ok none
  | k + 1, offset =>
    match b.GetKey A offset with
    | .error rc => .error rc
    | .ok testkey =>
      if key < testkey then
        match b.GetPtr A offset with
        | .error rc => .error rc
        | .ok ptr => .ok (some ptr)
      else scanInterior A b key k (offset + 1)

/-- The child an interior node sends `key` to: the scan, then the rightmost pointer
when the node has keys and none is larger; `.ok none` when the node has no key. -/
def chooseChild (A : Arch) (b : BTreeNode) (key : Nat) : Except ERROR_T (Option Nat) :=
  match scanInterior A b key b.info.numkeys 0 with
  | .error rc => .error rc
  | .ok (some ptr) => .ok (some ptr)
  | .ok none =>
    if b.info.numkeys > 0 then
      match b.GetPtr A b.info.numkeys with
      | .error rc => .error rc
      | .ok ptr => .ok (some ptr)
    else .ok none

/-- The key scan of a leaf: the first slot whose key equals `key`. -/
def scanLeaf (A : Arch) (b : BTreeNode) (key : Nat) :
    Nat → Nat → Except ERROR_T (Option Nat)
  | 0, _ => .ok none
  | k + 1, offset =>
    match b.GetKey A offset with
    | .error rc => .error rc
    | .ok testkey =>
      if testkey = key then .ok (some offset)
      else scanLeaf A b key k (offset + 1)

/-- The `BTREE_LEAF_NODE` case of `LookupOrUpdateInternal`, `b` being the block read
from `node`. -/
def LookupOrUpdateInternal.leafCase (A : Arch) (c : BufferCache) (node : Nat) (b : BTreeNode)
    (op : BTreeOp) (key : Nat) (value : Nat) : ERROR_T × Nat × BufferCache :=
  match scanLeaf A b key b.info.numkeys 0 with
  | .error rc => (rc, value, c)
  | .ok (some offset) =>
    match op with
    | BTREE_OP_LOOKUP =>
      match b.GetVal A offset with
      | .error rc => (rc, value, c)
      | .ok v => (ERROR_NOERROR, v, c)
    | BTREE_OP_UPDATE =>
      match b.SetVal A offset value with
      | .error rc => (rc, value, c)
      | .ok b1 =>
        match b1.Serialize c node with
        | (rc, c1) => (rc, value, c1)
  | .ok none => (ERROR_NONEXISTENT, value, c)

/-- `BTreeIndex::LookupOrUpdateInternal(node, op, key, value)`.  The result is the
return code, the final content of `value` and the buffer cache. -/
def LookupOrUpdateInternal (A : Arch) :
    Nat → BufferCache → Nat → BTreeOp → Nat → Nat →
      Option (ERROR_T × Nat × BufferCache)
  | 0, _, _, _, _, _ => none
  | fuel + 1, c, node, op, key, value =>
    match BTreeNode.default.Unserialize c node with
    | (rc, b) =>
      if rc ≠ ERROR_NOERROR then some (rc, value, c)
      else
        match b.info.nodetype with
        | BTREE_ROOT_NODE | BTREE_INTERIOR_NODE =>
          match chooseChild A b key with
          | .error rc1 => some (rc1, value, c)
          | .ok (some ptr) => LookupOrUpdateInternal A fuel c ptr op key value
          | .ok none => some (ERROR_NONEXISTENT, value, c)
        | BTREE_LEAF_NODE => some (LookupOrUpdateInternal.leafCase A c node b op key value)
        | _ => some (ERROR_INSANE, value, c)

/-- `BTreeIndex::Lookup(key, value)`. -/
def Lookup (A : Arch) (fuel : Nat) (t : BTreeIndex) (key : Nat) (value : Nat) :
    Option (ERROR_T × Nat × BTreeIndex) :=
  match LookupOrUpdateInternal A fuel t.buffercache t.superblock.info.rootnode
      BTREE_OP_LOOKUP key value with
  | none => none
  | some (rc, v, c) => some (rc, v, { t with buffercache := c })

/-- `BTreeIndex::Update(key, value)`. -/
def Update (A : Arch) (fuel : Nat) (t : BTreeIndex) (key : Nat) (value : Nat) :
    Option (ERROR_T × BTreeIndex) :=
  match LookupOrUpdateInternal A fuel t.buffercache t.superblock.info.rootnode
      BTREE_OP_UPDATE key value with
  | none => none
  | some (rc, _, c) => some (rc, { t with buffercache := c })

/-! ## Mutation engine -/

/-- `BTreeIndex::IsNodeFull(node)`. -/
def IsNodeFull (A : Arch) (t : BTreeIndex) (node : Nat) : Bool :=
  let b := (BTreeNode.default.Unserialize t.buffercache node).2
  match b.info.nodetype with
  | BTREE_ROOT_NODE | BTREE_INTERIOR_NODE => b.info.GetNumSlotsAsInterior A == b.info.numkeys
  | BTREE_LEAF_NODE => b.info.GetNumSlotsAsLeaf A == b.info.numkeys
  | _ => false

/-- The `memcpy` of `SplitNode`: `n` cells of `left` from cell `src` on are copied into
`right` from cell `dest` on. -/
def memcpyCells (right : BTreeNode) (dest : Nat) (left : BTreeNode) (src n : Nat) : BTreeNode :=
  { right with data := writeCells right.data dest (readCells left.data src n) }

/-- The `memmove` of `AddKeyValuePair`: `n` cells of the node are moved from cell `src`
to cell `dest`. -/
def memmoveCells (b : BTreeNode) (dest src n : Nat) : BTreeNode :=
  { b with data := writeCells b.data dest (readCells b.data src n) }

/-- Assign `n` to `info.numkeys` of a node. -/
def BTreeNode.setNumkeys (b : BTreeNode) (n : Nat) : BTreeNode :=
  { b with info := { b.info with numkeys := n } }

/-- A `GetKey` call whose return code the source ignores: the key variable keeps its
content when the call fails. -/
def keyOrKeep (r : Except ERROR_T Nat) (k : Nat) : Nat :=
  match r with
  | .ok k1 => k1
  | .error _ => k

/-- `BTreeIndex::SplitNode(node, newNode, splitKey)`.  The result is the return code, the
final contents of `newNode` and `splitKey`, and the index state.  An entry of a leaf
(`keysize + valuesize` bytes) and of an interior node (`keysize + sizeof(SIZE_T)` bytes)
is two cells, a pointer one cell.  The subtractions are those of natural numbers; the
source wraps around only for a node without keys. -/
def SplitNode (A : Arch) (t : BTreeIndex) (node : Nat) (splitKey : Nat) :
    Option (ERROR_T × Nat × Nat × BTreeIndex) :=
  let left := (BTreeNode.default.Unserialize t.buffercache node).2
  let right := left
  match AllocateNode t false with
  | none => none
  | some (rc, newNode, t1) =>
    if rc ≠ ERROR_NOERROR then some (rc, newNode, splitKey, t1)
    else
      match right.Serialize t1.buffercache newNode with
      | (rc1, c1) =>
        if rc1 ≠ ERROR_NOERROR then some (rc1, newNode, splitKey, { t1 with buffercache := c1 })
        else
          let numLeftKeys :=
            if left.info.nodetype = BTREE_LEAF_NODE then (left.info.numkeys + 2) / 2
            else left.info.numkeys / 2
          let numRightKeys :=
            if left.info.nodetype = BTREE_LEAF_NODE then left.info.numkeys - numLeftKeys
            else left.info.numkeys - numLeftKeys - 1
          let splitKey1 :=
            if left.info.nodetype = BTREE_LEAF_NODE then
              keyOrKeep (left.GetKey A (numLeftKeys - 1)) splitKey
            else keyOrKeep (left.GetKey A numLeftKeys) splitKey
          let right1 :=
            if left.info.nodetype = BTREE_LEAF_NODE then
              memcpyCells right (right.ResolveKeyVal 0) left (left.ResolveKeyVal numLeftKeys)
                (numRightKeys * 2)
            else
              memcpyCells right (right.ResolvePtr 0) left (left.ResolvePtr (numLeftKeys + 1))
                (numRightKeys * 2 + 1)
          let left2 := left.setNumkeys numLeftKeys
          let right2 := right1.setNumkeys numRightKeys
          match left2.Serialize c1 node with
          | (rc2, c2) =>
            if rc2 ≠ ERROR_NOERROR then
              some (rc2, newNode, splitKey1, { t1 with buffercache := c2 })
            else
              match right2.Serialize c2 newNode with
              | (rc3, c3) => some (rc3, newNode, splitKey1, { t1 with buffercache := c3 })

/-- The pair of stores `(rc = b.SetKey(i, key)) || (rc = b.SetVal(i, value))`. -/
def setKeyVal (A : Arch) (b : BTreeNode) (i : Nat) (key : Nat) (value : Nat) :
    Except ERROR_T BTreeNode :=
  match b.SetKey A i key with
  | .error rc => .error rc
  | .ok b1 => b1.SetVal A i value

/-- The pair of stores `(rc = b.SetKey(i, key)) || (rc = b.SetPtr(j, newNode))`. -/
def setKeyPtr (A : Arch) (b : BTreeNode) (i : Nat) (key : Nat) (j newNode : Nat) :
    Except ERROR_T BTreeNode :=
  match b.SetKey A i key with
  | .error rc => .error rc
  | .ok b1 => b1.SetPtr A j newNode

/-- The loop of `AddKeyValuePair`, `for (i = ..., entriesToCopy = ...; i < numkeys; i++,
entriesToCopy--)`; the first argument is `entriesToCopy`, which is also the number of
iterations left.  An entry (`entrySize` bytes) is two cells. -/
def AddKeyValuePair.loop (A : Arch) (key : Nat) (value : Nat) (newNode numkeys : Nat) :
    Nat → Nat → BTreeNode → Except ERROR_T BTreeNode
  | 0, _, b => .ok b
  | entriesToCopy + 1, i, b =>
    match b.GetKey A i with
    | .error rc => .error rc
    | .ok testkey =>
      if key < testkey then
        let b1 := memmoveCells b (b.ResolveKey (i + 1)) (b.ResolveKey i) ((entriesToCopy + 1) * 2)
        if b1.info.nodetype = BTREE_LEAF_NODE then setKeyVal A b1 i key value
        else setKeyPtr A b1 i key (i + 1) newNode
      else if i = numkeys - 1 then
        if b.info.nodetype = BTREE_LEAF_NODE then setKeyVal A b numkeys key value
        else setKeyPtr A b numkeys key (numkeys + 1) newNode
      else AddKeyValuePair.loop A key value newNode numkeys entriesToCopy (i + 1) b

/-- `BTreeIndex::AddKeyValuePair(node, key, value, newNode)`. -/
def AddKeyValuePair (A : Arch) (t : BTreeIndex) (node : Nat) (key : Nat) (value : Nat)
    (newNode : Nat) : ERROR_T × BTreeIndex :=
  let b := (BTreeNode.default.Unserialize t.buffercache node).2
  let numkeys := b.info.numkeys
  match b.info.nodetype with
  | BTREE_INTERIOR_NODE | BTREE_LEAF_NODE =>
    let b1 := b.setNumkeys (b.info.numkeys + 1)
    let r :=
      if numkeys > 0 then AddKeyValuePair.loop A key value newNode numkeys numkeys 0 b1
      else setKeyVal A b1 0 key value
    match r with
    | .error rc => (rc, t)
    | .ok b2 =>
      match b2.Serialize t.buffercache node with
      | (rc, c) => (rc, { t with buffercache := c })
  | _ => (ERROR_INSANE, t)

/-- `BTreeIndex::RecursivePlacement(node, parent, key, value)`.  Both branches of the
interior case, the one inside the key scan and the one for the rightmost pointer, run
the same statements on the pointer they found. -/
def RecursivePlacement (A : Arch) :
    Nat → BTreeIndex → Nat → Nat → Nat → Nat → Option (ERROR_T × BTreeIndex)
  | 0, _, _, _, _, _ => none
  | fuel + 1, t, node, _parent, key, value =>
    let b := (BTreeNode.default.Unserialize t.buffercache node).2
    match b.info.nodetype with
    | BTREE_ROOT_NODE | BTREE_LEAF_NODE => some (AddKeyValuePair A t node key value 0)
    | BTREE_INTERIOR_NODE =>
      match chooseChild A b key with
      | .error rc => some (rc, t)
      | .ok none => some (ERROR_NONEXISTENT, t)
      | .ok (some ptr) =>
        match RecursivePlacement A fuel t ptr node key value with
        | none => none
        | some (rc, t1) =>
          if rc ≠ ERROR_NOERROR then some (rc, t1)
          else if IsNodeFull A t1 ptr then
            match SplitNode A t1 ptr 0 with
            | none => none
            | some (rc1, newNode, splitKey, t2) =>
              if rc1 ≠ ERROR_NOERROR then some (rc1, t2)
              else some (AddKeyValuePair A t2 node splitKey 0 newNode)
          else some (rc, t1)
    | _ => some (ERROR_INSANE, t)

/-- The first part of `Insert`, run when the root read at entry has no key: two leaves
are allocated and the root gets `key` as its only key.  The result is an early return
code if there is one, the local `root` and the index state. -/
def Insert.firstKey (A : Arch) (t : BTreeIndex) (root : BTreeNode) (key : Nat) :
    Option (Option ERROR_T × BTreeNode × BTreeIndex) :=
  let leaf := BTreeNode.new BTREE_LEAF_NODE t.superblock.info.keysize
    t.superblock.info.valuesize t.buffercache.GetBlockSize
  match AllocateNode t false with
  | none => none
  | some (error, leftNode, t1) =>
    if error ≠ ERROR_NOERROR then some (some error, root, t1)
    else
      match AllocateNode t1 false with
      | none => none
      | some (error1, rightNode, t2) =>
        if error1 ≠ ERROR_NOERROR then some (some error1, root, t2)
        else
          let c1 := (leaf.Serialize t2.buffercache leftNode).2
          let c2 := (leaf.Serialize c1 rightNode).2
          let root1 := root.setNumkeys (root.info.numkeys + 1)
          let root2 := orKeep (root1.SetKey A 0 key) root1
          let root3 := orKeep (root2.SetPtr A 0 leftNode) root2
          let root4 := orKeep (root3.SetPtr A 1 rightNode) root3
          let c3 := (root4.Serialize c2 t2.superblock.info.rootnode).2
          some (none, root4, { t2 with buffercache := c3 })

/-- The part of `Insert` run when the root is full after the placement: the old root is
split and a new root block is allocated and written from the local `root`.  The return
code is the one of the allocation, which overwrites the one of the placement. -/
def Insert.growRoot (A : Arch) (t : BTreeIndex) (root : BTreeNode) (oldRoot : Nat) :
    Option (ERROR_T × BTreeIndex) :=
  match SplitNode A t oldRoot 0 with
  | none => none
  | some (_, newNode, splitKey, t1) =>
    let interior := BTreeNode.new BTREE_INTERIOR_NODE t.superblock.info.keysize
      t.superblock.info.valuesize t.buffercache.GetBlockSize
    let interior1 := (interior.Unserialize t1.buffercache oldRoot).2
    let c1 := (interior1.Serialize t1.buffercache oldRoot).2
    let interior2 := (interior1.Unserialize c1 newNode).2
    let c2 := (interior2.Serialize c1 newNode).2
    let t2 : BTreeIndex := { t1 with buffercache := c2 }
    match AllocateNode t2 true with
    | none => none
    | some (error1, _, t3) =>
      if error1 ≠ ERROR_NOERROR then some (error1, t3)
      else
        let root1 := root.setNumkeys 1
        let root2 := orKeep (root1.SetKey A 0 splitKey) root1
        let root3 := orKeep (root2.SetPtr A 0 oldRoot) root2
        let root4 := orKeep (root3.SetPtr A 1 newNode) root3
        let c3 := (root4.Serialize t3.buffercache t3.superblock.info.rootnode).2
        some (error1, { t3 with buffercache := c3 })

/-- The part of `Insert` from the declaration of `temp` on. -/
def Insert.place (A : Arch) (fuel : Nat) (t : BTreeIndex) (root : BTreeNode) (key : Nat)
    (value : Nat) : Option (ERROR_T × BTreeIndex) :=
  let oldRoot := t.superblock.info.rootnode
  match Lookup A fuel t key 0 with
  | none => none
  | some (rcLookup, _, t1) =>
    if rcLookup = ERROR_NONEXISTENT then
      match RecursivePlacement A fuel t1 t1.superblock.info.rootnode
          t1.superblock.info.rootnode key value with
      | none => none
      | some (error, t2) =>
        if IsNodeFull A t2 t2.superblock.info.rootnode then Insert.growRoot A t2 root oldRoot
        else some (error, t2)
    else some (ERROR_CONFLICT, t1)

/-- `BTreeIndex::Insert(key, value)`. -/
def Insert (A : Arch) (fuel : Nat) (t : BTreeIndex) (key : Nat) (value : Nat) :
    Option (ERROR_T × BTreeIndex) :=
  let root := (BTreeNode.default.Unserialize t.buffercache t.superblock.info.rootnode).2
  if root.info.numkeys = 0 then
    match Insert.firstKey A t root key with
    | none => none
    | some (some error, _, t1) => some (error, t1)
    | some (none, root1, t1) => Insert.place A fuel t1 root1 key value
  else Insert.place A fuel t root key value

/-! ## Traversal and sanity check -/

/-- What the sorted key/value display writes to its stream: the pieces of a line
`(key,value)` and the text for a block that is no tree node. -/
inductive Tok where
  | lparen
  | keyBytes (k : Nat)
  | comma
  | valueBytes (v : Nat)
  | rparenNewline
  | unsupported (t : BTreeNodeType)
  deriving DecidableEq, Repr

/-- The loop of `PrintNode` over the slots of a leaf, for `dt == BTREE_SORTED_KEYVAL`. -/
def PrintNode.leafLoop (A : Arch) (b : BTreeNode) : Nat → Nat → List Tok → ERROR_T × List Tok
  | 0, _, os => (ERROR_NOERROR, os)
  | k + 1, offset, os =>
    match (if offset = 0 then b.GetPtr A offset else .ok 0) with
    | .error rc => (rc, os)
    | .ok _ =>
      let os1 := os ++ [Tok.lparen]
      match b.GetKey A offset with
      | .error rc => (rc, os1)
      | .ok key =>
        let os2 := os1 ++ [Tok.keyBytes key, Tok.comma]
        match b.GetVal A offset with
        | .error rc => (rc, os2)
        | .ok value =>
          PrintNode.leafLoop A b k (offset + 1) (os2 ++ [Tok.valueBytes value, Tok.rparenNewline])

/-- `PrintNode(os, nodenum, b, dt)` for `dt == BTREE_SORTED_KEYVAL`, the display style of
`Print`; under this style an interior node writes nothing. -/
def PrintNode (A : Arch) (os : List Tok) (b : BTreeNode) : ERROR_T × List Tok :=
  match b.info.nodetype with
  | BTREE_ROOT_NODE | BTREE_INTERIOR_NODE => (ERROR_NOERROR, os)
  | BTREE_LEAF_NODE => PrintNode.leafLoop A b b.info.numkeys 0 os
  | _ => (ERROR_NOERROR, os ++ [Tok.unsupported b.info.nodetype])

/-- The loop of `DisplayInternal` over the pointers of an interior node; `rec` is the
recursive call. -/
def DisplayInternal.loop (A : Arch) (b : BTreeNode)
    (rec : Nat → List Tok → Option (ERROR_T × List Tok)) :
    Nat → Nat → List Tok → Option (ERROR_T × List Tok)
  | 0, _, os => some (ERROR_NOERROR, os)
  | k + 1, offset, os =>
    match b.GetPtr A offset with
    | .error rc => some (rc, os)
    | .ok ptr =>
      match rec ptr os with
      | none => none
      | some (rc, os1) =>
        if rc ≠ ERROR_NOERROR then some (rc, os1)
        else DisplayInternal.loop A b rec k (offset + 1) os1

/-- `BTreeIndex::DisplayInternal(node, o, display_type)` for
`display_type == BTREE_SORTED_KEYVAL`. -/
def DisplayInternal (A : Arch) (c : BufferCache) :
    Nat → Nat → List Tok → Option (ERROR_T × List Tok)
  | 0, _, _ => none
  | fuel + 1, node, o =>
    match BTreeNode.default.Unserialize c node with
    | (rc, b) =>
      if rc ≠ ERROR_NOERROR then some (rc, o)
      else
        match PrintNode A o b with
        | (rc1, o1) =>
          if rc1 ≠ ERROR_NOERROR then some (rc1, o1)
          else
            match b.info.nodetype with
            | BTREE_ROOT_NODE | BTREE_INTERIOR_NODE =>
              if b.info.numkeys > 0 then
                DisplayInternal.loop A b (DisplayInternal A c fuel) (b.info.numkeys + 1) 0 o1
              else some (ERROR_NOERROR, o1)
            | BTREE_LEAF_NODE => some (ERROR_NOERROR, o1)
            | _ => some (ERROR_INSANE, o1 ++ [Tok.unsupported b.info.nodetype])

/-- `BTreeIndex::Display(o, display_type)` for `display_type == BTREE_SORTED_KEYVAL`: the
return code of the walk is dropped. -/
def Display (A : Arch) (fuel : Nat) (t : BTreeIndex) (o : List Tok) :
    Option (ERROR_T × List Tok) :=
  match DisplayInternal A t.buffercache fuel t.superblock.info.rootnode o with
  | none => none
  | some (_, o1) => some (ERROR_NOERROR, o1)

/-- `BTreeIndex::NodeCheck(node, totalKeys)`: the first statement of the body is
`return ERROR_NOERROR;`, so `totalKeys` is left as it was and nothing below that
statement runs. -/
def NodeCheck (_t : BTreeIndex) (_node : Nat) (totalKeys : Nat) : ERROR_T × Nat :=
  (ERROR_NOERROR, totalKeys)

/-- `BTreeIndex::SanityCheck()`.  The local `totalKeys` is declared without a value; what
it holds at entry is the last argument. -/
def SanityCheck (t : BTreeIndex) (totalKeys : Nat) : ERROR_T :=
  match NodeCheck t t.superblock.info.rootnode totalKeys with
  | (rc, totalKeys1) =>
    if rc ≠ ERROR_NOERROR then rc
    else if totalKeys1 ≠ t.superblock.info.numkeys then ERROR_INSANE
    else ERROR_NOERROR

/-! ## The notions the properties are stated with

None of the definitions below is code of `btree.cc`; they say what a tree in the buffer
cache is and what it stores. -/

/-- Key `Kᵢ` of a node, read from its slot area without a bounds check. -/
def BTreeNode.keyAt (b : BTreeNode) (i : Nat) : Nat := getCell b.data (b.ResolveKey i)

/-- Pointer `Pᵢ` of a node, read from its slot area without a bounds check. -/
def BTreeNode.ptrAt (b : BTreeNode) (i : Nat) : Nat := getCell b.data (b.ResolvePtr i)

/-- Value `i` of a node, read from its slot area without a bounds check. -/
def BTreeNode.valAt (b : BTreeNode) (i : Nat) : Nat := getCell b.data (b.ResolveVal i)

/-- The key/value pairs a leaf stores, in slot order. -/
def BTreeNode.pairs (b : BTreeNode) : List (Nat × Nat) :=
  (List.range' 0 b.info.numkeys).map (fun i => (b.keyAt i, b.valAt i))

/-- The child pointers `P₀ … P_numkeys` of an interior node. -/
def BTreeNode.children (b : BTreeNode) : List Nat :=
  (List.range' 0 (b.info.numkeys + 1)).map b.ptrAt

/-- Block `node` is the root of a tree of height at most `h` (an acyclic tree): it is a
LEAF, or `h` is positive and it is a ROOT or INTERIOR node with at least one key whose
children are roots of trees of height at most `h - 1`.  The number of keys of every node
is within the capacity of its kind. -/
def isTree (A : Arch) (c : BufferCache) : Nat → Nat → Bool
  | 0, node =>
    match c.blocks[node]? with
    | some b =>
      match b.info.nodetype with
      | BTREE_LEAF_NODE => decide (b.info.numkeys ≤ b.info.GetNumSlotsAsLeaf A)
      | _ => false
    | none => false
  | h + 1, node =>
    match c.blocks[node]? with
    | some b =>
      match b.info.nodetype with
      | BTREE_LEAF_NODE => decide (b.info.numkeys ≤ b.info.GetNumSlotsAsLeaf A)
      | BTREE_ROOT_NODE | BTREE_INTERIOR_NODE =>
        decide (0 < b.info.numkeys) && decide (b.info.numkeys ≤ b.info.GetNumSlotsAsInterior A)
          && b.children.all (isTree A c h)
      | _ => false
    | none => false

/-- The key/value pairs stored in the leaves reachable from `node` within `h` levels,
leaves taken from left to right and slots in slot order. -/
def leafPairs (c : BufferCache) : Nat → Nat → List (Nat × Nat)
  | 0, node =>
    match c.blocks[node]? with
    | some b =>
      match b.info.nodetype with
      | BTREE_LEAF_NODE => b.pairs
      | _ => []
    | none => []
  | h + 1, node =>
    match c.blocks[node]? with
    | some b =>
      match b.info.nodetype with
      | BTREE_LEAF_NODE => b.pairs
      | BTREE_ROOT_NODE | BTREE_INTERIOR_NODE => b.children.flatMap (leafPairs c h)
      | _ => []
    | none => []

/-- The ordering semantics of §3 at every interior node below `node`: all keys reachable
via `Pᵢ` are strictly less than `Kᵢ`, all keys reachable via `Pᵢ₊₁` are greater than or
equal to `Kᵢ`. -/
def ordered (c : BufferCache) : Nat → Nat → Bool
  | 0, _ => true
  | h + 1, node =>
    match c.blocks[node]? with
    | some b =>
      match b.info.nodetype with
      | BTREE_ROOT_NODE | BTREE_INTERIOR_NODE =>
        (List.range' 0 b.info.numkeys).all (fun i =>
          (leafPairs c h (b.ptrAt i)).all (fun p => decide (p.1 < b.keyAt i))
            && (leafPairs c h (b.ptrAt (i + 1))).all (fun p => decide (b.keyAt i ≤ p.1)))
          && b.children.all (ordered c h)
      | _ => true
    | none => true

/-- The keys of every interior node below `node` are in ascending order. -/
def interiorKeysAscending (c : BufferCache) : Nat → Nat → Bool
  | 0, _ => true
  | h + 1, node =>
    match c.blocks[node]? with
    | some b =>
      match b.info.nodetype with
      | BTREE_ROOT_NODE | BTREE_INTERIOR_NODE =>
        (List.range' 0 (b.info.numkeys - 1)).all (fun i => decide (b.keyAt i ≤ b.keyAt (i + 1)))
          && b.children.all (interiorKeysAscending c h)
      | _ => true
    | none => true

/-- The keys of a leaf are strictly ascending. -/
def BTreeNode.leafKeysAscending (b : BTreeNode) : Bool :=
  (List.range' 0 (b.info.numkeys - 1)).all (fun i => decide (b.keyAt i < b.keyAt (i + 1)))

/-- The keys of every leaf below `node` are strictly ascending. -/
def leafKeysAscending (c : BufferCache) : Nat → Nat → Bool
  | 0, node =>
    match c.blocks[node]? with
    | some b =>
      match b.info.nodetype with
      | BTREE_LEAF_NODE => b.leafKeysAscending
      | _ => true
    | none => true
  | h + 1, node =>
    match c.blocks[node]? with
    | some b =>
      match b.info.nodetype with
      | BTREE_LEAF_NODE => b.leafKeysAscending
      | BTREE_ROOT_NODE | BTREE_INTERIOR_NODE => b.children.all (leafKeysAscending c h)
      | _ => true
    | none => true

/-- Where the descent of `LookupOrUpdateInternal` for `key` ends: at a leaf, given with
its block id, or with a return code. -/
def descend (A : Arch) (c : BufferCache) (key : Nat) :
    Nat → Nat → Option (ERROR_T ⊕ (Nat × BTreeNode))
  | 0, _ => none
  | fuel + 1, node =>
    match c.blocks[node]? with
    | none => some (.inl ERROR_IOERROR)
    | some b =>
      match b.info.nodetype with
      | BTREE_ROOT_NODE | BTREE_INTERIOR_NODE =>
        match chooseChild A b key with
        | .error rc => some (.inl rc)
        | .ok (some ptr) => descend A c key fuel ptr
        | .ok none => some (.inl ERROR_NONEXISTENT)
      | BTREE_LEAF_NODE => some (.inr (node, b))
      | _ => some (.inl ERROR_INSANE)

/-- The index of the child an interior node sends `key` to: the first `i` at or after
`offset` with `key < Kᵢ` among the next `k` keys, `offset + k` when there is none. -/
def childIndex (b : BTreeNode) (key : Nat) : Nat → Nat → Nat
  | 0, offset => offset
  | k + 1, offset => if key < b.keyAt offset then offset else childIndex b key k (offset + 1)

/-- What a lookup is to return when the leaves store `r` for the key. -/
def lookupOutcome (c : BufferCache) (value : Nat) :
    Option Nat → ERROR_T × Nat × BufferCache
  | some v => (ERROR_NOERROR, v, c)
  | none => (ERROR_NONEXISTENT, value, c)

/-- What the sorted display writes for a list of pairs: one line `(key,value)` each. -/
def renderPairs (l : List (Nat × Nat)) : List Tok :=
  l.flatMap (fun p => [Tok.lparen, Tok.keyBytes p.1, Tok.comma, Tok.valueBytes p.2,
    Tok.rparenNewline])

/-- The free list of §3: the blocks met from `head` on along the `freelist` header
fields up to the sentinel 0; `none` when the walk leaves the cache or does not end
within `fuel` steps. -/
def freeListWalk (c : BufferCache) : Nat → Nat → Option (List Nat)
  | 0, _ => none
  | fuel + 1, head =>
    if head = 0 then some []
    else
      match c.blocks[head]? with
      | none => none
      | some b =>
        match freeListWalk c fuel b.info.freelist with
        | none => none
        | some l => some (head :: l)

/-! ## Sample index images -/

/-- The sizes of the examples: a block header of 28 bytes and block pointers of 4 bytes. -/
def exArch : Arch := { sizeofNodeMetadata := 28, sizeofSIZE_T := 4 }

/-- A block of the examples: keys and values of 4 bytes in blocks of 52 bytes, which
gives an interior node 2 key slots and a leaf 3. -/
def exBlock (t : BTreeNodeType) (freelist numkeys : Nat) (data : List Nat) : BTreeNode :=
  { info := { nodetype := t, keysize := 4, valuesize := 4, blocksize := 52, rootnode := 1,
              freelist := freelist, numkeys := numkeys },
    data := data }

/-- An index image as `Attach(0, false)` mounts it: a full root with the keys 10 and 20
over three leaves that store the keys 5, 10, 15 and 20; the free list is empty. -/
def exFullRoot : BTreeIndex :=
  { buffercache :=
      { blocksize := 52,
        blocks := [exBlock BTREE_SUPERBLOCK 0 4 [],
                   exBlock BTREE_ROOT_NODE 0 2 [2, 10, 3, 20, 4],
                   exBlock BTREE_LEAF_NODE 0 1 [5, 50],
                   exBlock BTREE_LEAF_NODE 0 2 [10, 100, 15, 150],
                   exBlock BTREE_LEAF_NODE 0 1 [20, 200]] },
    superblock_index := 0,
    superblock := exBlock BTREE_SUPERBLOCK 0 4 [] }

/-- The image `exFullRoot` after `Update(15, 151)`: the second value slot of the leaf in
block 3 holds 151. -/
def exFullRootUpdated : BTreeIndex :=
  { buffercache :=
      { blocksize := 52,
        blocks := [exBlock BTREE_SUPERBLOCK 0 4 [],
                   exBlock BTREE_ROOT_NODE 0 2 [2, 10, 3, 20, 4],
                   exBlock BTREE_LEAF_NODE 0 1 [5, 50],
                   exBlock BTREE_LEAF_NODE 0 2 [10, 100, 15, 151],
                   exBlock BTREE_LEAF_NODE 0 1 [20, 200]] },
    superblock_index := 0,
    superblock := exBlock BTREE_SUPERBLOCK 0 4 [] }

/-- An index image whose root has the keys 5 and 3, in this order, over the leaves
`[(4,40)]`, `[]` and `[(3,30)]`; the superblock counts no key. -/
def exDescendingRoot : BTreeIndex :=
  { buffercache :=
      { blocksize := 52,
        blocks := [exBlock BTREE_SUPERBLOCK 0 0 [],
                   exBlock BTREE_ROOT_NODE 0 2 [2, 5, 3, 3, 4],
                   exBlock BTREE_LEAF_NODE 0 1 [4, 40],
                   exBlock BTREE_LEAF_NODE 0 0 [],
                   exBlock BTREE_LEAF_NODE 0 1 [3, 30]] },
    superblock_index := 0,
    superblock := exBlock BTREE_SUPERBLOCK 0 0 [] }

/-- The index `Attach(0, true)` formats over five blank blocks of 52 bytes, for keys and
values of 4 bytes. -/
def exFresh : BTreeIndex :=
  { buffercache :=
      { blocksize := 52,
        blocks := [exBlock BTREE_SUPERBLOCK 2 0 [],
                   exBlock BTREE_ROOT_NODE 2 0 [],
                   exBlock BTREE_UNALLOCATED_BLOCK 3 0 [],
                   exBlock BTREE_UNALLOCATED_BLOCK 4 0 [],
                   exBlock BTREE_UNALLOCATED_BLOCK 0 0 []] },
    superblock_index := 0,
    superblock := exBlock BTREE_SUPERBLOCK 2 0 [] }

/-- The state of `exFresh` after `Insert(k, _)`: the free list lost the blocks 2 and 3,
which are empty leaves now, and the root got `k` as its only key; no leaf stores `k`. -/
def exFreshAfterInsert (k : Nat) : BTreeIndex :=
  { buffercache :=
      { blocksize := 52,
        blocks := [exBlock BTREE_SUPERBLOCK 4 0 [],
                   exBlock BTREE_ROOT_NODE 2 1 [2, k, 3],
                   (BTreeNode.new BTREE_LEAF_NODE 4 4 52),
                   (BTreeNode.new BTREE_LEAF_NODE 4 4 52),
                   exBlock BTREE_UNALLOCATED_BLOCK 0 0 []] },
    superblock_index := 0,
    superblock := exBlock BTREE_SUPERBLOCK 4 0 [] }

/-- A buffer cache of `n` blocks that nothing was written to yet. -/
def blankCache (n blocksize : Nat) : BufferCache :=
  { blocksize := blocksize, blocks := List.replicate n BTreeNode.default }

/-- The index `Attach(0, true)` formats over six blank blocks of 40 bytes, for keys and
values of 4 bytes: an interior node has a single key slot. -/
def exTiny : BTreeIndex :=
  match Attach (BTreeIndex.new 4 4 (blankCache 6 40)) 0 true with
  | some (_, t) => t
  | none => BTreeIndex.new 4 4 (blankCache 6 40)

/-! ## Notions for the allocator, the split and the block accounting -/

/-- The block `DeallocateNode` writes in place of `b`: kind UNALLOCATED, `freelist` the
head of the free list at the time of the call, the rest of `b` as it was. -/
def freedBlock (b : BTreeNode) (head : Nat) : BTreeNode :=
  { b with info := { b.info with nodetype := BTREE_UNALLOCATED_BLOCK, freelist := head } }

/-- The number of keys `SplitNode` leaves in the node it splits (`numLeftKeys`). -/
def splitLeftCount (b : BTreeNode) : Nat :=
  if b.info.nodetype = BTREE_LEAF_NODE then (b.info.numkeys + 2) / 2 else b.info.numkeys / 2

/-- The number of keys `SplitNode` gives the new node (`numRightKeys`). -/
def splitRightCount (b : BTreeNode) : Nat :=
  if b.info.nodetype = BTREE_LEAF_NODE then b.info.numkeys - splitLeftCount b
  else b.info.numkeys - splitLeftCount b - 1

/-- The node `left` as `SplitNode` writes it back, `b` being the block it read. -/
def splitLeft (b : BTreeNode) : BTreeNode := b.setNumkeys (splitLeftCount b)

/-- The node `right` as `SplitNode` writes it to the new block, `b` being the block it
read. -/
def splitRight (b : BTreeNode) : BTreeNode :=
  (if b.info.nodetype = BTREE_LEAF_NODE then
    memcpyCells b (b.ResolveKeyVal 0) b (b.ResolveKeyVal (splitLeftCount b))
      (splitRightCount b * 2)
  else
    memcpyCells b (b.ResolvePtr 0) b (b.ResolvePtr (splitLeftCount b + 1))
      (splitRightCount b * 2 + 1)).setNumkeys (splitRightCount b)

/-- The keys `K₀ … K_{numkeys-1}` of a node, in slot order. -/
def BTreeNode.keys (b : BTreeNode) : List Nat :=
  (List.range' 0 b.info.numkeys).map b.keyAt

/-- An index image of three levels, blocks of 52 bytes: the root (block 1) has the key 100
over the interior node of block 2 and the leaf of block 5; the interior node has the key
10 over the full leaf of block 3, which stores the keys 3, 5 and 7, and the leaf of
block 4; block 6 is the free list. -/
def exSplit : BTreeIndex :=
  { buffercache :=
      { blocksize := 52,
        blocks := [exBlock BTREE_SUPERBLOCK 6 5 [],
                   exBlock BTREE_ROOT_NODE 0 1 [2, 100, 5],
                   exBlock BTREE_INTERIOR_NODE 0 1 [3, 10, 4],
                   exBlock BTREE_LEAF_NODE 0 3 [3, 30, 5, 50, 7, 70],
                   exBlock BTREE_LEAF_NODE 0 1 [10, 100],
                   exBlock BTREE_LEAF_NODE 0 1 [100, 1000],
                   exBlock BTREE_UNALLOCATED_BLOCK 0 0 []] },
    superblock_index := 0,
    superblock := exBlock BTREE_SUPERBLOCK 6 5 [] }

/-- A block of `blocksize` bytes for keys and values of 4 bytes. -/
def exSmallBlock (blocksize : Nat) (t : BTreeNodeType) (freelist numkeys : Nat)
    (data : List Nat) : BTreeNode :=
  { info := { nodetype := t, keysize := 4, valuesize := 4, blocksize := blocksize,
              rootnode := 1, freelist := freelist, numkeys := numkeys },
    data := data }

/-- An index image with blocks of `blocksize` bytes: the root has the key 9 over the leaf
of block 2, which has `numkeys` pairs in the cells `data`, and the leaf of block 3;
block 4 is the free list. -/
def exSmall (blocksize numkeys : Nat) (data : List Nat) : BTreeIndex :=
  { buffercache :=
      { blocksize := blocksize,
        blocks := [exSmallBlock blocksize BTREE_SUPERBLOCK 4 0 [],
                   exSmallBlock blocksize BTREE_ROOT_NODE 0 1 [2, 9, 3],
                   exSmallBlock blocksize BTREE_LEAF_NODE 0 numkeys data,
                   exSmallBlock blocksize BTREE_LEAF_NODE 0 1 [9, 90],
                   exSmallBlock blocksize BTREE_UNALLOCATED_BLOCK 0 0 []] },
    superblock_index := 0,
    superblock := exSmallBlock blocksize BTREE_SUPERBLOCK 4 0 [] }

/-- The image `exSplit` after `SplitNode` of block 3: the leaf keeps the keys 3 and 5,
block 6 is a leaf with the key 7, the free list is empty. -/
def exSplitAfter : BTreeIndex :=
  { buffercache :=
      { blocksize := 52,
        blocks := [exBlock BTREE_SUPERBLOCK 0 5 [],
                   exBlock BTREE_ROOT_NODE 0 1 [2, 100, 5],
                   exBlock BTREE_INTERIOR_NODE 0 1 [3, 10, 4],
                   exBlock BTREE_LEAF_NODE 0 2 [3, 30, 5, 50, 7, 70],
                   exBlock BTREE_LEAF_NODE 0 1 [10, 100],
                   exBlock BTREE_LEAF_NODE 0 1 [100, 1000],
                   exBlock BTREE_LEAF_NODE 0 1 [7, 70, 5, 50, 7, 70]] },
    superblock_index := 0,
    superblock := exBlock BTREE_SUPERBLOCK 0 5 [] }

/-- The image `exFullRoot` with a sixth block, which is the free list. -/
def exFullRootFree : BTreeIndex :=
  { buffercache :=
      { blocksize := 52,
        blocks := [exBlock BTREE_SUPERBLOCK 5 4 [],
                   exBlock BTREE_ROOT_NODE 0 2 [2, 10, 3, 20, 4],
                   exBlock BTREE_LEAF_NODE 0 1 [5, 50],
                   exBlock BTREE_LEAF_NODE 0 2 [10, 100, 15, 150],
                   exBlock BTREE_LEAF_NODE 0 1 [20, 200],
                   exBlock BTREE_UNALLOCATED_BLOCK 0 0 []] },
    superblock_index := 0,
    superblock := exBlock BTREE_SUPERBLOCK 5 4 [] }

/-- The slot area of a leaf with `n` pairs after `AddKeyValuePair` moved the pairs from
pair `j` on up by one pair and stored `(key, value)` as pair `j`. -/
def insertedCells (d : List Nat) (n j key value : Nat) : List Nat :=
  setCell (setCell (writeCells d (2 * (j + 1)) (readCells d (2 * j) ((n - j) * 2)))
    (2 * j) key) (2 * j + 1) value

/-- The leaf `AddKeyValuePair` writes back when it adds `(key, value)` to the leaf `b`:
one key more, the pair stored before the first key greater than `key`. -/
def leafInserted (b : BTreeNode) (key value : Nat) : BTreeNode :=
  { info := { b.info with numkeys := b.info.numkeys + 1 },
    data := insertedCells b.data b.info.numkeys (childIndex b key b.info.numkeys 0) key value }

/-- The ids of the blocks of the cache that have kind `k`, in ascending order. -/
def blocksOfKind (c : BufferCache) (k : BTreeNodeType) : List Nat :=
  (List.range c.blocks.length).filter (fun i =>
    match c.blocks[i]? with
    | some b => decide (b.info.nodetype = k)
    | none => false)

/-- The image `exSplitAfter` after `AddKeyValuePair(2, 5, _, 6)`: the interior node of
block 2 has the keys 5 and 10 over the blocks 3, 6 and 4. -/
def exSplitDone : BTreeIndex :=
  { buffercache :=
      { blocksize := 52,
        blocks := [exBlock BTREE_SUPERBLOCK 0 5 [],
                   exBlock BTREE_ROOT_NODE 0 1 [2, 100, 5],
                   exBlock BTREE_INTERIOR_NODE 0 2 [3, 5, 6, 10, 4],
                   exBlock BTREE_LEAF_NODE 0 2 [3, 30, 5, 50, 7, 70],
                   exBlock BTREE_LEAF_NODE 0 1 [10, 100],
                   exBlock BTREE_LEAF_NODE 0 1 [100, 1000],
                   exBlock BTREE_LEAF_NODE 0 1 [7, 70, 5, 50, 7, 70]] },
    superblock_index := 0,
    superblock := exBlock BTREE_SUPERBLOCK 0 5 [] }

/-- The blocks the tree walk of `DisplayInternal` visits from `node` on, within `h` levels
below it: the node itself and, for a ROOT or INTERIOR node with at least one key, the
blocks visited from its children `P₀ … P_numkeys`. -/
def treeBlocks (c : BufferCache) : Nat → Nat → List Nat
  | 0, node => [node]
  | h + 1, node =>
    match c.blocks[node]? with
    | some b =>
      match b.info.nodetype with
      | BTREE_ROOT_NODE | BTREE_INTERIOR_NODE =>
        if 0 < b.info.numkeys then node :: b.children.flatMap (treeBlocks c h) else [node]
      | _ => [node]
    | none => [node]

/-- The block accounting of §3: the walk of the free list ends, and the superblock, the
blocks of the tree walk from the root and the blocks of the free list are, without
repetition, the blocks `0 … num_blocks - 1`.  Both walks go `fuel` steps deep. -/
def blocksAccounted (t : BTreeIndex) (fuel : Nat) : Bool :=
  match freeListWalk t.buffercache fuel t.superblock.info.freelist with
  | none => false
  | some free =>
    decide ((t.superblock_index ::
      (treeBlocks t.buffercache fuel t.superblock.info.rootnode ++ free)).Perm
        (List.range t.buffercache.blocks.length))

/-- The index `Attach(0, true)` formats over three blank blocks of 52 bytes, for keys and
values of 4 bytes: the superblock, the root and one free block. -/
def exThree : BTreeIndex :=
  match Attach (BTreeIndex.new 4 4 (blankCache 3 52)) 0 true with
  | some (_, t) => t
  | none => BTreeIndex.new 4 4 (blankCache 3 52)

/-! ## Cells and blocks -/

theorem getCell_setCell (d : List Nat) (i v j : Nat) :
    getCell (setCell d i v) j = if j = i then v else getCell d j := by
  unfold getCell setCell
  by_cases h : i < d.length
  · simp only [h, if_true, List.getD_eq_getElem?_getD, List.getElem?_set]
    by_cases hji : j = i
    · subst hji; simp [h]
    · have : ¬ i = j := fun e => hji e.symm
      simp [hji, this]
  · simp only [h, if_false, List.getD_eq_getElem?_getD]
    have hle : d.length ≤ i := Nat.le_of_not_lt h
    by_cases hji : j = i
    · subst hji
      simp [List.getElem?_append_right, hle]
    · simp only [hji, if_false]
      rcases Nat.lt_or_ge j d.length with hj | hj
      · simp [List.getElem?_append_left, hj, List.append_assoc]
      · rcases Nat.lt_or_ge j i with hj2 | hj2
        · rw [List.append_assoc, List.getElem?_append_right hj]
          have : j - d.length < i - d.length := by omega
          simp [List.getElem?_append_left, this, List.getElem?_eq_none hj]
        · have hlt : i < j := by omega
          rw [List.getElem?_eq_none, List.getElem?_eq_none hj]
          simp; omega

theorem unserialize_some (b0 : BTreeNode) (c : BufferCache) (n : Nat) (b : BTreeNode)
    (h : c.blocks[n]? = some b) : b0.Unserialize c n = (ERROR_NOERROR, b) := by
  simp [BTreeNode.Unserialize, h]

theorem unserialize_none (b0 : BTreeNode) (c : BufferCache) (n : Nat)
    (h : c.blocks[n]? = none) : b0.Unserialize c n = (ERROR_IOERROR, b0) := by
  simp [BTreeNode.Unserialize, h]

theorem lt_length_of_some (c : BufferCache) (n : Nat) (b : BTreeNode)
    (h : c.blocks[n]? = some b) : n < c.blocks.length := by
  rcases Nat.lt_or_ge n c.blocks.length with h1 | h1
  · exact h1
  · rw [List.getElem?_eq_none h1] at h; cases h

theorem serialize_of_some (b1 : BTreeNode) (c : BufferCache) (n : Nat) (b : BTreeNode)
    (h : c.blocks[n]? = some b) :
    b1.Serialize c n = (ERROR_NOERROR, { c with blocks := c.blocks.set n b1 }) := by
  simp [BTreeNode.Serialize, lt_length_of_some c n b h]

/-! ## The descent -/

theorem loui_eq_descend (A : Arch) (c : BufferCache) (op : BTreeOp) (key : Nat)
    (value : Nat) : ∀ (fuel : Nat) (node : Nat),
    LookupOrUpdateInternal A fuel c node op key value =
      match descend A c key fuel node with
      | none => none
      | some (.inl rc) => some (rc, value, c)
      | some (.inr (l, b)) => some (LookupOrUpdateInternal.leafCase A c l b op key value) := by
  intro fuel
  induction fuel with
  | zero => intro node; simp [LookupOrUpdateInternal, descend]
  | succ fuel ih =>
    intro node
    rw [LookupOrUpdateInternal, descend]
    cases hb : c.blocks[node]? with
    | none => simp [unserialize_none _ _ _ hb]
    | some b =>
      simp only [unserialize_some _ _ _ _ hb]
      cases ht : b.info.nodetype <;> simp
      all_goals
        cases hc : chooseChild A b key with
        | error e => simp
        | ok r =>
          cases r with
          | none => simp
          | some ptr => simp [ih ptr]

theorem descend_leaf (A : Arch) (c : BufferCache) (key : Nat) :
    ∀ (fuel : Nat) (node l : Nat) (b : BTreeNode),
      descend A c key fuel node = some (.inr (l, b)) →
      c.blocks[l]? = some b ∧ b.info.nodetype = BTREE_LEAF_NODE := by
  intro fuel
  induction fuel with
  | zero => intro node l b h; simp [descend] at h
  | succ fuel ih =>
    intro node l b h
    rw [descend] at h
    cases hb : c.blocks[node]? with
    | none => simp [hb] at h
    | some b0 =>
      simp only [hb] at h
      cases ht : b0.info.nodetype <;> simp [ht] at h
      case BTREE_LEAF_NODE =>
        obtain ⟨h1, h2⟩ := h
        subst h1; subst h2
        exact ⟨hb, ht⟩
      all_goals
        cases hc : chooseChild A b0 key with
        | error e => simp [hc] at h
        | ok r =>
          cases r with
          | none => simp [hc] at h
          | some ptr =>
            simp [hc] at h
            exact ih ptr l b h

theorem descend_set (A : Arch) (c : BufferCache) (key : Nat) (l : Nat) (b b1 : BTreeNode)
    (hl : c.blocks[l]? = some b) (hb : b.info.nodetype = BTREE_LEAF_NODE)
    (hb1 : b1.info.nodetype = BTREE_LEAF_NODE) :
    ∀ (fuel : Nat) (node : Nat),
      descend A { c with blocks := c.blocks.set l b1 } key fuel node =
        match descend A c key fuel node with
        | none => none
        | some (.inl rc) => some (.inl rc)
        | some (.inr (l2, b2)) => if l2 = l then some (.inr (l, b1)) else some (.inr (l2, b2)) := by
  have hlt := lt_length_of_some c l b hl
  intro fuel
  induction fuel with
  | zero => intro node; simp [descend]
  | succ fuel ih =>
    intro node
    rw [descend, descend]
    by_cases hnl : node = l
    · subst hnl
      simp [List.getElem?_set, hlt, hl, hb, hb1]
    · have hne : ¬ l = node := fun e => hnl e.symm
      simp only [List.getElem?_set, hne, if_false]
      cases hb0 : c.blocks[node]? with
      | none => simp
      | some b0 =>
        cases ht : b0.info.nodetype <;> simp [hnl, ht]
        all_goals
          cases hc : chooseChild A b0 key with
          | error e => simp
          | ok r =>
            cases r with
            | none => simp
            | some ptr => simp [ih ptr]

theorem scanLeaf_found (A : Arch) (b : BTreeNode) (key : Nat) :
    ∀ (k offset j : Nat), scanLeaf A b key k offset = .ok (some j) →
      offset ≤ j ∧ j < offset + k ∧ b.GetKey A j = .ok key := by
  intro k
  induction k with
  | zero => intro offset j h; simp [scanLeaf] at h
  | succ k ih =>
    intro offset j h
    rw [scanLeaf] at h
    cases hg : b.GetKey A offset with
    | error e => simp [hg] at h
    | ok testkey =>
      simp only [hg] at h
      by_cases ht : testkey = key
      · simp [ht] at h
        subst h; subst ht
        exact ⟨Nat.le_refl _, by omega, hg⟩
      · simp [ht] at h
        have := ih (offset + 1) j h
        exact ⟨by omega, by omega, this.2.2⟩

/-! ## Return codes of the accessors and scans -/

theorem getKey_error (A : Arch) (b : BTreeNode) (i : Nat) (e : ERROR_T)
    (h : b.GetKey A i = .error e) : e = ERROR_OUTOFRANGE := by
  unfold BTreeNode.GetKey at h
  split at h
  · cases h
  · cases h; rfl

theorem getPtr_error (A : Arch) (b : BTreeNode) (i : Nat) (e : ERROR_T)
    (h : b.GetPtr A i = .error e) : e = ERROR_OUTOFRANGE := by
  unfold BTreeNode.GetPtr at h
  split at h
  · cases h
  · cases h; rfl

theorem getVal_error (A : Arch) (b : BTreeNode) (i : Nat) (e : ERROR_T)
    (h : b.GetVal A i = .error e) : e = ERROR_OUTOFRANGE := by
  unfold BTreeNode.GetVal at h
  split at h
  · cases h
  · cases h; rfl

theorem scanInterior_error (A : Arch) (b : BTreeNode) (key : Nat) (e : ERROR_T) :
    ∀ (k offset : Nat), scanInterior A b key k offset = .error e → e = ERROR_OUTOFRANGE := by
  intro k
  induction k with
  | zero => intro offset h; simp [scanInterior] at h
  | succ k ih =>
    intro offset h
    rw [scanInterior] at h
    cases hg : b.GetKey A offset with
    | error e1 =>
      simp only [hg] at h
      cases h
      exact getKey_error A b offset _ hg
    | ok testkey =>
      simp only [hg] at h
      by_cases hlt : key < testkey
      · simp only [hlt, if_true] at h
        cases hp : b.GetPtr A offset with
        | error e1 =>
          simp only [hp] at h
          cases h
          exact getPtr_error A b offset _ hp
        | ok ptr => simp [hp] at h
      · simp only [hlt, if_false] at h
        exact ih _ h

theorem scanLeaf_error (A : Arch) (b : BTreeNode) (key : Nat) (e : ERROR_T) :
    ∀ (k offset : Nat), scanLeaf A b key k offset = .error e → e = ERROR_OUTOFRANGE := by
  intro k
  induction k with
  | zero => intro offset h; simp [scanLeaf] at h
  | succ k ih =>
    intro offset h
    rw [scanLeaf] at h
    cases hg : b.GetKey A offset with
    | error e1 =>
      simp only [hg] at h
      cases h
      exact getKey_error A b offset _ hg
    | ok testkey =>
      simp only [hg] at h
      by_cases hlt : testkey = key
      · simp [hlt] at h
      · simp only [hlt, if_false] at h
        exact ih _ h

theorem chooseChild_error (A : Arch) (b : BTreeNode) (key : Nat) (e : ERROR_T)
    (h : chooseChild A b key = .error e) : e = ERROR_OUTOFRANGE := by
  unfold chooseChild at h
  cases hs : scanInterior A b key b.info.numkeys 0 with
  | error e1 =>
    simp only [hs] at h
    cases h
    exact scanInterior_error A b key _ _ _ hs
  | ok r =>
    cases r with
    | some ptr => simp [hs] at h
    | none =>
      simp only [hs] at h
      split at h
      · cases hp : b.GetPtr A b.info.numkeys with
        | error e1 =>
          simp only [hp] at h
          cases h
          exact getPtr_error A b _ _ hp
        | ok ptr => simp [hp] at h
      · cases h

/-- A descent that ends with a return code ends with an error. -/
theorem descend_inl (A : Arch) (c : BufferCache) (key : Nat) (rc : ERROR_T) :
    ∀ (fuel : Nat) (node : Nat), descend A c key fuel node = some (.inl rc) →
      rc ≠ ERROR_NOERROR := by
  intro fuel
  induction fuel with
  | zero => intro node h; simp [descend] at h
  | succ fuel ih =>
    intro node h
    rw [descend] at h
    cases hb : c.blocks[node]? with
    | none => simp [hb] at h; subst h; decide
    | some b0 =>
      simp only [hb] at h
      cases ht : b0.info.nodetype <;> simp only [ht] at h
      case BTREE_LEAF_NODE => cases h
      case BTREE_SUPERBLOCK => cases h; decide
      case BTREE_UNALLOCATED_BLOCK => cases h; decide
      all_goals
        cases hc : chooseChild A b0 key with
        | error e =>
          simp only [hc] at h
          cases h
          rw [chooseChild_error A b0 key _ hc]; decide
        | ok r =>
          cases r with
          | none => simp only [hc] at h; cases h; decide
          | some ptr => simp only [hc] at h; exact ih ptr h

theorem scanLeaf_congr (A : Arch) (b b1 : BTreeNode) (key : Nat)
    (h : ∀ i, b1.GetKey A i = b.GetKey A i) :
    ∀ (k offset : Nat), scanLeaf A b1 key k offset = scanLeaf A b key k offset := by
  intro k
  induction k with
  | zero => intro offset; simp [scanLeaf]
  | succ k ih => intro offset; rw [scanLeaf, scanLeaf, h offset]; simp only [ih]

theorem setVal_ok (A : Arch) (b b1 : BTreeNode) (offset : Nat) (v : Nat)
    (h : b.SetVal A offset v = .ok b1) :
    offset < b.info.GetNumSlotsAsLeaf A ∧
      b1 = { b with data := setCell b.data (2 * offset + 1) v } := by
  unfold BTreeNode.SetVal at h
  by_cases hlt : offset < b.info.GetNumSlotsAsLeaf A
  · simp [hlt, BTreeNode.ResolveVal] at h
    exact ⟨hlt, h.symm⟩
  · simp [hlt] at h

theorem setVal_error (A : Arch) (b : BTreeNode) (offset : Nat) (v : Nat) (e : ERROR_T)
    (h : b.SetVal A offset v = .error e) :
    ¬ offset < b.info.GetNumSlotsAsLeaf A ∧ e = ERROR_OUTOFRANGE := by
  unfold BTreeNode.SetVal at h
  by_cases hlt : offset < b.info.GetNumSlotsAsLeaf A
  · simp [hlt] at h
  · simp [hlt] at h
    exact ⟨hlt, h.symm⟩

/-- What a successful `SetVal` on a leaf changes: the value slot and nothing else. -/
theorem setVal_leaf_frame (A : Arch) (b b1 : BTreeNode) (offset : Nat) (v : Nat)
    (hb : b.info.nodetype = BTREE_LEAF_NODE) (h : b.SetVal A offset v = .ok b1) :
    b1.info = b.info ∧ (∀ i, b1.keyAt i = b.keyAt i) ∧
      (∀ i, i ≠ offset → b1.valAt i = b.valAt i) ∧ b1.valAt offset = v ∧
      (∀ i, b1.GetKey A i = b.GetKey A i) ∧ b1.GetVal A offset = .ok v := by
  obtain ⟨hlt, rfl⟩ := setVal_ok A b b1 offset v h
  have hk : ∀ i, BTreeNode.keyAt { b with data := setCell b.data (2 * offset + 1) v } i
      = b.keyAt i := by
    intro i
    simp only [BTreeNode.keyAt, BTreeNode.ResolveKey, hb, if_true, getCell_setCell]
    have : ¬ (2 * i = 2 * offset + 1) := by omega
    simp [this]
  refine ⟨rfl, hk, ?_, ?_, ?_, ?_⟩
  · intro i hi
    simp only [BTreeNode.valAt, BTreeNode.ResolveVal, getCell_setCell]
    have : ¬ (2 * i + 1 = 2 * offset + 1) := by omega
    simp [this]
  · simp [BTreeNode.valAt, BTreeNode.ResolveVal, getCell_setCell]
  · intro i
    have := hk i
    simp only [BTreeNode.keyAt] at this
    simp only [BTreeNode.GetKey, BTreeNode.keySlots, this]
  · simp [BTreeNode.GetVal, hlt, BTreeNode.ResolveVal, getCell_setCell]

theorem leafCase_lookup_cache (A : Arch) (c : BufferCache) (l : Nat) (b : BTreeNode)
    (key : Nat) (value : Nat) :
    (LookupOrUpdateInternal.leafCase A c l b BTREE_OP_LOOKUP key value).2.2 = c := by
  unfold LookupOrUpdateInternal.leafCase
  cases hs : scanLeaf A b key b.info.numkeys 0 with
  | error e => simp
  | ok r =>
    cases r with
    | none => simp
    | some offset =>
      cases hv : b.GetVal A offset <;> simp [hv]

/-- On one leaf the update and the lookup end with the same return code. -/
theorem leafCase_rc (A : Arch) (c : BufferCache) (l : Nat) (b : BTreeNode)
    (key : Nat) (v2 value : Nat) (hl : c.blocks[l]? = some b) :
    (LookupOrUpdateInternal.leafCase A c l b BTREE_OP_UPDATE key v2).1 =
      (LookupOrUpdateInternal.leafCase A c l b BTREE_OP_LOOKUP key value).1 := by
  unfold LookupOrUpdateInternal.leafCase
  cases hs : scanLeaf A b key b.info.numkeys 0 with
  | error e => simp
  | ok r =>
    cases r with
    | none => simp
    | some offset =>
      by_cases hlt : offset < b.info.GetNumSlotsAsLeaf A
      · simp [BTreeNode.GetVal, BTreeNode.SetVal, hlt, BTreeNode.Serialize,
          lt_length_of_some c l b hl]
      · simp [BTreeNode.GetVal, BTreeNode.SetVal, hlt]

/-- The value a successful lookup returns does not depend on what `value` held. -/
theorem leafCase_lookup_indep (A : Arch) (c : BufferCache) (l : Nat) (b : BTreeNode)
    (key : Nat) (value value1 v : Nat) (c1 : BufferCache)
    (h : LookupOrUpdateInternal.leafCase A c l b BTREE_OP_LOOKUP key value
      = (ERROR_NOERROR, v, c1)) :
    LookupOrUpdateInternal.leafCase A c l b BTREE_OP_LOOKUP key value1
      = (ERROR_NOERROR, v, c1) := by
  unfold LookupOrUpdateInternal.leafCase at h ⊢
  cases hs : scanLeaf A b key b.info.numkeys 0 with
  | error e =>
    simp only [hs] at h
    have := scanLeaf_error A b key e _ _ hs
    subst this
    simp at h
  | ok r =>
    cases r with
    | none => simp [hs] at h
    | some offset =>
      simp only [hs] at h ⊢
      by_cases hlt : offset < b.info.GetNumSlotsAsLeaf A
      · simp only [BTreeNode.GetVal, hlt, if_true] at h ⊢
        exact h
      · simp [BTreeNode.GetVal, hlt] at h

/-- What an update does on the leaf it reaches. -/
theorem leafCase_update (A : Arch) (c : BufferCache) (l : Nat) (b : BTreeNode)
    (key : Nat) (v2 : Nat) (hl : c.blocks[l]? = some b) :
    ((LookupOrUpdateInternal.leafCase A c l b BTREE_OP_UPDATE key v2).1 ≠ ERROR_NOERROR ∧
      (LookupOrUpdateInternal.leafCase A c l b BTREE_OP_UPDATE key v2).2.2 = c) ∨
    (∃ offset b1, scanLeaf A b key b.info.numkeys 0 = .ok (some offset) ∧
      b.SetVal A offset v2 = .ok b1 ∧
      LookupOrUpdateInternal.leafCase A c l b BTREE_OP_UPDATE key v2 =
        (ERROR_NOERROR, v2, { c with blocks := c.blocks.set l b1 })) := by
  unfold LookupOrUpdateInternal.leafCase
  cases hs : scanLeaf A b key b.info.numkeys 0 with
  | error e =>
    left
    have := scanLeaf_error A b key e _ _ hs
    subst this
    simp
  | ok r =>
    cases r with
    | none => left; simp
    | some offset =>
      cases hv : b.SetVal A offset v2 with
      | error e =>
        left
        have := (setVal_error A b offset v2 e hv).2
        subst this
        simp [hv]
      | ok b1 =>
        right
        exact ⟨offset, b1, rfl, hv, by simp [hv, serialize_of_some b1 c l b hl]⟩

/-! ## Lookup and update in terms of the descent -/

theorem lookup_eq (A : Arch) (fuel : Nat) (t : BTreeIndex) (key : Nat) (value : Nat) :
    Lookup A fuel t key value =
      match descend A t.buffercache key fuel t.superblock.info.rootnode with
      | none => none
      | some (.inl rc) => some (rc, value, t)
      | some (.inr (l, b)) =>
        some ((LookupOrUpdateInternal.leafCase A t.buffercache l b BTREE_OP_LOOKUP key value).1,
          (LookupOrUpdateInternal.leafCase A t.buffercache l b BTREE_OP_LOOKUP key value).2.1, t) := by
  unfold Lookup
  rw [loui_eq_descend]
  cases hd : descend A t.buffercache key fuel t.superblock.info.rootnode with
  | none => rfl
  | some r =>
    cases r with
    | inl rc => rfl
    | inr p =>
      obtain ⟨l, b⟩ := p
      have hc := leafCase_lookup_cache A t.buffercache l b key value
      dsimp only
      rcases hr : LookupOrUpdateInternal.leafCase A t.buffercache l b BTREE_OP_LOOKUP key value
        with ⟨rc, v, c⟩
      rw [hr] at hc
      dsimp only at hc
      subst hc
      rfl

theorem update_eq (A : Arch) (fuel : Nat) (t : BTreeIndex) (key : Nat) (value : Nat) :
    Update A fuel t key value =
      match descend A t.buffercache key fuel t.superblock.info.rootnode with
      | none => none
      | some (.inl rc) => some (rc, t)
      | some (.inr (l, b)) =>
        some ((LookupOrUpdateInternal.leafCase A t.buffercache l b BTREE_OP_UPDATE key value).1,
          { t with buffercache :=
            (LookupOrUpdateInternal.leafCase A t.buffercache l b BTREE_OP_UPDATE key value).2.2 }) := by
  unfold Update
  rw [loui_eq_descend]
  cases hd : descend A t.buffercache key fuel t.superblock.info.rootnode with
  | none => rfl
  | some r =>
    cases r with
    | inl rc => rfl
    | inr p => rfl

/-- A lookup never changes the index. -/
theorem lookup_state (A : Arch) (fuel : Nat) (t t1 : BTreeIndex) (key : Nat)
    (value v : Nat) (rc : ERROR_T) (h : Lookup A fuel t key value = some (rc, v, t1)) :
    t1 = t := by
  rw [lookup_eq] at h
  cases hd : descend A t.buffercache key fuel t.superblock.info.rootnode with
  | none => simp [hd] at h
  | some r =>
    cases r with
    | inl rc1 => simp [hd] at h; exact h.2.2.symm
    | inr p => simp [hd] at h; exact h.2.2.symm

/-- A successful lookup returns the same value whatever `value` held before. -/
theorem lookup_indep (A : Arch) (fuel : Nat) (t t1 : BTreeIndex) (key : Nat)
    (value value1 v : Nat) (h : Lookup A fuel t key value = some (ERROR_NOERROR, v, t1)) :
    Lookup A fuel t key value1 = some (ERROR_NOERROR, v, t) := by
  rw [lookup_eq] at h ⊢
  cases hd : descend A t.buffercache key fuel t.superblock.info.rootnode with
  | none => simp [hd] at h
  | some r =>
    cases r with
    | inl rc1 =>
      simp only [hd] at h
      simp at h
      exact absurd h.1 (descend_inl A _ key rc1 _ _ hd)
    | inr p =>
      obtain ⟨l, b⟩ := p
      simp only [hd] at h ⊢
      have hc := leafCase_lookup_cache A t.buffercache l b key value
      have h1 : LookupOrUpdateInternal.leafCase A t.buffercache l b BTREE_OP_LOOKUP key value
          = (ERROR_NOERROR, v, t.buffercache) := by
        rcases hr : LookupOrUpdateInternal.leafCase A t.buffercache l b BTREE_OP_LOOKUP key value
          with ⟨rc, v1, c⟩
        rw [hr] at hc h
        simp at h hc
        rw [h.1, h.2.1, hc]
      rw [leafCase_lookup_indep A t.buffercache l b key value value1 v t.buffercache h1]

/-! ## Conflict, update -/

/-- A lookup that succeeds read a root block that has at least one key. -/
theorem lookup_ok_root_numkeys (A : Arch) (fuel : Nat) (t t1 : BTreeIndex) (key : Nat)
    (value v : Nat) (h : Lookup A fuel t key value = some (ERROR_NOERROR, v, t1)) :
    (BTreeNode.default.Unserialize t.buffercache t.superblock.info.rootnode).2.info.numkeys ≠ 0 := by
  rw [lookup_eq] at h
  cases fuel with
  | zero => simp [descend] at h
  | succ fuel =>
    rw [descend] at h
    cases hb : t.buffercache.blocks[t.superblock.info.rootnode]? with
    | none => simp [hb] at h
    | some b =>
      rw [unserialize_some _ _ _ _ hb]
      intro h0
      simp only at h0
      simp only [hb] at h
      have hcc : chooseChild A b key = .ok none := by
        simp [chooseChild, h0, scanInterior]
      cases ht : b.info.nodetype <;> simp only [ht, hcc] at h
      all_goals try (simp at h)
      -- the leaf case
      simp [LookupOrUpdateInternal.leafCase, h0, scanLeaf] at h

/-- C3 (conflict): if `Lookup(k)` succeeds with value `v`, then `Insert(k, v2)` returns
`ERROR_CONFLICT`, leaves the buffer cache and the superblock as they were (no block is
written), and `Lookup(k)` on the state after the call still returns `v`. -/
theorem C3_insert_conflict (A : Arch) (fuel : Nat) (t t1 : BTreeIndex) (k : Nat)
    (v v2 value : Nat) (h : Lookup A fuel t k value = some (ERROR_NOERROR, v, t1)) :
    ∃ t2, Insert A fuel t k v2 = some (ERROR_CONFLICT, t2) ∧ t2 = t ∧
      Lookup A fuel t2 k value = some (ERROR_NOERROR, v, t2) := by
  have hn := lookup_ok_root_numkeys A fuel t t1 k value v h
  have h0 := lookup_indep A fuel t t1 k value 0 v h
  have h1 := lookup_indep A fuel t t1 k value value v h
  refine ⟨t, ?_, rfl, h1⟩
  unfold Insert
  simp only [hn, if_false]
  unfold Insert.place
  simp [h0]

/-- C3 at a sample image: key 15 is stored with value 150, so inserting it again is a
conflict. -/
theorem C3_insert_conflict_witness :
    Lookup exArch 2 exFullRoot 15 0 = some (ERROR_NOERROR, 150, exFullRoot) ∧
    ∃ t2, Insert exArch 2 exFullRoot 15 7 = some (ERROR_CONFLICT, t2) ∧ t2 = exFullRoot ∧
      Lookup exArch 2 t2 15 0 = some (ERROR_NOERROR, 150, t2) :=
  ⟨by decide, C3_insert_conflict exArch 2 exFullRoot exFullRoot 15 150 7 0 (by decide)⟩

/-- The two ways an update ends: with an error and the index untouched, or with the value
slot of the matching key rewritten in the leaf the descent reached. -/
theorem update_cases (A : Arch) (fuel : Nat) (t t1 : BTreeIndex) (key : Nat) (v2 : Nat)
    (rc : ERROR_T) (h : Update A fuel t key v2 = some (rc, t1)) :
    (rc ≠ ERROR_NOERROR ∧ t1 = t) ∨
    (rc = ERROR_NOERROR ∧ ∃ l b b1 offset,
      descend A t.buffercache key fuel t.superblock.info.rootnode = some (.inr (l, b)) ∧
      t.buffercache.blocks[l]? = some b ∧ b.info.nodetype = BTREE_LEAF_NODE ∧
      scanLeaf A b key b.info.numkeys 0 = .ok (some offset) ∧
      b.SetVal A offset v2 = .ok b1 ∧
      t1 = { t with buffercache := { t.buffercache with blocks := t.buffercache.blocks.set l b1 } }) := by
  rw [update_eq] at h
  cases hd : descend A t.buffercache key fuel t.superblock.info.rootnode with
  | none => simp [hd] at h
  | some r =>
    cases r with
    | inl rc1 =>
      simp only [hd] at h
      simp at h
      left
      rw [← h.1, ← h.2]
      exact ⟨descend_inl A _ key rc1 _ _ hd, rfl⟩
    | inr p =>
      obtain ⟨l, b⟩ := p
      obtain ⟨hl, hb⟩ := descend_leaf A _ key _ _ l b hd
      simp only [hd] at h
      simp at h
      obtain ⟨hrc, ht1⟩ := h
      rcases leafCase_update A t.buffercache l b key v2 hl with ⟨hne, hc⟩ | ⟨offset, b1, hs, hv, he⟩
      · left
        rw [hc] at ht1
        rw [hrc] at hne
        exact ⟨hne, ht1.symm⟩
      · right
        rw [he] at hrc ht1
        exact ⟨hrc.symm, l, b, b1, offset, rfl, hl, hb, hs, hv, ht1.symm⟩

/-- Update and lookup end with the same return code. -/
theorem update_rc_eq_lookup_rc (A : Arch) (fuel : Nat) (t : BTreeIndex) (key : Nat)
    (v2 value : Nat) :
    (Update A fuel t key v2).map (fun r => r.1) = (Lookup A fuel t key value).map (fun r => r.1) := by
  rw [update_eq, lookup_eq]
  cases hd : descend A t.buffercache key fuel t.superblock.info.rootnode with
  | none => rfl
  | some r =>
    cases r with
    | inl rc1 => rfl
    | inr p =>
      obtain ⟨l, b⟩ := p
      obtain ⟨hl, hb⟩ := descend_leaf A _ key _ _ l b hd
      simp [leafCase_rc A t.buffercache l b key v2 value hl]

theorem update_rc_iff (A : Arch) (fuel : Nat) (t : BTreeIndex) (key : Nat)
    (v2 value : Nat) (rc : ERROR_T) :
    (∃ t1, Update A fuel t key v2 = some (rc, t1)) ↔
      ∃ v, Lookup A fuel t key value = some (rc, v, t) := by
  have h := update_rc_eq_lookup_rc A fuel t key v2 value
  constructor
  · rintro ⟨t1, hu⟩
    rw [hu] at h
    cases hlk : Lookup A fuel t key value with
    | none => simp [hlk] at h
    | some r =>
      obtain ⟨rc1, v, t2⟩ := r
      rw [hlk] at h
      simp at h
      have := lookup_state A fuel t t2 key value v rc1 hlk
      subst this
      exact ⟨v, by rw [h]⟩
  · rintro ⟨v, hlk⟩
    rw [hlk] at h
    cases hu : Update A fuel t key v2 with
    | none => simp [hu] at h
    | some r =>
      obtain ⟨rc1, t1⟩ := r
      rw [hu] at h
      simp at h
      exact ⟨t1, by rw [h]⟩

/-- After a successful update the lookup of the key returns the new value. -/
theorem lookup_after_update (A : Arch) (fuel : Nat) (t t1 : BTreeIndex) (key : Nat)
    (v2 value : Nat) (h : Update A fuel t key v2 = some (ERROR_NOERROR, t1)) :
    Lookup A fuel t1 key value = some (ERROR_NOERROR, v2, t1) := by
  rcases update_cases A fuel t t1 key v2 _ h with ⟨hne, _⟩ | ⟨_, l, b, b1, offset, hd, hl, hb, hs, hv, ht1⟩
  · exact absurd rfl hne
  · obtain ⟨hinfo, _, _, _, hkeys, hval⟩ := setVal_leaf_frame A b b1 offset v2 hb hv
    have hb1 : b1.info.nodetype = BTREE_LEAF_NODE := by rw [hinfo]; exact hb
    subst ht1
    rw [lookup_eq]
    simp only
    rw [descend_set A t.buffercache key l b b1 hl hb hb1, hd]
    simp only [if_true]
    have hs1 : scanLeaf A b1 key b1.info.numkeys 0 = .ok (some offset) := by
      rw [scanLeaf_congr A b b1 key hkeys, hinfo]; exact hs
    simp [LookupOrUpdateInternal.leafCase, hs1, hval]

/-- C4 (update then lookup): `Update(k, v2)` returns no error exactly when `Lookup(k)`
succeeds on the state before the call, and returns `ERROR_NONEXISTENT` exactly when
`Lookup(k)` does; whenever `Update(k, v2)` returns no error, `Lookup(k)` on the state it
leaves returns `v2`. -/
theorem C4_update_then_lookup (A : Arch) (fuel : Nat) (t : BTreeIndex) (k : Nat)
    (v2 value : Nat) :
    ((∃ t1, Update A fuel t k v2 = some (ERROR_NOERROR, t1)) ↔
      ∃ v, Lookup A fuel t k value = some (ERROR_NOERROR, v, t)) ∧
    ((∃ t1, Update A fuel t k v2 = some (ERROR_NONEXISTENT, t1)) ↔
      ∃ v, Lookup A fuel t k value = some (ERROR_NONEXISTENT, v, t)) ∧
    (∀ t1, Update A fuel t k v2 = some (ERROR_NOERROR, t1) →
      Lookup A fuel t1 k value = some (ERROR_NOERROR, v2, t1)) :=
  ⟨update_rc_iff A fuel t k v2 value ERROR_NOERROR,
   update_rc_iff A fuel t k v2 value ERROR_NONEXISTENT,
   fun t1 h => lookup_after_update A fuel t t1 k v2 value h⟩

/-- C4 at a sample image: key 15 is found, its update to 151 succeeds and is read back;
key 7 is not found and its update returns `ERROR_NONEXISTENT`. -/
theorem C4_update_then_lookup_witness :
    (Update exArch 2 exFullRoot 15 151 = some (ERROR_NOERROR, exFullRootUpdated) ∧
      Lookup exArch 2 exFullRootUpdated 15 0 = some (ERROR_NOERROR, 151, exFullRootUpdated)) ∧
    (∃ t1, Update exArch 2 exFullRoot 7 71 = some (ERROR_NONEXISTENT, t1)) :=
  ⟨⟨by decide,
    (C4_update_then_lookup exArch 2 exFullRoot 15 151 0).2.2 exFullRootUpdated (by decide)⟩,
   (C4_update_then_lookup exArch 2 exFullRoot 7 71 0).2.1.2 ⟨0, by decide⟩⟩

/-- C5 (update never changes structure): `Update(k, v2)` leaves the in-memory superblock
and the geometry of the cache as they were.  When it returns an error (`ERROR_NONEXISTENT`
among them) the index is unchanged: no block is written.  When it returns no error, one
block `l` is rewritten, a LEAF that held `k` in a slot `offset`; every other block,
superblock block included, is unchanged, and in the leaf the header (kind, `numkeys`),
every key and every value other than the one in slot `offset` are unchanged. -/
theorem C5_update_frame (A : Arch) (fuel : Nat) (t t1 : BTreeIndex) (k : Nat) (v2 : Nat)
    (rc : ERROR_T) (h : Update A fuel t k v2 = some (rc, t1)) :
    t1.superblock = t.superblock ∧ t1.superblock_index = t.superblock_index ∧
    t1.buffercache.blocksize = t.buffercache.blocksize ∧
    t1.buffercache.blocks.length = t.buffercache.blocks.length ∧
    (rc ≠ ERROR_NOERROR → t1 = t) ∧
    (rc = ERROR_NOERROR → ∃ (l : Nat) (b b1 : BTreeNode) (offset : Nat),
      t.buffercache.blocks[l]? = some b ∧ b.info.nodetype = BTREE_LEAF_NODE ∧
      offset < b.info.numkeys ∧ b.keyAt offset = k ∧
      t1.buffercache.blocks[l]? = some b1 ∧
      (∀ n, n ≠ l → t1.buffercache.blocks[n]? = t.buffercache.blocks[n]?) ∧
      b1.info = b.info ∧ (∀ i, b1.keyAt i = b.keyAt i) ∧
      (∀ i, i ≠ offset → b1.valAt i = b.valAt i) ∧ b1.valAt offset = v2) := by
  rcases update_cases A fuel t t1 k v2 rc h with ⟨hne, ht1⟩ | ⟨hrc, l, b, b1, offset, hd, hl, hb, hs, hv, ht1⟩
  · subst ht1
    exact ⟨rfl, rfl, rfl, rfl, fun _ => rfl, fun h0 => absurd h0 hne⟩
  · subst ht1
    obtain ⟨hinfo, hk, hvs, hvo, _, _⟩ := setVal_leaf_frame A b b1 offset v2 hb hv
    refine ⟨rfl, rfl, rfl, by simp, fun h0 => absurd hrc h0, fun _ => ?_⟩
    obtain ⟨_, hlt, hg⟩ := scanLeaf_found A b k _ _ _ hs
    have hkey : b.keyAt offset = k := by
      unfold BTreeNode.GetKey at hg
      split at hg
      · simpa [BTreeNode.keyAt] using hg
      · cases hg
    refine ⟨l, b, b1, offset, hl, hb, by simpa using hlt, hkey, ?_, ?_, hinfo, hk, hvs, hvo⟩
    · simp [List.getElem?_set, lt_length_of_some _ l b hl]
    · intro n hn
      have : ¬ l = n := fun e => hn e.symm
      simp [List.getElem?_set, this]

/-- C5 at a sample image: the update of key 15 rewrites the leaf in block 3 and changes
neither the superblock nor the number of blocks. -/
theorem C5_update_frame_witness :
    Update exArch 2 exFullRoot 15 151 = some (ERROR_NOERROR, exFullRootUpdated) ∧
    exFullRootUpdated.superblock = exFullRoot.superblock ∧
    exFullRootUpdated.buffercache.blocks.length = exFullRoot.buffercache.blocks.length :=
  ⟨by decide,
    (C5_update_frame exArch 2 exFullRoot exFullRootUpdated 15 151 ERROR_NOERROR
      (by decide)).1,
    (C5_update_frame exArch 2 exFullRoot exFullRootUpdated 15 151 ERROR_NOERROR
      (by decide)).2.2.2.1⟩

/-! ## Formatting -/

/-- The loop of `Attach` writes a free block at `i`, ..., `i + k - 1` and nothing else. -/
theorem freeLoop_spec (t : BTreeIndex) :
    ∀ (k i : Nat) (c : BufferCache), i + k = c.blocks.length →
      ∃ c1, Attach.freeLoop t k i c = (ERROR_NOERROR, c1) ∧
        c1.blocksize = c.blocksize ∧ c1.blocks.length = c.blocks.length ∧
        (∀ j, j < i → c1.blocks[j]? = c.blocks[j]?) ∧
        (∀ j, i ≤ j → j < c.blocks.length → ∃ b, c1.blocks[j]? = some b ∧
          b.info.nodetype = BTREE_UNALLOCATED_BLOCK ∧
          b.info.freelist = if j + 1 = c.blocks.length then 0 else j + 1) := by
  intro k
  induction k with
  | zero =>
    intro i c h
    refine ⟨c, rfl, rfl, rfl, fun _ _ => rfl, ?_⟩
    intro j h1 h2
    omega
  | succ k ih =>
    intro i c h
    have hi : i < c.blocks.length := by omega
    rw [Attach.freeLoop]
    simp only [BTreeNode.Serialize, hi, if_true]
    simp only [ne_eq, not_true_eq_false, if_false]
    obtain ⟨c1, h1, h2, h3, h4, h5⟩ := ih (i + 1)
      { c with blocks := c.blocks.set i (Attach.newfreenode t c i) }
      (by simp only [List.length_set]; omega)
    refine ⟨c1, h1, h2, by simpa using h3, ?_, ?_⟩
    · intro j hj
      rw [h4 j (by omega)]
      have : ¬ i = j := by omega
      simp [List.getElem?_set, this]
    · intro j hj1 hj2
      by_cases hji : j = i
      · subst hji
        rw [h4 j (by omega)]
        simp [List.getElem?_set, hi, BTreeNode.new, BufferCache.GetNumBlocks,
          Attach.newfreenode]
      · have := h5 j (by omega) (by simpa using hj2)
        simpa using this

theorem freeListWalk_spec (c : BufferCache)
    (hfree : ∀ j, 2 ≤ j → j < c.blocks.length → ∃ b, c.blocks[j]? = some b ∧
      b.info.freelist = if j + 1 = c.blocks.length then 0 else j + 1) :
    ∀ (m e j : Nat), 2 ≤ j → j + (m + 1) = c.blocks.length →
      freeListWalk c (m + 2 + e) j = some (List.range' j (m + 1)) := by
  intro m
  induction m with
  | zero =>
    intro e j hj hn
    obtain ⟨b, hb, hf⟩ := hfree j hj (by omega)
    have hj0 : j ≠ 0 := by omega
    rw [show 0 + 2 + e = (e + 1) + 1 by omega, freeListWalk]
    simp only [hj0, if_false, hb]
    have : b.info.freelist = 0 := by rw [hf]; simp; omega
    rw [this, freeListWalk]
    simp
  | succ m ih =>
    intro e j hj hn
    obtain ⟨b, hb, hf⟩ := hfree j hj (by omega)
    have hj0 : j ≠ 0 := by omega
    rw [show m + 1 + 2 + e = (m + 2 + e) + 1 by omega, freeListWalk]
    simp only [hj0, if_false, hb]
    have : b.info.freelist = j + 1 := by
      rw [hf]
      have : ¬ (j + 1 = c.blocks.length) := by omega
      simp [this]
    rw [this, ih e (j + 1) (by omega) (by omega)]
    simp [List.range'_succ]

/-- C8 (formatting): over a cache of `n ≥ 3` blocks `Attach(0, create = true)` returns no
error and leaves block 0 a SUPERBLOCK with `rootnode = 1`, `freelist = 2`, `numkeys = 0`
(also the in-memory superblock), block 1 a ROOT node with `numkeys = 0`, and every block
`i` with `2 ≤ i < n` UNALLOCATED with `freelist = i + 1`, the last one with `freelist = 0`.
The free-list walk from `superblock.freelist` visits the blocks `2, …, n-1` in this
order, each once, and superblock, root and free list together are `0, 1, …, n-1`. -/
theorem C8_attach_formats (t : BTreeIndex) (h : 3 ≤ t.buffercache.GetNumBlocks) :
    ∃ (t1 : BTreeIndex) (sb root : BTreeNode),
      Attach t 0 true = some (ERROR_NOERROR, t1) ∧
      t1.buffercache.GetNumBlocks = t.buffercache.GetNumBlocks ∧
      t1.superblock = sb ∧ t1.buffercache.blocks[0]? = some sb ∧
      sb.info.nodetype = BTREE_SUPERBLOCK ∧ sb.info.rootnode = 1 ∧ sb.info.freelist = 2 ∧
      sb.info.numkeys = 0 ∧
      t1.buffercache.blocks[1]? = some root ∧ root.info.nodetype = BTREE_ROOT_NODE ∧
      root.info.numkeys = 0 ∧
      (∀ i, 2 ≤ i → i < t.buffercache.GetNumBlocks → ∃ b, t1.buffercache.blocks[i]? = some b ∧
        b.info.nodetype = BTREE_UNALLOCATED_BLOCK ∧
        b.info.freelist = if i + 1 = t.buffercache.GetNumBlocks then 0 else i + 1) ∧
      freeListWalk t1.buffercache t.buffercache.GetNumBlocks t1.superblock.info.freelist
        = some (List.range' 2 (t.buffercache.GetNumBlocks - 2)) ∧
      t1.superblock_index :: t1.superblock.info.rootnode ::
        List.range' 2 (t.buffercache.GetNumBlocks - 2) = List.range t.buffercache.GetNumBlocks := by
  unfold BufferCache.GetNumBlocks at h ⊢
  have h0 : 0 < t.buffercache.blocks.length := by omega
  have h1 : 1 < t.buffercache.blocks.length := by omega
  let t0 : BTreeIndex := { t with superblock_index := 0 }
  let c2 : BufferCache :=
    { t.buffercache with
      blocks := (t.buffercache.blocks.set 0 (Attach.newsuperblock t0)).set 1 (Attach.newrootnode t0) }
  have hlen2 : c2.blocks.length = t.buffercache.blocks.length := by simp [c2]
  obtain ⟨c3, hc3, _, hlen, hlow, hfree⟩ :=
    freeLoop_spec t0 (t.buffercache.blocks.length - 2) 2 c2 (by rw [hlen2]; omega)
  rw [hlen2] at hlen hfree
  have hfmt : Attach.format t0 = (ERROR_NOERROR, c3) := by
    unfold Attach.format
    have e0 : t0.superblock_index = 0 := rfl
    have eb : t0.buffercache = t.buffercache := rfl
    simp only [BTreeNode.Serialize, e0, eb, h0, if_true, ne_eq, not_true_eq_false, if_false,
      List.length_set, h1, BufferCache.GetNumBlocks, Nat.zero_add]
    exact hc3
  have hb0 : c3.blocks[0]? = some (Attach.newsuperblock t0) := by
    rw [hlow 0 (by omega)]
    simp [c2, List.getElem?_set, h0]
  have hb1 : c3.blocks[1]? = some (Attach.newrootnode t0) := by
    rw [hlow 1 (by omega)]
    simp [c2, List.getElem?_set, h1]
  refine ⟨{ buffercache := c3, superblock_index := 0, superblock := Attach.newsuperblock t0 },
    Attach.newsuperblock t0, Attach.newrootnode t0, ?_, hlen,
    rfl, hb0, rfl, rfl, rfl, rfl, hb1, rfl, rfl, ?_, ?_, ?_⟩
  · unfold Attach
    simp only [ne_eq, not_true_eq_false, if_false, if_true]
    rw [show ({ t with superblock_index := 0 } : BTreeIndex) = t0 from rfl, hfmt]
    simp [BTreeNode.Unserialize, hb0, t0]
  · intro i hi1 hi2
    exact hfree i hi1 hi2
  · have hw := freeListWalk_spec c3
      (fun j hj1 hj2 => by
        obtain ⟨b, hb, _, hf⟩ := hfree j hj1 (by rw [← hlen]; exact hj2)
        exact ⟨b, hb, by rw [hlen]; exact hf⟩)
      (t.buffercache.blocks.length - 3) 1 2 (by omega) (by rw [hlen]; omega)
    have e1 : t.buffercache.blocks.length - 3 + 2 + 1 = t.buffercache.blocks.length := by omega
    have e2 : t.buffercache.blocks.length - 3 + 1 = t.buffercache.blocks.length - 2 := by omega
    rw [e1, e2] at hw
    exact hw
  · show 0 :: 1 :: List.range' 2 (t.buffercache.blocks.length - 2) = _
    rw [List.range_eq_range']
    obtain ⟨m, hm⟩ : ∃ m, t.buffercache.blocks.length = m + 2 :=
      ⟨t.buffercache.blocks.length - 2, by omega⟩
    rw [hm]
    simp [List.range'_succ]

/-- C8 at a blank cache of five blocks. -/
theorem C8_attach_formats_witness :
    3 ≤ (BTreeIndex.new 4 4 (blankCache 5 52)).buffercache.GetNumBlocks ∧
    ∃ (t1 : BTreeIndex) (sb root : BTreeNode),
      Attach (BTreeIndex.new 4 4 (blankCache 5 52)) 0 true = some (ERROR_NOERROR, t1) ∧
      t1.buffercache.GetNumBlocks = 5 ∧
      t1.superblock = sb ∧ t1.buffercache.blocks[0]? = some sb ∧
      sb.info.nodetype = BTREE_SUPERBLOCK ∧ sb.info.rootnode = 1 ∧ sb.info.freelist = 2 ∧
      sb.info.numkeys = 0 ∧
      t1.buffercache.blocks[1]? = some root ∧ root.info.nodetype = BTREE_ROOT_NODE ∧
      root.info.numkeys = 0 ∧
      (∀ i, 2 ≤ i → i < 5 → ∃ b, t1.buffercache.blocks[i]? = some b ∧
        b.info.nodetype = BTREE_UNALLOCATED_BLOCK ∧
        b.info.freelist = if i + 1 = 5 then 0 else i + 1) ∧
      freeListWalk t1.buffercache 5 t1.superblock.info.freelist = some [2, 3, 4] ∧
      t1.superblock_index :: t1.superblock.info.rootnode :: [2, 3, 4] = [0, 1, 2, 3, 4] :=
  ⟨by decide, C8_attach_formats (BTreeIndex.new 4 4 (blankCache 5 52)) (by decide)⟩

/-! ## Lists of pairs -/

theorem lookup_append_left (key : Nat) (l1 l2 : List (Nat × Nat))
    (h : ∀ p ∈ l1, p.1 ≠ key) : List.lookup key (l1 ++ l2) = List.lookup key l2 := by
  induction l1 with
  | nil => rfl
  | cons p l1 ih =>
    obtain ⟨a, b⟩ := p
    have ha : a ≠ key := h (a, b) (List.mem_cons_self _ _)
    have hne : (key == a) = false := by
      simp only [beq_eq_false_iff_ne, ne_eq]
      exact fun e => ha e.symm
    rw [List.cons_append, List.lookup_cons, hne]
    exact ih (fun p hp => h p (List.mem_cons_of_mem _ hp))

theorem lookup_none_of_not_mem (key : Nat) (l : List (Nat × Nat))
    (h : ∀ p ∈ l, p.1 ≠ key) : List.lookup key l = none := by
  have := lookup_append_left key l [] h
  simpa using this

theorem lookup_append_right (key : Nat) (l1 l2 : List (Nat × Nat))
    (h : ∀ p ∈ l2, p.1 ≠ key) : List.lookup key (l1 ++ l2) = List.lookup key l1 := by
  induction l1 with
  | nil => simpa using lookup_none_of_not_mem key l2 h
  | cons p l1 ih =>
    obtain ⟨a, b⟩ := p
    rw [List.cons_append, List.lookup_cons, List.lookup_cons, ih]

theorem mem_of_lookup (key : Nat) (v : Nat) (l : List (Nat × Nat))
    (h : List.lookup key l = some v) : (key, v) ∈ l := by
  induction l with
  | nil => simp at h
  | cons p l ih =>
    obtain ⟨a, b⟩ := p
    rw [List.lookup_cons] at h
    by_cases hka : key = a
    · subst hka
      simp at h
      subst h
      exact List.mem_cons_self _ _
    · have hne : (key == a) = false := by simpa using hka
      rw [hne] at h
      exact List.mem_cons_of_mem _ (ih h)

theorem lookup_of_mem (key : Nat) (v : Nat) (l : List (Nat × Nat))
    (hnd : (l.map Prod.fst).Nodup) (h : (key, v) ∈ l) : List.lookup key l = some v := by
  induction l with
  | nil => simp at h
  | cons p l ih =>
    obtain ⟨a, b⟩ := p
    rw [List.map_cons, List.nodup_cons] at hnd
    rw [List.lookup_cons]
    rcases List.mem_cons.1 h with he | hm
    · cases he
      simp
    · have hka : key ≠ a := by
        intro e
        subst e
        exact hnd.1 (List.mem_map.2 ⟨(key, v), hm, rfl⟩)
      have hne : (key == a) = false := by simpa using hka
      rw [hne]
      exact ih hnd.2 hm

theorem lookup_eq_none_iff (key : Nat) (l : List (Nat × Nat)) :
    List.lookup key l = none ↔ ∀ v, (key, v) ∉ l := by
  constructor
  · intro h v hm
    induction l with
    | nil => simp at hm
    | cons p l ih =>
      obtain ⟨a, b⟩ := p
      rw [List.lookup_cons] at h
      by_cases hka : key = a
      · subst hka; simp at h
      · have hne : (key == a) = false := by simpa using hka
        rw [hne] at h
        rcases List.mem_cons.1 hm with he | hm1
        · cases he; exact hka rfl
        · exact ih h hm1
  · intro h
    apply lookup_none_of_not_mem
    intro p hp e
    obtain ⟨a, b⟩ := p
    simp only at e
    subst e
    exact h b hp

/-! ## Scans of a node within its capacity -/

theorem childIndex_spec (b : BTreeNode) (key : Nat) :
    ∀ (k offset : Nat),
      offset ≤ childIndex b key k offset ∧ childIndex b key k offset ≤ offset + k ∧
      (∀ i, offset ≤ i → i < childIndex b key k offset → b.keyAt i ≤ key) ∧
      (childIndex b key k offset < offset + k → key < b.keyAt (childIndex b key k offset)) := by
  intro k
  induction k with
  | zero =>
    intro offset
    simp only [childIndex]
    refine ⟨Nat.le_refl _, Nat.le_refl _, ?_, ?_⟩
    · intro i h1 h2; omega
    · intro h; omega
  | succ k ih =>
    intro offset
    rw [childIndex]
    by_cases hlt : key < b.keyAt offset
    · rw [if_pos hlt]
      refine ⟨Nat.le_refl _, by omega, ?_, fun _ => hlt⟩
      intro i h1 h2; omega
    · rw [if_neg hlt]
      obtain ⟨h1, h2, h3, h4⟩ := ih (offset + 1)
      refine ⟨by omega, by omega, ?_, ?_⟩
      · intro i hi1 hi2
        by_cases hio : i = offset
        · subst hio; exact Nat.le_of_not_lt hlt
        · exact h3 i (by omega) hi2
      · intro h
        exact h4 (by omega)

theorem scanInterior_spec (A : Arch) (b : BTreeNode) (key : Nat)
    (hb : b.info.nodetype ≠ BTREE_LEAF_NODE) :
    ∀ (k offset : Nat), offset + k ≤ b.info.GetNumSlotsAsInterior A →
      scanInterior A b key k offset =
        if childIndex b key k offset < offset + k then
          .ok (some (b.ptrAt (childIndex b key k offset)))
        else .ok none := by
  intro k
  induction k with
  | zero => intro offset _; simp [scanInterior, childIndex]
  | succ k ih =>
    intro offset h
    have hle : offset ≤ b.info.GetNumSlotsAsInterior A := by omega
    have hlt : offset < b.keySlots A := by
      simp only [BTreeNode.keySlots, hb, if_false]
      exact Nat.lt_of_lt_of_le (by omega) h
    rw [scanInterior, childIndex]
    simp only [BTreeNode.GetKey, hlt, if_true, BTreeNode.GetPtr, hle]
    by_cases hk : key < b.keyAt offset
    · have hk' : key < getCell b.data (b.ResolveKey offset) := hk
      simp only [hk, hk', if_true]
      have : offset < offset + (k + 1) := by omega
      simp [this, BTreeNode.ptrAt]
    · have hk' : ¬ key < getCell b.data (b.ResolveKey offset) := hk
      simp only [hk, hk', if_false]
      rw [ih (offset + 1) (by omega)]
      have : offset + 1 + k = offset + (k + 1) := by omega
      rw [this]

theorem chooseChild_spec (A : Arch) (b : BTreeNode) (key : Nat)
    (hb : b.info.nodetype ≠ BTREE_LEAF_NODE) (h0 : 0 < b.info.numkeys)
    (hcap : b.info.numkeys ≤ b.info.GetNumSlotsAsInterior A) :
    chooseChild A b key = .ok (some (b.ptrAt (childIndex b key b.info.numkeys 0))) := by
  unfold chooseChild
  rw [scanInterior_spec A b key hb b.info.numkeys 0 (by rw [Nat.zero_add]; exact hcap)]
  obtain ⟨_, h2, _, _⟩ := childIndex_spec b key b.info.numkeys 0
  rw [Nat.zero_add] at h2 ⊢
  by_cases hlt : childIndex b key b.info.numkeys 0 < b.info.numkeys
  · rw [if_pos hlt]
  · have he : childIndex b key b.info.numkeys 0 = b.info.numkeys :=
      Nat.le_antisymm h2 (Nat.le_of_not_lt hlt)
    rw [if_neg hlt]
    simp only [h0, if_true, BTreeNode.GetPtr, hcap, he]
    rfl

theorem scanLeaf_spec (A : Arch) (b : BTreeNode) (key : Nat)
    (hb : b.info.nodetype = BTREE_LEAF_NODE) :
    ∀ (k offset : Nat), offset + k ≤ b.info.GetNumSlotsAsLeaf A →
      (scanLeaf A b key k offset = .ok none ∧
        List.lookup key ((List.range' offset k).map (fun i => (b.keyAt i, b.valAt i))) = none) ∨
      (∃ j : Nat, scanLeaf A b key k offset = .ok (some j) ∧ j < offset + k ∧
        List.lookup key ((List.range' offset k).map (fun i => (b.keyAt i, b.valAt i)))
          = some (b.valAt j)) := by
  intro k
  induction k with
  | zero => intro offset _; left; simp [scanLeaf]
  | succ k ih =>
    intro offset h
    have hlt : offset < b.keySlots A := by
      simp only [BTreeNode.keySlots, hb, if_true]
      exact Nat.lt_of_lt_of_le (by omega) h
    rw [scanLeaf]
    simp only [BTreeNode.GetKey, hlt, if_true, List.range'_succ, List.map_cons, List.lookup_cons]
    by_cases hk : b.keyAt offset = key
    · right
      have hk' : getCell b.data (b.ResolveKey offset) = key := hk
      refine ⟨offset, ?_, ?_, ?_⟩
      · simp [hk']
      · omega
      · simp [hk]
    · have hk' : ¬ getCell b.data (b.ResolveKey offset) = key := hk
      have hne : (key == b.keyAt offset) = false := by
        simp only [beq_eq_false_iff_ne, ne_eq]
        exact fun e => hk e.symm
      simp only [hk', if_false, hne]
      have hle : offset + 1 + k ≤ b.info.GetNumSlotsAsLeaf A := by
        have e : offset + 1 + k = offset + (k + 1) := by omega
        rw [e]; exact h
      rcases ih (offset + 1) hle with ⟨h1, h2⟩ | ⟨j, h1, h2, h3⟩
      · left; exact ⟨h1, h2⟩
      · right
        refine ⟨j, h1, ?_, h3⟩
        omega

/-- The lookup in one leaf whose keys fit its capacity. -/
theorem leafCase_lookup_spec (A : Arch) (c : BufferCache) (node : Nat) (b : BTreeNode)
    (key : Nat) (value : Nat) (hb : b.info.nodetype = BTREE_LEAF_NODE)
    (hcap : b.info.numkeys ≤ b.info.GetNumSlotsAsLeaf A) :
    LookupOrUpdateInternal.leafCase A c node b BTREE_OP_LOOKUP key value =
      lookupOutcome c value (List.lookup key b.pairs) := by
  unfold LookupOrUpdateInternal.leafCase BTreeNode.pairs
  rcases scanLeaf_spec A b key hb b.info.numkeys 0 (by rw [Nat.zero_add]; exact hcap)
    with ⟨h1, h2⟩ | ⟨j, h1, h2, h3⟩
  · rw [h1, h2]; rfl
  · rw [h1, h3]
    rw [Nat.zero_add] at h2
    have hj : j < b.info.GetNumSlotsAsLeaf A := Nat.lt_of_lt_of_le h2 hcap
    simp only [BTreeNode.GetVal, hj, if_true]
    rfl

/-! ## Trees in the buffer cache -/

theorem children_all (b : BTreeNode) (p : Nat → Bool) :
    b.children.all p = true ↔ ∀ i : Nat, i ≤ b.info.numkeys → p (b.ptrAt i) = true := by
  unfold BTreeNode.children
  rw [List.all_eq_true]
  constructor
  · intro h i hi
    exact h _ (List.mem_map.2 ⟨i, List.mem_range'_1.2 ⟨Nat.zero_le _, by omega⟩, rfl⟩)
  · intro h x hx
    obtain ⟨i, hi, rfl⟩ := List.mem_map.1 hx
    exact h i (by have := (List.mem_range'_1.1 hi).2; omega)

theorem isTree_cases (A : Arch) (c : BufferCache) (h : Nat) (node : Nat)
    (ht : isTree A c h node = true) :
    ∃ b, c.blocks[node]? = some b ∧
      ((b.info.nodetype = BTREE_LEAF_NODE ∧ b.info.numkeys ≤ b.info.GetNumSlotsAsLeaf A) ∨
       (∃ h1, h = h1 + 1 ∧ b.info.nodetype ≠ BTREE_LEAF_NODE ∧
          (b.info.nodetype = BTREE_ROOT_NODE ∨ b.info.nodetype = BTREE_INTERIOR_NODE) ∧
          0 < b.info.numkeys ∧ b.info.numkeys ≤ b.info.GetNumSlotsAsInterior A ∧
          ∀ i : Nat, i ≤ b.info.numkeys → isTree A c h1 (b.ptrAt i) = true)) := by
  cases h with
  | zero =>
    unfold isTree at ht
    cases hb : c.blocks[node]? with
    | none => simp [hb] at ht
    | some b =>
      simp only [hb] at ht
      cases hk : b.info.nodetype <;> simp [hk] at ht
      exact ⟨b, rfl, Or.inl ⟨hk, ht⟩⟩
  | succ h1 =>
    unfold isTree at ht
    cases hb : c.blocks[node]? with
    | none => simp [hb] at ht
    | some b =>
      simp only [hb] at ht
      cases hk : b.info.nodetype <;> simp only [hk] at ht
      case BTREE_LEAF_NODE => exact ⟨b, rfl, Or.inl ⟨hk, by simpa using ht⟩⟩
      case BTREE_ROOT_NODE =>
        simp only [Bool.and_eq_true, decide_eq_true_eq] at ht
        exact ⟨b, rfl, Or.inr ⟨h1, rfl, by simp [hk], Or.inl hk, ht.1.1, ht.1.2,
          (children_all b _).1 ht.2⟩⟩
      case BTREE_INTERIOR_NODE =>
        simp only [Bool.and_eq_true, decide_eq_true_eq] at ht
        exact ⟨b, rfl, Or.inr ⟨h1, rfl, by simp [hk], Or.inr hk, ht.1.1, ht.1.2,
          (children_all b _).1 ht.2⟩⟩
      all_goals cases ht

theorem leafPairs_leaf (c : BufferCache) (h : Nat) (node : Nat) (b : BTreeNode)
    (hb : c.blocks[node]? = some b) (hk : b.info.nodetype = BTREE_LEAF_NODE) :
    leafPairs c h node = b.pairs := by
  cases h <;> simp [leafPairs, hb, hk]

theorem leafPairs_interior (c : BufferCache) (h : Nat) (node : Nat) (b : BTreeNode)
    (hb : c.blocks[node]? = some b)
    (hk : b.info.nodetype = BTREE_ROOT_NODE ∨ b.info.nodetype = BTREE_INTERIOR_NODE) :
    leafPairs c (h + 1) node = b.children.flatMap (leafPairs c h) := by
  rcases hk with hk | hk <;> simp [leafPairs, hb, hk]

theorem ordered_interior (c : BufferCache) (h : Nat) (node : Nat) (b : BTreeNode)
    (hb : c.blocks[node]? = some b)
    (hk : b.info.nodetype = BTREE_ROOT_NODE ∨ b.info.nodetype = BTREE_INTERIOR_NODE)
    (ho : ordered c (h + 1) node = true) :
    (∀ i : Nat, i < b.info.numkeys →
      (∀ p ∈ leafPairs c h (b.ptrAt i), p.1 < b.keyAt i) ∧
      (∀ p ∈ leafPairs c h (b.ptrAt (i + 1)), b.keyAt i ≤ p.1)) ∧
    ∀ i : Nat, i ≤ b.info.numkeys → ordered c h (b.ptrAt i) = true := by
  have ho1 : ((List.range' 0 b.info.numkeys).all (fun i =>
          (leafPairs c h (b.ptrAt i)).all (fun p => decide (p.1 < b.keyAt i))
            && (leafPairs c h (b.ptrAt (i + 1))).all (fun p => decide (b.keyAt i ≤ p.1)))
          && b.children.all (ordered c h)) = true := by
    rcases hk with hk | hk <;> simpa [ordered, hb, hk] using ho
  rw [Bool.and_eq_true, List.all_eq_true] at ho1
  refine ⟨?_, (children_all b _).1 ho1.2⟩
  intro i hi
  have := ho1.1 i (List.mem_range'_1.2 ⟨Nat.zero_le _, by omega⟩)
  rw [Bool.and_eq_true, List.all_eq_true, List.all_eq_true] at this
  exact ⟨fun p hp => by simpa using this.1 p hp, fun p hp => by simpa using this.2 p hp⟩

theorem ascending_interior (c : BufferCache) (h : Nat) (node : Nat) (b : BTreeNode)
    (hb : c.blocks[node]? = some b)
    (hk : b.info.nodetype = BTREE_ROOT_NODE ∨ b.info.nodetype = BTREE_INTERIOR_NODE)
    (ha : interiorKeysAscending c (h + 1) node = true) :
    (∀ i j : Nat, i ≤ j → j < b.info.numkeys → b.keyAt i ≤ b.keyAt j) ∧
    ∀ i : Nat, i ≤ b.info.numkeys → interiorKeysAscending c h (b.ptrAt i) = true := by
  have ha1 : ((List.range' 0 (b.info.numkeys - 1)).all
          (fun i => decide (b.keyAt i ≤ b.keyAt (i + 1)))
          && b.children.all (interiorKeysAscending c h)) = true := by
    rcases hk with hk | hk <;> simpa [interiorKeysAscending, hb, hk] using ha
  rw [Bool.and_eq_true, List.all_eq_true] at ha1
  refine ⟨?_, (children_all b _).1 ha1.2⟩
  have hadj : ∀ i : Nat, i + 1 < b.info.numkeys → b.keyAt i ≤ b.keyAt (i + 1) := by
    intro i hi
    have := ha1.1 i (List.mem_range'_1.2 ⟨Nat.zero_le _, by omega⟩)
    simpa using this
  intro i j hij hj
  induction j with
  | zero =>
    have : i = 0 := by omega
    subst this; exact Nat.le_refl _
  | succ j ih =>
    by_cases he : i = j + 1
    · subst he; exact Nat.le_refl _
    · exact Nat.le_trans (ih (by omega) (by omega)) (hadj j hj)

/-- At an ordered interior node with ascending keys only the child the scan selects can
hold the key. -/
theorem lookup_children (c : BufferCache) (h : Nat) (b : BTreeNode) (key : Nat)
    (hord : ∀ i : Nat, i < b.info.numkeys →
      (∀ p ∈ leafPairs c h (b.ptrAt i), p.1 < b.keyAt i) ∧
      (∀ p ∈ leafPairs c h (b.ptrAt (i + 1)), b.keyAt i ≤ p.1))
    (hasc : ∀ i j : Nat, i ≤ j → j < b.info.numkeys → b.keyAt i ≤ b.keyAt j) :
    List.lookup key (b.children.flatMap (leafPairs c h)) =
      List.lookup key (leafPairs c h (b.ptrAt (childIndex b key b.info.numkeys 0))) := by
  obtain ⟨_, hle, hbelow, hat⟩ := childIndex_spec b key b.info.numkeys 0
  rw [Nat.zero_add] at hle hat
  generalize childIndex b key b.info.numkeys 0 = j at hle hbelow hat
  have hsplit : List.range' 0 (b.info.numkeys + 1) =
      List.range' 0 j ++ (j :: List.range' (j + 1) (b.info.numkeys - j)) := by
    have e1 : List.range' 0 j ++ List.range' (0 + j) (b.info.numkeys - j + 1) =
        List.range' 0 (b.info.numkeys - j + 1 + j) := List.range'_append_1 0 j _
    have e2 : b.info.numkeys - j + 1 + j = b.info.numkeys + 1 := by omega
    rw [e2, Nat.zero_add, List.range'_succ] at e1
    exact e1.symm
  unfold BTreeNode.children
  rw [hsplit, List.map_append, List.flatMap_append, List.map_cons, List.flatMap_cons]
  rw [lookup_append_left, lookup_append_right]
  · intro p hp
    obtain ⟨x, hx, hpx⟩ := List.mem_flatMap.1 hp
    obtain ⟨i, hi, rfl⟩ := List.mem_map.1 hx
    obtain ⟨hi1, hi2⟩ := List.mem_range'_1.1 hi
    have hjn : j < b.info.numkeys := by omega
    have h1 := hat hjn
    have h2 := (hord (i - 1) (by omega)).2 p (by
      have e : i - 1 + 1 = i := by omega
      rw [e]; exact hpx)
    have h3 := hasc j (i - 1) (by omega) (by omega)
    intro e
    omega
  · intro p hp
    obtain ⟨x, hx, hpx⟩ := List.mem_flatMap.1 hp
    obtain ⟨i, hi, rfl⟩ := List.mem_map.1 hx
    obtain ⟨_, hi2⟩ := List.mem_range'_1.1 hi
    have h1 := hbelow i (Nat.zero_le _) (by omega)
    have h2 := (hord i (by omega)).1 p hpx
    intro e
    omega

/-- The descent on a tree: the lookup returns what the leaves store for the key. -/
theorem tree_lookup (A : Arch) (c : BufferCache) (key : Nat) (value : Nat) :
    ∀ (h : Nat) (node : Nat) (fuel : Nat), isTree A c h node = true →
      ordered c h node = true → interiorKeysAscending c h node = true → h < fuel →
      LookupOrUpdateInternal A fuel c node BTREE_OP_LOOKUP key value =
        some (lookupOutcome c value (List.lookup key (leafPairs c h node))) := by
  intro h
  induction h with
  | zero =>
    intro node fuel ht _ _ hf
    obtain ⟨b, hb, hc⟩ := isTree_cases A c 0 node ht
    rcases hc with ⟨hk, hcap⟩ | ⟨h1, he, _⟩
    · obtain ⟨f, rfl⟩ : ∃ f, fuel = f + 1 := ⟨fuel - 1, by omega⟩
      rw [LookupOrUpdateInternal, unserialize_some _ _ _ _ hb]
      simp only [ne_eq, not_true_eq_false, if_false, hk]
      rw [leafCase_lookup_spec A c node b key value hk hcap, leafPairs_leaf c 0 node b hb hk]
    · omega
  | succ h ih =>
    intro node fuel ht ho ha hf
    obtain ⟨b, hb, hc⟩ := isTree_cases A c (h + 1) node ht
    obtain ⟨f, rfl⟩ : ∃ f, fuel = f + 1 := ⟨fuel - 1, by omega⟩
    rcases hc with ⟨hk, hcap⟩ | ⟨h1, he, hnl, hk, h0, hcap, hch⟩
    · rw [LookupOrUpdateInternal, unserialize_some _ _ _ _ hb]
      simp only [ne_eq, not_true_eq_false, if_false, hk]
      rw [leafCase_lookup_spec A c node b key value hk hcap,
        leafPairs_leaf c (h + 1) node b hb hk]
    · have he1 : h1 = h := by omega
      subst he1
      obtain ⟨hord, hoch⟩ := ordered_interior c h1 node b hb hk ho
      obtain ⟨hasc, hach⟩ := ascending_interior c h1 node b hb hk ha
      obtain ⟨_, hle, _, _⟩ := childIndex_spec b key b.info.numkeys 0
      rw [Nat.zero_add] at hle
      have hrec := ih (b.ptrAt (childIndex b key b.info.numkeys 0)) f (hch _ hle) (hoch _ hle)
        (hach _ hle) (by omega)
      rw [LookupOrUpdateInternal, unserialize_some _ _ _ _ hb]
      simp only [ne_eq, not_true_eq_false, if_false]
      rw [leafPairs_interior c h1 node b hb hk, lookup_children c h1 b key hord hasc, ← hrec]
      rcases hk with hk | hk <;> simp [hk, chooseChild_spec A b key hnl h0 hcap]

/-- C2 (search correctness, amended): on an acyclic tree in which every interior node has
at least one key, satisfies the ordering semantics and has its own keys in ascending
order, and in which the keys of the leaves are distinct, `Lookup(key)` with enough fuel
returns, either no error or `ERROR_NONEXISTENT`; it returns `v` without error if and only
if a leaf reachable from `superblock.rootnode` stores `(key, v)`, and it returns
`ERROR_NONEXISTENT` if and only if no reachable leaf stores the key. -/
theorem C2_lookup_correct (A : Arch) (t : BTreeIndex) (h fuel key v value : Nat)
    (htree : isTree A t.buffercache h t.superblock.info.rootnode = true)
    (hord : ordered t.buffercache h t.superblock.info.rootnode = true)
    (hasc : interiorKeysAscending t.buffercache h t.superblock.info.rootnode = true)
    (hdist : ((leafPairs t.buffercache h t.superblock.info.rootnode).map Prod.fst).Nodup)
    (hfuel : h < fuel) :
    (∃ rc v1, Lookup A fuel t key value = some (rc, v1, t) ∧
      (rc = ERROR_NOERROR ∨ rc = ERROR_NONEXISTENT)) ∧
    ((∃ t1, Lookup A fuel t key value = some (ERROR_NOERROR, v, t1)) ↔
      (key, v) ∈ leafPairs t.buffercache h t.superblock.info.rootnode) ∧
    ((∃ v1 t1, Lookup A fuel t key value = some (ERROR_NONEXISTENT, v1, t1)) ↔
      ∀ v1, (key, v1) ∉ leafPairs t.buffercache h t.superblock.info.rootnode) := by
  have hl := tree_lookup A t.buffercache key value h t.superblock.info.rootnode fuel htree hord
    hasc hfuel
  have hL : Lookup A fuel t key value =
      some ((lookupOutcome t.buffercache value
          (List.lookup key (leafPairs t.buffercache h t.superblock.info.rootnode))).1,
        (lookupOutcome t.buffercache value
          (List.lookup key (leafPairs t.buffercache h t.superblock.info.rootnode))).2.1, t) := by
    unfold Lookup
    rw [hl]
    cases List.lookup key (leafPairs t.buffercache h t.superblock.info.rootnode) <;> rfl
  cases hlk : List.lookup key (leafPairs t.buffercache h t.superblock.info.rootnode) with
  | none =>
    rw [hlk] at hL
    have hno := (lookup_eq_none_iff key _).1 hlk
    refine ⟨⟨_, _, hL, Or.inr rfl⟩, ?_, ?_⟩
    · constructor
      · rintro ⟨t1, h1⟩
        rw [hL] at h1
        simp [lookupOutcome] at h1
      · intro hm
        exact absurd hm (hno v)
    · constructor
      · intro _
        exact hno
      · intro _
        exact ⟨_, _, hL⟩
  | some w =>
    rw [hlk] at hL
    have hmem := mem_of_lookup key w _ hlk
    refine ⟨⟨_, _, hL, Or.inl rfl⟩, ?_, ?_⟩
    · constructor
      · rintro ⟨t1, h1⟩
        rw [hL] at h1
        simp [lookupOutcome] at h1
        rw [← h1.1]
        exact hmem
      · intro hm
        have := lookup_of_mem key v _ hdist hm
        rw [hlk] at this
        cases this
        exact ⟨t, hL⟩
    · constructor
      · rintro ⟨v1, t1, h1⟩
        rw [hL] at h1
        simp [lookupOutcome] at h1
      · intro hno
        exact absurd hmem (hno w)

/-- C2 at a sample image: key 15 is stored with value 150 and found, key 7 is stored
nowhere and not found. -/
theorem C2_lookup_correct_witness :
    ((15, 150) ∈ leafPairs exFullRoot.buffercache 1 exFullRoot.superblock.info.rootnode ∧
      ∃ t1, Lookup exArch 2 exFullRoot 15 0 = some (ERROR_NOERROR, 150, t1)) ∧
    ∃ v1 t1, Lookup exArch 2 exFullRoot 7 0 = some (ERROR_NONEXISTENT, v1, t1) :=
  ⟨⟨by decide,
    (C2_lookup_correct exArch exFullRoot 1 2 15 150 0 (by decide) (by decide) (by decide)
      (by decide) (by decide)).2.1.2 (by decide)⟩,
   (C2_lookup_correct exArch exFullRoot 1 2 7 0 0 (by decide) (by decide) (by decide)
      (by decide) (by decide)).2.2.2 ((lookup_eq_none_iff 7 _).1 (by decide))⟩

/-- C2 as stated fails: the root of the sample image has the keys 5 and 3 in this order;
it is an acyclic tree whose interior node has keys and satisfies the ordering semantics,
its leaf keys are distinct, and the leaf in block 4 stores `(3, 30)`, yet `Lookup(3)`
returns `ERROR_NONEXISTENT`. -/
theorem C2_counterexample :
    isTree exArch exDescendingRoot.buffercache 1 exDescendingRoot.superblock.info.rootnode = true ∧
    ordered exDescendingRoot.buffercache 1 exDescendingRoot.superblock.info.rootnode = true ∧
    ((leafPairs exDescendingRoot.buffercache 1
      exDescendingRoot.superblock.info.rootnode).map Prod.fst).Nodup ∧
    (3, 30) ∈ leafPairs exDescendingRoot.buffercache 1 exDescendingRoot.superblock.info.rootnode ∧
    Lookup exArch 2 exDescendingRoot 3 0 = some (ERROR_NONEXISTENT, 0, exDescendingRoot) := by
  decide

/-! ## Sorted display -/

theorem renderPairs_append (l1 l2 : List (Nat × Nat)) :
    renderPairs (l1 ++ l2) = renderPairs l1 ++ renderPairs l2 := by
  simp [renderPairs]

theorem leafLoop_spec (A : Arch) (b : BTreeNode) (hb : b.info.nodetype = BTREE_LEAF_NODE) :
    ∀ (k offset : Nat) (os : List Tok), offset + k ≤ b.info.GetNumSlotsAsLeaf A →
      PrintNode.leafLoop A b k offset os =
        (ERROR_NOERROR,
          os ++ renderPairs ((List.range' offset k).map (fun i => (b.keyAt i, b.valAt i)))) := by
  intro k
  induction k with
  | zero => intro offset os _; simp [PrintNode.leafLoop, renderPairs]
  | succ k ih =>
    intro offset os h
    have hlt : offset < b.keySlots A := by
      simp only [BTreeNode.keySlots, hb, if_true]; omega
    have hlv : offset < b.info.GetNumSlotsAsLeaf A := by omega
    have hp : (if offset = 0 then b.GetPtr A offset else .ok 0) = .ok
        (if offset = 0 then getCell b.data (b.ResolvePtr offset) else 0) := by
      by_cases h0 : offset = 0
      · subst h0; simp [BTreeNode.GetPtr]
      · simp [h0]
    rw [PrintNode.leafLoop, hp]
    simp only [BTreeNode.GetKey, hlt, if_true, BTreeNode.GetVal, hlv]
    rw [ih (offset + 1) _ (by omega)]
    simp [List.range'_succ, renderPairs, BTreeNode.keyAt, BTreeNode.valAt]

theorem printNode_leaf (A : Arch) (b : BTreeNode) (o : List Tok)
    (hb : b.info.nodetype = BTREE_LEAF_NODE)
    (hcap : b.info.numkeys ≤ b.info.GetNumSlotsAsLeaf A) :
    PrintNode A o b = (ERROR_NOERROR, o ++ renderPairs b.pairs) := by
  unfold PrintNode BTreeNode.pairs
  simp only [hb]
  exact leafLoop_spec A b hb b.info.numkeys 0 o (by omega)

theorem displayLoop_spec (A : Arch) (b : BTreeNode)
    (rec : Nat → List Tok → Option (ERROR_T × List Tok)) (f : Nat → List (Nat × Nat))
    (hcap : b.info.numkeys ≤ b.info.GetNumSlotsAsInterior A)
    (hrec : ∀ i : Nat, i ≤ b.info.numkeys → ∀ os,
      rec (b.ptrAt i) os = some (ERROR_NOERROR, os ++ renderPairs (f (b.ptrAt i)))) :
    ∀ (k offset : Nat) (os : List Tok), offset + k = b.info.numkeys + 1 →
      DisplayInternal.loop A b rec k offset os =
        some (ERROR_NOERROR,
          os ++ renderPairs (((List.range' offset k).map b.ptrAt).flatMap f)) := by
  intro k
  induction k with
  | zero => intro offset os _; simp [DisplayInternal.loop, renderPairs]
  | succ k ih =>
    intro offset os h
    have hle : offset ≤ b.info.GetNumSlotsAsInterior A := by omega
    rw [DisplayInternal.loop]
    simp only [BTreeNode.GetPtr, hle, if_true]
    have := hrec offset (by omega) os
    simp only [BTreeNode.ptrAt] at this
    rw [this]
    simp only [ne_eq, not_true_eq_false, if_false]
    rw [ih (offset + 1) _ (by omega)]
    simp [List.range'_succ, renderPairs_append, BTreeNode.ptrAt]

/-- The sorted display of a tree writes the pairs of its leaves from left to right. -/
theorem tree_display (A : Arch) (c : BufferCache) :
    ∀ (h : Nat) (node fuel : Nat) (o : List Tok), isTree A c h node = true → h < fuel →
      DisplayInternal A c fuel node o =
        some (ERROR_NOERROR, o ++ renderPairs (leafPairs c h node)) := by
  intro h
  induction h with
  | zero =>
    intro node fuel o ht hf
    obtain ⟨b, hb, hc⟩ := isTree_cases A c 0 node ht
    rcases hc with ⟨hk, hcap⟩ | ⟨h1, he, _⟩
    · obtain ⟨f, rfl⟩ : ∃ f, fuel = f + 1 := ⟨fuel - 1, by omega⟩
      rw [DisplayInternal, unserialize_some _ _ _ _ hb]
      simp only [ne_eq, not_true_eq_false, if_false, printNode_leaf A b o hk hcap, hk]
      rw [leafPairs_leaf c 0 node b hb hk]
    · omega
  | succ h ih =>
    intro node fuel o ht hf
    obtain ⟨b, hb, hc⟩ := isTree_cases A c (h + 1) node ht
    obtain ⟨f, rfl⟩ : ∃ f, fuel = f + 1 := ⟨fuel - 1, by omega⟩
    rcases hc with ⟨hk, hcap⟩ | ⟨h1, he, hnl, hk, h0, hcap, hch⟩
    · rw [DisplayInternal, unserialize_some _ _ _ _ hb]
      simp only [ne_eq, not_true_eq_false, if_false, printNode_leaf A b o hk hcap, hk]
      rw [leafPairs_leaf c (h + 1) node b hb hk]
    · have he1 : h1 = h := by omega
      subst he1
      have hloop := displayLoop_spec A b (DisplayInternal A c f) (leafPairs c h1) hcap
        (fun i hi os => ih (b.ptrAt i) f os (hch i hi) (by omega))
        (b.info.numkeys + 1) 0 o (by omega)
      rw [DisplayInternal, unserialize_some _ _ _ _ hb]
      rw [leafPairs_interior c h1 node b hb hk]
      unfold BTreeNode.children
      rcases hk with hk | hk <;>
        simp only [ne_eq, not_true_eq_false, if_false, PrintNode, hk, h0, if_true, hloop]

theorem leafAscending_leaf (b : BTreeNode) (h : b.leafKeysAscending = true) :
    (b.pairs.map Prod.fst).Pairwise (fun x y => x < y) := by
  unfold BTreeNode.leafKeysAscending at h
  rw [List.all_eq_true] at h
  have hadj : ∀ i : Nat, i + 1 < b.info.numkeys → b.keyAt i < b.keyAt (i + 1) := by
    intro i hi
    have := h i (List.mem_range'_1.2 ⟨Nat.zero_le _, by omega⟩)
    simpa using this
  have hmono : ∀ j i : Nat, i < j → j < b.info.numkeys → b.keyAt i < b.keyAt j := by
    intro j
    induction j with
    | zero => intro i hij _; omega
    | succ j ih =>
      intro i hij hj
      by_cases he : i = j
      · subst he; exact hadj i hj
      · exact Nat.lt_trans (ih i (by omega) (by omega)) (hadj j hj)
  unfold BTreeNode.pairs
  rw [List.map_map, List.pairwise_map]
  refine List.Pairwise.imp_of_mem ?_ (List.pairwise_lt_range' 0 b.info.numkeys)
  intro i j _ hj hij
  have := (List.mem_range'_1.1 hj).2
  exact hmono j i hij (by omega)

theorem leafAscending_cases (c : BufferCache) (h : Nat) (node : Nat) (b : BTreeNode)
    (hb : c.blocks[node]? = some b) (hl : leafKeysAscending c h node = true) :
    (b.info.nodetype = BTREE_LEAF_NODE → b.leafKeysAscending = true) ∧
    (b.info.nodetype = BTREE_ROOT_NODE ∨ b.info.nodetype = BTREE_INTERIOR_NODE →
      ∀ h1, h = h1 + 1 → ∀ i : Nat, i ≤ b.info.numkeys →
        leafKeysAscending c h1 (b.ptrAt i) = true) := by
  constructor
  · intro hk
    cases h <;> simpa [leafKeysAscending, hb, hk] using hl
  · intro hk h1 he
    subst he
    have : b.children.all (leafKeysAscending c h1) = true := by
      rcases hk with hk | hk <;> simpa [leafKeysAscending, hb, hk] using hl
    exact (children_all b _).1 this

/-- The leaves of an ordered tree with ascending node keys store strictly ascending keys
from left to right. -/
theorem tree_sorted (A : Arch) (c : BufferCache) :
    ∀ (h : Nat) (node : Nat), isTree A c h node = true → ordered c h node = true →
      interiorKeysAscending c h node = true → leafKeysAscending c h node = true →
      ((leafPairs c h node).map Prod.fst).Pairwise (fun x y => x < y) := by
  intro h
  induction h with
  | zero =>
    intro node ht _ _ hl
    obtain ⟨b, hb, hc⟩ := isTree_cases A c 0 node ht
    rcases hc with ⟨hk, _⟩ | ⟨h1, he, _⟩
    · rw [leafPairs_leaf c 0 node b hb hk]
      exact leafAscending_leaf b ((leafAscending_cases c 0 node b hb hl).1 hk)
    · omega
  | succ h ih =>
    intro node ht ho ha hl
    obtain ⟨b, hb, hc⟩ := isTree_cases A c (h + 1) node ht
    rcases hc with ⟨hk, _⟩ | ⟨h1, he, hnl, hk, h0, hcap, hch⟩
    · rw [leafPairs_leaf c (h + 1) node b hb hk]
      exact leafAscending_leaf b ((leafAscending_cases c (h + 1) node b hb hl).1 hk)
    · have he1 : h1 = h := by omega
      subst he1
      obtain ⟨hord, hoch⟩ := ordered_interior c h1 node b hb hk ho
      obtain ⟨hasc, hach⟩ := ascending_interior c h1 node b hb hk ha
      have hlch := (leafAscending_cases c (h1 + 1) node b hb hl).2 hk h1 rfl
      rw [leafPairs_interior c h1 node b hb hk, List.map_flatMap, List.pairwise_flatMap]
      unfold BTreeNode.children
      constructor
      · intro x hx
        obtain ⟨i, hi, rfl⟩ := List.mem_map.1 hx
        have hi2 := (List.mem_range'_1.1 hi).2
        exact ih (b.ptrAt i) (hch i (by omega)) (hoch i (by omega)) (hach i (by omega))
          (hlch i (by omega))
      · rw [List.pairwise_map]
        refine List.Pairwise.imp_of_mem ?_ (List.pairwise_lt_range' 0 (b.info.numkeys + 1))
        intro i j _ hj hij x hx y hy
        have hj2 := (List.mem_range'_1.1 hj).2
        obtain ⟨p, hp, rfl⟩ := List.mem_map.1 hx
        obtain ⟨q, hq, rfl⟩ := List.mem_map.1 hy
        have h1 := (hord i (by omega)).1 p hp
        have h2 := (hord (j - 1) (by omega)).2 q (by
          have e : j - 1 + 1 = j := by omega
          rw [e]; exact hq)
        have h3 := hasc i (j - 1) (by omega) (by omega)
        omega

/-- C9 (ordered traversal, amended): on an acyclic tree in which every interior node has
at least one key, satisfies the ordering semantics and has its own keys in ascending
order, and every leaf has strictly ascending keys, `Display` with the sorted key/value
style and enough fuel writes exactly the pairs stored in the leaves reachable from the
root, one line `(key,value)` per stored pair, leaves from left to right and slots in slot
order, and the keys of these pairs are strictly ascending along the output. -/
theorem C9_display_sorted (A : Arch) (t : BTreeIndex) (h fuel : Nat) (o : List Tok)
    (htree : isTree A t.buffercache h t.superblock.info.rootnode = true)
    (hord : ordered t.buffercache h t.superblock.info.rootnode = true)
    (hasc : interiorKeysAscending t.buffercache h t.superblock.info.rootnode = true)
    (hleaf : leafKeysAscending t.buffercache h t.superblock.info.rootnode = true)
    (hfuel : h < fuel) :
    Display A fuel t o = some (ERROR_NOERROR,
      o ++ renderPairs (leafPairs t.buffercache h t.superblock.info.rootnode)) ∧
    ((leafPairs t.buffercache h t.superblock.info.rootnode).map Prod.fst).Pairwise
      (fun x y => x < y) := by
  refine ⟨?_, tree_sorted A t.buffercache h _ htree hord hasc hleaf⟩
  unfold Display
  rw [tree_display A t.buffercache h _ fuel o htree hfuel]

/-- C9 at a sample image: the display writes the four stored pairs in key order. -/
theorem C9_display_sorted_witness :
    Display exArch 2 exFullRoot [] = some (ERROR_NOERROR,
      renderPairs [(5, 50), (10, 100), (15, 150), (20, 200)]) ∧
    ([(5, 50), (10, 100), (15, 150), (20, 200)].map Prod.fst).Pairwise (fun x y => x < y) :=
  C9_display_sorted exArch exFullRoot 1 2 [] (by decide) (by decide) (by decide) (by decide)
    (by decide)

/-- C9 as stated fails: the sample image whose root has the keys 5 and 3 in this order is
an acyclic tree whose interior node has keys and satisfies the ordering semantics, and
every leaf has strictly ascending keys, yet the display writes key 4 before key 3. -/
theorem C9_counterexample :
    isTree exArch exDescendingRoot.buffercache 1 exDescendingRoot.superblock.info.rootnode = true ∧
    ordered exDescendingRoot.buffercache 1 exDescendingRoot.superblock.info.rootnode = true ∧
    leafKeysAscending exDescendingRoot.buffercache 1
      exDescendingRoot.superblock.info.rootnode = true ∧
    Display exArch 2 exDescendingRoot [] = some (ERROR_NOERROR, renderPairs [(4, 40), (3, 30)]) ∧
    ¬ ([(4, 40), (3, 30)].map Prod.fst).Pairwise (fun x y => x < y) := by
  decide

/-! ## Insert -/

/-- `AddKeyValuePair` refuses a node of kind ROOT and writes nothing. -/
theorem addKeyValuePair_root (A : Arch) (t : BTreeIndex) (node key value newNode : Nat)
    (b : BTreeNode) (hb : t.buffercache.blocks[node]? = some b)
    (hk : b.info.nodetype = BTREE_ROOT_NODE) :
    AddKeyValuePair A t node key value newNode = (ERROR_INSANE, t) := by
  unfold AddKeyValuePair
  simp [unserialize_some _ _ _ _ hb, hk]

/-- `RecursivePlacement` hands a node of kind ROOT to `AddKeyValuePair`, which refuses
it: the placement at such a node returns `ERROR_INSANE` and writes nothing. -/
theorem recursivePlacement_root (A : Arch) (fuel : Nat) (t : BTreeIndex)
    (node parent key value : Nat) (b : BTreeNode) (hb : t.buffercache.blocks[node]? = some b)
    (hk : b.info.nodetype = BTREE_ROOT_NODE) :
    RecursivePlacement A (fuel + 1) t node parent key value = some (ERROR_INSANE, t) := by
  rw [RecursivePlacement]
  simp [unserialize_some _ _ _ _ hb, hk, addKeyValuePair_root A t node key value 0 b hb hk]

theorem exFresh_eq : Attach (BTreeIndex.new 4 4 (blankCache 5 52)) 0 true
    = some (ERROR_NOERROR, exFresh) := by decide

theorem exFresh_lookup (k : Nat) :
    Lookup exArch 2 (exFreshAfterInsert k) k 0
      = some (ERROR_NONEXISTENT, 0, exFreshAfterInsert k) := by
  have hlt : ¬ k < k := Nat.lt_irrefl k
  simp [Lookup, LookupOrUpdateInternal, LookupOrUpdateInternal.leafCase, BTreeNode.Unserialize,
    exFreshAfterInsert, exBlock, chooseChild, scanInterior, scanLeaf, BTreeNode.GetKey,
    BTreeNode.GetPtr, BTreeNode.keySlots, NodeMetadata.GetNumSlotsAsInterior,
    NodeMetadata.GetNumDataBytes, exArch, getCell, BTreeNode.ResolveKey, BTreeNode.ResolvePtr,
    BTreeNode.new, hlt]

theorem exFresh_insert (k v : Nat) :
    Insert exArch 2 exFresh k v = some (ERROR_INSANE, exFreshAfterInsert k) := by
  have h1 : Insert.firstKey exArch exFresh
      (BTreeNode.default.Unserialize exFresh.buffercache exFresh.superblock.info.rootnode).2 k
      = some (none, exBlock BTREE_ROOT_NODE 2 1 [2, k, 3], exFreshAfterInsert k) := by
    simp [Insert.firstKey, AllocateNode, BTreeIndex.setFreelist, BTreeIndex.flushSuperblock,
      BTreeNode.Unserialize, BTreeNode.Serialize, BTreeNode.default, BTreeNode.new, exFresh,
      exFreshAfterInsert, exBlock, BufferCache.GetBlockSize, BTreeNode.setNumkeys, orKeep,
      BTreeNode.SetKey, BTreeNode.SetPtr, BTreeNode.keySlots, BTreeNode.ResolveKey,
      BTreeNode.ResolvePtr, NodeMetadata.GetNumSlotsAsInterior, NodeMetadata.GetNumDataBytes,
      exArch, setCell]
  have h2 : RecursivePlacement exArch 2 (exFreshAfterInsert k) 1 1 k v
      = some (ERROR_INSANE, exFreshAfterInsert k) :=
    recursivePlacement_root exArch 1 (exFreshAfterInsert k) 1 1 k v
      (exBlock BTREE_ROOT_NODE 2 1 [2, k, 3]) rfl rfl
  have h3 : IsNodeFull exArch (exFreshAfterInsert k) 1 = false := by
    simp [IsNodeFull, BTreeNode.Unserialize, exFreshAfterInsert, exBlock,
      NodeMetadata.GetNumSlotsAsInterior, NodeMetadata.GetNumDataBytes, exArch]
  have h0 : (BTreeNode.default.Unserialize exFresh.buffercache
      exFresh.superblock.info.rootnode).2.info.numkeys = 0 := rfl
  have h4 : (exFreshAfterInsert k).superblock.info.rootnode = 1 := rfl
  unfold Insert
  simp only [h0, if_true, h1, Insert.place, exFresh_lookup k, h4, h2, h3]
  rfl

/-- C1 fails on the code.  On the index that `Attach(0, true)` formats over five blank
blocks, with room for two keys in the root, `Insert(k, v)` returns `ERROR_INSANE` for
every key and value, and the `Lookup(k)` that follows returns `ERROR_NONEXISTENT`: the
key went into the root as separator and into no leaf. -/
theorem C1_fresh_insert_is_insane (k v : Nat) :
    Attach (BTreeIndex.new 4 4 (blankCache 5 52)) 0 true = some (ERROR_NOERROR, exFresh) ∧
    Insert exArch 2 exFresh k v = some (ERROR_INSANE, exFreshAfterInsert k) ∧
    Lookup exArch 2 (exFreshAfterInsert k) k 0
      = some (ERROR_NONEXISTENT, 0, exFreshAfterInsert k) :=
  ⟨exFresh_eq, exFresh_insert k v, exFresh_lookup k⟩

/-! ### The key count of the superblock -/

theorem allocateNode_numkeys (t t1 : BTreeIndex) (flag : Bool) (rc : ERROR_T) (n : Nat)
    (h : AllocateNode t flag = some (rc, n, t1)) :
    t1.superblock.info.numkeys = t.superblock.info.numkeys := by
  unfold AllocateNode at h
  simp only at h
  split_ifs at h <;> simp only [Option.some.injEq, Prod.mk.injEq, reduceCtorEq] at h <;>
    obtain ⟨_, _, h3⟩ := h <;> subst h3 <;> cases flag <;> rfl

theorem addKeyValuePair_superblock (A : Arch) (t : BTreeIndex) (node key value newNode : Nat) :
    (AddKeyValuePair A t node key value newNode).2.superblock = t.superblock := by
  unfold AddKeyValuePair
  simp only
  split
  all_goals first
    | rfl
    | (split <;> rfl)

theorem splitNode_numkeys (A : Arch) (t t1 : BTreeIndex) (node splitKey newNode key1 : Nat)
    (rc : ERROR_T) (h : SplitNode A t node splitKey = some (rc, newNode, key1, t1)) :
    t1.superblock.info.numkeys = t.superblock.info.numkeys := by
  unfold SplitNode at h
  simp only at h
  cases ha : AllocateNode t false with
  | none => simp [ha] at h
  | some r =>
    obtain ⟨rc0, n0, t0⟩ := r
    have h0 := allocateNode_numkeys t t0 false rc0 n0 ha
    simp only [ha] at h
    rw [← h0]
    split_ifs at h <;> simp only [Option.some.injEq, Prod.mk.injEq] at h <;>
      obtain ⟨_, _, _, h3⟩ := h <;> subst h3 <;> rfl

/-- The statements of `RecursivePlacement` that follow the recursive call. -/
theorem afterPlacement_numkeys (A : Arch) (t2 t1 : BTreeIndex) (node ptr : Nat)
    (rc1 rc : ERROR_T)
    (h : (if rc1 ≠ ERROR_NOERROR then some (rc1, t2)
          else if IsNodeFull A t2 ptr then
            match SplitNode A t2 ptr 0 with
            | none => none
            | some (rc3, newNode, splitKey, t3) =>
              if rc3 ≠ ERROR_NOERROR then some (rc3, t3)
              else some (AddKeyValuePair A t3 node splitKey 0 newNode)
          else some (rc1, t2)) = some (rc, t1)) :
    t1.superblock.info.numkeys = t2.superblock.info.numkeys := by
  split_ifs at h
  · simp only [Option.some.injEq, Prod.mk.injEq] at h; rw [← h.2]
  · cases hs : SplitNode A t2 ptr 0 with
    | none => simp [hs] at h
    | some r3 =>
      obtain ⟨rc3, n3, k3, t3⟩ := r3
      have h3 := splitNode_numkeys A t2 t3 ptr 0 n3 k3 rc3 hs
      simp only [hs] at h
      split_ifs at h
      · simp only [Option.some.injEq, Prod.mk.injEq] at h; rw [← h.2, h3]
      · simp only [Option.some.injEq] at h
        have := addKeyValuePair_superblock A t3 node k3 0 n3
        rw [h] at this
        simp only at this
        rw [this, h3]
  · simp only [Option.some.injEq, Prod.mk.injEq] at h; rw [← h.2]

theorem recursivePlacement_numkeys (A : Arch) :
    ∀ (fuel : Nat) (t t1 : BTreeIndex) (node parent key value : Nat) (rc : ERROR_T),
      RecursivePlacement A fuel t node parent key value = some (rc, t1) →
      t1.superblock.info.numkeys = t.superblock.info.numkeys := by
  intro fuel
  induction fuel with
  | zero => intro t t1 node parent key value rc h; simp [RecursivePlacement] at h
  | succ fuel ih =>
    intro t t1 node parent key value rc h
    rw [RecursivePlacement] at h
    have hadd : ∀ r, some (AddKeyValuePair A t node key value 0) = some r →
        r.2.superblock.info.numkeys = t.superblock.info.numkeys := by
      intro r hr
      simp only [Option.some.injEq] at hr
      rw [← hr, addKeyValuePair_superblock]
    cases hk : (BTreeNode.default.Unserialize t.buffercache node).2.info.nodetype <;>
      simp only [hk] at h
    case BTREE_ROOT_NODE => exact hadd _ h
    case BTREE_LEAF_NODE => exact hadd _ h
    case BTREE_SUPERBLOCK => simp only [Option.some.injEq, Prod.mk.injEq] at h; rw [← h.2]
    case BTREE_UNALLOCATED_BLOCK =>
      simp only [Option.some.injEq, Prod.mk.injEq] at h; rw [← h.2]
    case BTREE_INTERIOR_NODE =>
      cases hc : chooseChild A (BTreeNode.default.Unserialize t.buffercache node).2 key with
      | error e => simp only [hc, Option.some.injEq, Prod.mk.injEq] at h; rw [← h.2]
      | ok r =>
        cases r with
        | none => simp only [hc, Option.some.injEq, Prod.mk.injEq] at h; rw [← h.2]
        | some ptr =>
          simp only [hc] at h
          cases hr : RecursivePlacement A fuel t ptr node key value with
          | none => simp [hr] at h
          | some r2 =>
            obtain ⟨rc1, t2⟩ := r2
            have h2 := ih t t2 ptr node key value rc1 hr
            simp only [hr] at h
            rw [afterPlacement_numkeys A t2 t1 node ptr rc1 rc h, h2]

theorem growRoot_numkeys (A : Arch) (t t1 : BTreeIndex) (root : BTreeNode) (oldRoot : Nat)
    (rc : ERROR_T) (h : Insert.growRoot A t root oldRoot = some (rc, t1)) :
    t1.superblock.info.numkeys = t.superblock.info.numkeys := by
  unfold Insert.growRoot at h
  cases hs : SplitNode A t oldRoot 0 with
  | none => simp [hs] at h
  | some r3 =>
    obtain ⟨rc3, n3, k3, t3⟩ := r3
    have h3 := splitNode_numkeys A t t3 oldRoot 0 n3 k3 rc3 hs
    simp only [hs] at h
    rw [← h3]
    generalize hg : ({ t3 with buffercache := _ } : BTreeIndex) = t4 at h
    have h4 : t4.superblock.info.numkeys = t3.superblock.info.numkeys := by rw [← hg]
    rw [← h4]
    cases ha : AllocateNode t4 true with
    | none => simp [ha] at h
    | some r =>
      obtain ⟨e1, n1, t5⟩ := r
      have h5 := allocateNode_numkeys t4 t5 true e1 n1 ha
      simp only [ha] at h
      rw [← h5]
      split_ifs at h <;> simp only [Option.some.injEq, Prod.mk.injEq] at h <;> rw [← h.2]

theorem place_numkeys (A : Arch) (fuel : Nat) (t t1 : BTreeIndex) (root : BTreeNode)
    (key value : Nat) (rc : ERROR_T) (h : Insert.place A fuel t root key value = some (rc, t1)) :
    t1.superblock.info.numkeys = t.superblock.info.numkeys := by
  unfold Insert.place at h
  simp only at h
  cases hl : Lookup A fuel t key 0 with
  | none => simp [hl] at h
  | some r =>
    obtain ⟨rc0, v0, t0⟩ := r
    have h0 := lookup_state A fuel t t0 key 0 v0 rc0 hl
    subst h0
    simp only [hl] at h
    split_ifs at h
    · cases hr : RecursivePlacement A fuel t0 t0.superblock.info.rootnode
          t0.superblock.info.rootnode key value with
      | none => simp [hr] at h
      | some r2 =>
        obtain ⟨rc2, t2⟩ := r2
        have h2 := recursivePlacement_numkeys A fuel t0 t2 _ _ key value rc2 hr
        simp only [hr] at h
        split_ifs at h
        · rw [growRoot_numkeys A t2 t1 root _ rc h, h2]
        · simp only [Option.some.injEq, Prod.mk.injEq] at h; rw [← h.2, h2]
    · simp only [Option.some.injEq, Prod.mk.injEq] at h; rw [← h.2]

theorem firstKey_numkeys (A : Arch) (t t1 : BTreeIndex) (root root1 : BTreeNode) (key : Nat)
    (e : Option ERROR_T) (h : Insert.firstKey A t root key = some (e, root1, t1)) :
    t1.superblock.info.numkeys = t.superblock.info.numkeys := by
  unfold Insert.firstKey at h
  simp only at h
  cases ha : AllocateNode t false with
  | none => simp [ha] at h
  | some r =>
    obtain ⟨e1, n1, t2⟩ := r
    have h1 := allocateNode_numkeys t t2 false e1 n1 ha
    simp only [ha] at h
    rw [← h1]
    split_ifs at h
    · simp only [Option.some.injEq, Prod.mk.injEq] at h; rw [← h.2.2]
    · cases hb : AllocateNode t2 false with
      | none => simp [hb] at h
      | some r2 =>
        obtain ⟨e2, n2, t3⟩ := r2
        have h2 := allocateNode_numkeys t2 t3 false e2 n2 hb
        simp only [hb] at h
        rw [← h2]
        split_ifs at h <;> simp only [Option.some.injEq, Prod.mk.injEq] at h <;> rw [← h.2.2]

/-- No path of `Insert` changes `superblock.info.numkeys`. -/
theorem insert_keeps_numkeys (A : Arch) (fuel : Nat) (t t1 : BTreeIndex) (key value : Nat)
    (rc : ERROR_T) (h : Insert A fuel t key value = some (rc, t1)) :
    t1.superblock.info.numkeys = t.superblock.info.numkeys := by
  unfold Insert at h
  simp only at h
  split_ifs at h
  · cases hf : Insert.firstKey A t
        (BTreeNode.default.Unserialize t.buffercache t.superblock.info.rootnode).2 key with
    | none => simp [hf] at h
    | some r =>
      obtain ⟨e, root1, t2⟩ := r
      have h1 := firstKey_numkeys A t t2 _ root1 key e hf
      simp only [hf] at h
      cases e with
      | some err => simp only [Option.some.injEq, Prod.mk.injEq] at h; rw [← h.2, h1]
      | none => simp only at h; rw [place_numkeys A fuel t2 t1 root1 key value rc h, h1]
  · exact place_numkeys A fuel t t1 _ key value rc h

theorem exTiny_eq : Attach (BTreeIndex.new 4 4 (blankCache 6 40)) 0 true
    = some (ERROR_NOERROR, exTiny) := by decide

/-- C6 fails on the code.  On the index that `Attach(0, true)` formats over six blank
blocks in which an interior node has one key slot, `Insert(5, 7)` returns no error and
`superblock.info.numkeys` is 0 after the call as it was before. -/
theorem C6_insert_does_not_count :
    Attach (BTreeIndex.new 4 4 (blankCache 6 40)) 0 true = some (ERROR_NOERROR, exTiny) ∧
    exTiny.superblock.info.numkeys = 0 ∧
    (Insert exArch 2 exTiny 5 7).map (fun r => (r.1, r.2.superblock.info.numkeys))
      = some (ERROR_NOERROR, 0) := by
  decide

/-- C7 fails on the code.  In the sample image with a full root and an empty free list,
`Lookup(5)` returns 50; `Insert(7, 70)` returns `ERROR_NOSPACE` and leaves
`superblock.info.rootnode` set to 0; after that `Lookup(5)` returns `ERROR_INSANE`. -/
theorem C7_nospace_loses_the_root :
    Lookup exArch 2 exFullRoot 5 0 = some (ERROR_NOERROR, 50, exFullRoot) ∧
    Insert exArch 2 exFullRoot 7 70 = some (ERROR_NOSPACE, exFullRoot.setRootnode 0) ∧
    Lookup exArch 2 (exFullRoot.setRootnode 0) 5 0
      = some (ERROR_INSANE, 0, exFullRoot.setRootnode 0) := by
  decide

/-! ## Sanity check -/

/-- The verdict of `SanityCheck` depends on nothing but what `totalKeys` happened to hold
and the key count of the superblock. -/
theorem sanityCheck_eq (t : BTreeIndex) (totalKeys : Nat) :
    SanityCheck t totalKeys =
      if totalKeys = t.superblock.info.numkeys then ERROR_NOERROR else ERROR_INSANE := by
  unfold SanityCheck NodeCheck
  by_cases h : totalKeys = t.superblock.info.numkeys <;> simp [h]

/-- C10 fails on the code.  In the sample image whose root has the keys 5 and 3 in this
order the keys of the root are not ascending and the leaves hold two keys while the
superblock counts none; `SanityCheck`, entered with `totalKeys` holding 0, returns no
error. -/
theorem C10_sanity_check_passes_insane_tree :
    interiorKeysAscending exDescendingRoot.buffercache 1
      exDescendingRoot.superblock.info.rootnode = false ∧
    (leafPairs exDescendingRoot.buffercache 1
      exDescendingRoot.superblock.info.rootnode).length = 2 ∧
    exDescendingRoot.superblock.info.numkeys = 0 ∧
    SanityCheck exDescendingRoot 0 = ERROR_NOERROR := by
  decide

/-! ## Update twice -/

theorem setCell_setCell_same (d : List Nat) (i v : Nat) :
    setCell (setCell d i v) i v = setCell d i v := by
  unfold setCell
  by_cases h : i < d.length
  · simp [h]
  · have hle : d.length ≤ i := Nat.le_of_not_lt h
    have hlen : (d ++ List.replicate (i - d.length) 0 ++ [v]).length = i + 1 := by
      simp; omega
    simp only [h, if_false, hlen, Nat.lt_succ_self, if_true]
    have hlen2 : (d ++ List.replicate (i - d.length) 0).length = i := by simp; omega
    rw [List.set_append_right _ _ (by rw [hlen2])]
    simp [hlen2]

/-- C11 (update idempotence): when `Update(k, v)` returns, a second `Update(k, v)` on the
state it leaves returns the same code and leaves that state, superblock and blocks,
exactly as it is. -/
theorem C11_update_idempotent (A : Arch) (fuel : Nat) (t t1 : BTreeIndex) (k v : Nat)
    (rc : ERROR_T) (h : Update A fuel t k v = some (rc, t1)) :
    Update A fuel t1 k v = some (rc, t1) := by
  rcases update_cases A fuel t t1 k v rc h with
    ⟨_, ht1⟩ | ⟨hrc, l, b, b1, offset, hd, hl, hb, hs, hv, ht1⟩
  · subst ht1; exact h
  · obtain ⟨hinfo, _, _, _, hkeys, _⟩ := setVal_leaf_frame A b b1 offset v hb hv
    obtain ⟨hlt, hb1eq⟩ := setVal_ok A b b1 offset v hv
    have hb1 : b1.info.nodetype = BTREE_LEAF_NODE := by rw [hinfo]; exact hb
    have hllt := lt_length_of_some _ l b hl
    subst ht1
    subst hrc
    rw [update_eq]
    simp only
    rw [descend_set A t.buffercache k l b b1 hl hb hb1, hd]
    simp only [if_true]
    have hs1 : scanLeaf A b1 k b1.info.numkeys 0 = .ok (some offset) := by
      rw [scanLeaf_congr A b b1 k hkeys, hinfo]; exact hs
    have hv1 : b1.SetVal A offset v = .ok b1 := by
      have hlt1 : offset < b1.info.GetNumSlotsAsLeaf A := by rw [hinfo]; exact hlt
      simp only [BTreeNode.SetVal, hlt1, if_true, BTreeNode.ResolveVal]
      rw [hb1eq]
      simp [setCell_setCell_same]
    simp [LookupOrUpdateInternal.leafCase, hs1, hv1, BTreeNode.Serialize, hllt]

/-- C11 at a sample image: the update of key 15 to 151, done again on the state it left,
returns no error and leaves that state. -/
theorem C11_update_idempotent_witness :
    Update exArch 2 exFullRoot 15 151 = some (ERROR_NOERROR, exFullRootUpdated) ∧
    Update exArch 2 exFullRootUpdated 15 151 = some (ERROR_NOERROR, exFullRootUpdated) :=
  ⟨by decide, C11_update_idempotent exArch 2 exFullRoot exFullRootUpdated 15 151
    ERROR_NOERROR (by decide)⟩

/-! ## Allocator -/

/-- `AllocateNode` on an empty free list. -/
theorem allocateNode_empty (t : BTreeIndex) (flag : Bool)
    (h0 : t.superblock.info.freelist = 0) :
    AllocateNode t flag = some (ERROR_NOSPACE, 0, if flag then t.setRootnode 0 else t) := by
  unfold AllocateNode
  simp [h0]

/-- `AllocateNode` when the head of the free list is an unallocated block of the cache. -/
theorem allocateNode_ok (t : BTreeIndex) (flag : Bool) (fb : BTreeNode)
    (h0 : t.superblock.info.freelist ≠ 0)
    (hf : t.buffercache.blocks[t.superblock.info.freelist]? = some fb)
    (hk : fb.info.nodetype = BTREE_UNALLOCATED_BLOCK) :
    AllocateNode t flag = some (ERROR_NOERROR, t.superblock.info.freelist,
      ((if flag then t.setRootnode t.superblock.info.freelist else t).setFreelist
        fb.info.freelist).flushSuperblock) := by
  unfold AllocateNode
  have hf1 : (if flag = true then t.setRootnode t.superblock.info.freelist else t).buffercache
      = t.buffercache := by cases flag <;> rfl
  simp only [h0, if_false, hf1, unserialize_some _ _ _ _ hf, hk, ne_eq, not_true_eq_false]

/-- `AllocateNode` when the head of the free list is a block of another kind: the
assertion fails. -/
theorem allocateNode_assert (t : BTreeIndex) (flag : Bool) (fb : BTreeNode)
    (h0 : t.superblock.info.freelist ≠ 0)
    (hf : t.buffercache.blocks[t.superblock.info.freelist]? = some fb)
    (hk : fb.info.nodetype ≠ BTREE_UNALLOCATED_BLOCK) :
    AllocateNode t flag = none := by
  unfold AllocateNode
  have hf1 : (if flag = true then t.setRootnode t.superblock.info.freelist else t).buffercache
      = t.buffercache := by cases flag <;> rfl
  simp only [h0, if_false, hf1, unserialize_some _ _ _ _ hf, hk, ne_eq, not_false_eq_true,
    if_true]

/-- The blocks other than the superblock's own after the superblock was flushed. -/
theorem flushSuperblock_blocks (t : BTreeIndex) (i : Nat) (hi : i ≠ t.superblock_index) :
    t.flushSuperblock.buffercache.blocks[i]? = t.buffercache.blocks[i]? := by
  unfold BTreeIndex.flushSuperblock BTreeNode.Serialize
  have : ¬ t.superblock_index = i := fun e => hi e.symm
  by_cases hl : t.superblock_index < t.buffercache.blocks.length <;>
    simp [hl, List.getElem?_set, this]

/-- C17 (allocation, amended): `AllocateNode` returns `ERROR_NOSPACE` exactly when
`superblock.freelist` is the sentinel 0, and then changes neither the free-list head nor
any block.  Otherwise, when the head of the free list is a block of the cache of kind
UNALLOCATED (what the assertion of `AllocateNode` demands) other than the superblock's
own block, it returns no error with the old head as the allocated block id, sets
`superblock.freelist` to the `freelist` field stored in that block, and leaves the
allocated block, still UNALLOCATED, and every other block apart from the superblock's
unchanged. -/
theorem C17_allocate (t : BTreeIndex) (flag : Bool) :
    ((∃ n t1, AllocateNode t flag = some (ERROR_NOSPACE, n, t1)) ↔
      t.superblock.info.freelist = 0) ∧
    (t.superblock.info.freelist = 0 →
      ∃ t1, AllocateNode t flag = some (ERROR_NOSPACE, 0, t1) ∧
        t1.superblock.info.freelist = t.superblock.info.freelist ∧
        t1.buffercache = t.buffercache) ∧
    (∀ fb : BTreeNode, t.superblock.info.freelist ≠ 0 →
      t.buffercache.blocks[t.superblock.info.freelist]? = some fb →
      fb.info.nodetype = BTREE_UNALLOCATED_BLOCK →
      t.superblock.info.freelist ≠ t.superblock_index →
      ∃ t1, AllocateNode t flag = some (ERROR_NOERROR, t.superblock.info.freelist, t1) ∧
        t1.superblock.info.freelist = fb.info.freelist ∧
        t1.buffercache.blocks[t.superblock.info.freelist]? = some fb ∧
        ∀ i, i ≠ t.superblock_index →
          t1.buffercache.blocks[i]? = t.buffercache.blocks[i]?) := by
  refine ⟨⟨?_, ?_⟩, ?_, ?_⟩
  · rintro ⟨n, t1, h⟩
    by_contra h0
    unfold AllocateNode at h
    simp only [h0, if_false] at h
    split_ifs at h <;> simp at h
  · intro h0
    exact ⟨_, _, allocateNode_empty t flag h0⟩
  · intro h0
    refine ⟨_, allocateNode_empty t flag h0, ?_, ?_⟩ <;> cases flag <;> rfl
  · intro fb h0 hf hk hidx
    refine ⟨_, allocateNode_ok t flag fb h0 hf hk, ?_, ?_, ?_⟩
    · cases flag <;> rfl
    · rw [flushSuperblock_blocks _ _ (by cases flag <;> exact hidx)]
      cases flag <;> exact hf
    · intro i hi
      rw [flushSuperblock_blocks _ _ (by cases flag <;> exact hi)]
      cases flag <;> rfl

/-- C17 at sample images: the image with the full root has an empty free list and the
allocation returns `ERROR_NOSPACE`; on the fresh index of five blocks the allocation
returns block 2 and the free list then starts at block 3. -/
theorem C17_allocate_witness :
    (∃ t1, AllocateNode exFullRoot false = some (ERROR_NOSPACE, 0, t1) ∧
      t1.superblock.info.freelist = exFullRoot.superblock.info.freelist ∧
      t1.buffercache = exFullRoot.buffercache) ∧
    (∃ t1, AllocateNode exFresh false = some (ERROR_NOERROR, 2, t1) ∧
      t1.superblock.info.freelist = 3 ∧
      t1.buffercache.blocks[2]? = some (exBlock BTREE_UNALLOCATED_BLOCK 3 0 []) ∧
      ∀ i, i ≠ 0 → t1.buffercache.blocks[i]? = exFresh.buffercache.blocks[i]?) :=
  ⟨(C17_allocate exFullRoot false).2.1 (by decide),
   (C17_allocate exFresh false).2.2 (exBlock BTREE_UNALLOCATED_BLOCK 3 0 []) (by decide)
     (by decide) (by decide) (by decide)⟩

/-- C17 as stated fails: in the sample image with the free-list head set to block 2, a
leaf, `superblock.freelist` is not 0, yet `AllocateNode` does not return no error: its
assertion on the kind of the head block fails. -/
theorem C17_counterexample :
    (exFullRoot.setFreelist 2).superblock.info.freelist ≠ 0 ∧
    ((exFullRoot.setFreelist 2).buffercache.blocks[2]?).map (fun b => b.info.nodetype)
      = some BTREE_LEAF_NODE ∧
    AllocateNode (exFullRoot.setFreelist 2) false = none := by
  decide

/-- `DeallocateNode` on a block of the cache that is not unallocated. -/
theorem deallocateNode_ok (t : BTreeIndex) (n : Nat) (b : BTreeNode)
    (hb : t.buffercache.blocks[n]? = some b)
    (hk : b.info.nodetype ≠ BTREE_UNALLOCATED_BLOCK) :
    DeallocateNode t n = some (ERROR_NOERROR,
      (BTreeIndex.setFreelist
        { t with buffercache := { t.buffercache with
            blocks := t.buffercache.blocks.set n (freedBlock b t.superblock.info.freelist) } }
        n).flushSuperblock) := by
  unfold DeallocateNode
  simp only [unserialize_some _ _ _ _ hb, hk, if_false]
  rw [serialize_of_some _ _ _ _ hb]
  rfl

/-- C18 (double free, amended): for a block whose kind is already UNALLOCATED
`DeallocateNode` does not return: its assertion fails before anything is written.  For a
block of any other kind, other than the superblock's own block, it returns no error,
rewrites the block as UNALLOCATED with its `freelist` field set to the old head, makes
the block the new head of the free list, and leaves every other block apart from the
superblock's unchanged. -/
theorem C18_deallocate (t : BTreeIndex) (n : Nat) (b : BTreeNode)
    (hb : t.buffercache.blocks[n]? = some b) :
    (b.info.nodetype = BTREE_UNALLOCATED_BLOCK → DeallocateNode t n = none) ∧
    (b.info.nodetype ≠ BTREE_UNALLOCATED_BLOCK → n ≠ t.superblock_index →
      ∃ t1, DeallocateNode t n = some (ERROR_NOERROR, t1) ∧
        t1.buffercache.blocks[n]? = some (freedBlock b t.superblock.info.freelist) ∧
        t1.superblock.info.freelist = n ∧
        ∀ i, i ≠ n → i ≠ t.superblock_index →
          t1.buffercache.blocks[i]? = t.buffercache.blocks[i]?) := by
  have hlt := lt_length_of_some _ n b hb
  constructor
  · intro hk
    unfold DeallocateNode
    simp [unserialize_some _ _ _ _ hb, hk]
  · intro hk hn
    refine ⟨_, deallocateNode_ok t n b hb hk, ?_, rfl, ?_⟩
    · have hne : ¬ t.superblock_index = n := fun e => hn e.symm
      unfold BTreeIndex.flushSuperblock BTreeNode.Serialize BTreeIndex.setFreelist
      simp only
      split_ifs <;> simp [List.getElem?_set, hne, hlt]
    · intro i hi1 hi2
      have hne1 : ¬ n = i := fun e => hi1 e.symm
      have hne2 : ¬ t.superblock_index = i := fun e => hi2 e.symm
      unfold BTreeIndex.flushSuperblock BTreeNode.Serialize BTreeIndex.setFreelist
      simp only
      split_ifs <;> simp [List.getElem?_set, hne1, hne2]

/-- C18 at the sample image with the full root: freeing the leaf in block 4 makes it the
head of the free list. -/
theorem C18_deallocate_witness :
    ∃ t1, DeallocateNode exFullRoot 4 = some (ERROR_NOERROR, t1) ∧
      t1.buffercache.blocks[4]? = some (exBlock BTREE_UNALLOCATED_BLOCK 0 1 [20, 200]) ∧
      t1.superblock.info.freelist = 4 ∧
      ∀ i, i ≠ 4 → i ≠ exFullRoot.superblock_index →
        t1.buffercache.blocks[i]? = exFullRoot.buffercache.blocks[i]? :=
  (C18_deallocate exFullRoot 4 (exBlock BTREE_LEAF_NODE 0 1 [20, 200]) (by decide)).2
    (by decide) (by decide)

/-- C18 as stated fails: freeing block 2 of the fresh index, which is UNALLOCATED, does
not return `ERROR_INSANE`, the assertion fails; and freeing block 0 of the sample image,
the superblock's block, returns no error and leaves block 0 a SUPERBLOCK. -/
theorem C18_counterexample :
    (exFresh.buffercache.blocks[2]?).map (fun b => b.info.nodetype)
      = some BTREE_UNALLOCATED_BLOCK ∧
    DeallocateNode exFresh 2 = none ∧
    (DeallocateNode exFullRoot 0).map
        (fun r => (r.1, (r.2.buffercache.blocks[0]?).map (fun b => b.info.nodetype)))
      = some (ERROR_NOERROR, some BTREE_SUPERBLOCK) := by
  decide

/-! ## Cells moved in bulk -/

theorem length_readCells (d : List Nat) (src n : Nat) : (readCells d src n).length = n := by
  simp [readCells]

theorem getD_readCells (d : List Nat) (src n i : Nat) :
    (readCells d src n).getD i 0 = if i < n then getCell d (src + i) else 0 := by
  unfold readCells
  by_cases h : i < n
  · simp [h, List.getD_eq_getElem?_getD, List.getElem?_map, List.getElem?_range h]
  · have e : (List.range n)[i]? = none := List.getElem?_eq_none (by simp; omega)
    simp [h, List.getD_eq_getElem?_getD, List.getElem?_map, e]

theorem getCell_writeCells : ∀ (xs d : List Nat) (dest j : Nat),
    getCell (writeCells d dest xs) j =
      if dest ≤ j ∧ j < dest + xs.length then xs.getD (j - dest) 0 else getCell d j := by
  intro xs
  induction xs with
  | nil =>
    intro d dest j
    have h : ¬ (dest ≤ j ∧ j < dest + ([] : List Nat).length) := by
      simp only [List.length_nil]; omega
    rw [if_neg h, writeCells]
  | cons x xs ih =>
    intro d dest j
    rw [writeCells, ih, getCell_setCell]
    by_cases h1 : j = dest
    · subst h1
      simp
    · by_cases h2 : dest + 1 ≤ j ∧ j < dest + 1 + xs.length
      · have h3 : dest ≤ j ∧ j < dest + (x :: xs).length := by
          simp only [List.length_cons]; omega
        rw [if_pos h2, if_pos h3]
        have e : j - dest = (j - (dest + 1)) + 1 := by omega
        rw [e, List.getD_cons_succ]
      · have h3 : ¬ (dest ≤ j ∧ j < dest + (x :: xs).length) := by
          simp only [List.length_cons]; omega
        rw [if_neg h2, if_neg h3, if_neg h1]

/-- What a cell holds after `n` cells of `d1` from `src` on were copied to `dest`. -/
theorem getCell_copy (d d1 : List Nat) (dest src n j : Nat) :
    getCell (writeCells d dest (readCells d1 src n)) j =
      if dest ≤ j ∧ j < dest + n then getCell d1 (src + (j - dest)) else getCell d j := by
  rw [getCell_writeCells, length_readCells, getD_readCells]
  by_cases h : dest ≤ j ∧ j < dest + n
  · have : j - dest < n := by omega
    simp [h, this]
  · simp [h]

theorem flushSuperblock_length (t : BTreeIndex) :
    t.flushSuperblock.buffercache.blocks.length = t.buffercache.blocks.length := by
  unfold BTreeIndex.flushSuperblock BTreeNode.Serialize
  simp only
  split_ifs <;> simp

/-! ## Split -/

theorem serialize_lt (b : BTreeNode) (c : BufferCache) (n : Nat) (h : n < c.blocks.length) :
    b.Serialize c n = (ERROR_NOERROR, { c with blocks := c.blocks.set n b }) := by
  simp [BTreeNode.Serialize, h]

/-- What `SplitNode` does when the head of the free list is an unallocated block of the
cache: both halves are written, the new one to the old head. -/
theorem splitNode_ok (A : Arch) (t : BTreeIndex) (node splitKey : Nat) (b fb : BTreeNode)
    (hb : t.buffercache.blocks[node]? = some b)
    (h0 : t.superblock.info.freelist ≠ 0)
    (hf : t.buffercache.blocks[t.superblock.info.freelist]? = some fb)
    (hk : fb.info.nodetype = BTREE_UNALLOCATED_BLOCK) :
    ∃ t1, SplitNode A t node splitKey = some (ERROR_NOERROR, t.superblock.info.freelist,
        (if b.info.nodetype = BTREE_LEAF_NODE then
          keyOrKeep (b.GetKey A (splitLeftCount b - 1)) splitKey
         else keyOrKeep (b.GetKey A (splitLeftCount b)) splitKey), t1) ∧
      t1.superblock.info.freelist = fb.info.freelist ∧
      t1.buffercache.blocks.length = t.buffercache.blocks.length ∧
      t1.buffercache.blocks[t.superblock.info.freelist]? = some (splitRight b) ∧
      (node ≠ t.superblock.info.freelist →
        t1.buffercache.blocks[node]? = some (splitLeft b)) := by
  have hn := lt_length_of_some _ node b hb
  have hfl := lt_length_of_some _ _ fb hf
  have hlen : (t.setFreelist fb.info.freelist).flushSuperblock.buffercache.blocks.length
      = t.buffercache.blocks.length := flushSuperblock_length (t.setFreelist fb.info.freelist)
  generalize hc0 : (t.setFreelist fb.info.freelist).flushSuperblock.buffercache = c0 at hlen
  have hsb : (t.setFreelist fb.info.freelist).flushSuperblock.superblock.info.freelist
      = fb.info.freelist := rfl
  unfold SplitNode
  simp only
  rw [allocateNode_ok t false fb h0 hf hk, unserialize_some _ _ _ _ hb]
  simp only [Bool.false_eq_true, if_false, ne_eq, not_true_eq_false, hc0]
  have e1 := serialize_lt b c0 t.superblock.info.freelist (by omega)
  simp only [e1, not_true_eq_false, if_false]
  have e2 : ∀ x : BTreeNode, x.Serialize
      { c0 with blocks := c0.blocks.set t.superblock.info.freelist b } node
      = (ERROR_NOERROR, { c0 with
          blocks := (c0.blocks.set t.superblock.info.freelist b).set node x }) :=
    fun x => serialize_lt x _ node (by simp only [List.length_set]; omega)
  have e3 : ∀ x y : BTreeNode, y.Serialize
      { c0 with
        blocks := (c0.blocks.set t.superblock.info.freelist b).set node x }
      t.superblock.info.freelist
      = (ERROR_NOERROR, { c0 with
          blocks := ((c0.blocks.set t.superblock.info.freelist b).set node x).set
            t.superblock.info.freelist y }) :=
    fun x y => serialize_lt y _ _ (by simp only [List.length_set]; omega)
  simp only [e2, e3, not_true_eq_false, if_false]
  refine ⟨_, rfl, rfl, ?_, ?_, ?_⟩
  · simp only [List.length_set]; exact hlen
  · simp only [List.getElem?_set, List.length_set, hlen, hfl, if_true]
    rfl
  · intro hne
    have hne1 : ¬ t.superblock.info.freelist = node := fun e => hne e.symm
    simp only [List.getElem?_set, List.length_set, hlen, hn, hne1, if_false, if_true]
    rfl

theorem map_range_eq_take_drop {α : Type} (f g : Nat → α) (off k n : Nat) (h : off + k ≤ n)
    (hfg : ∀ i, i < k → g i = f (off + i)) :
    (List.range' 0 k).map g = (((List.range' 0 n).map f).drop off).take k := by
  apply List.ext_getElem
  · simp; omega
  · intro i h1 h2
    simp at h1
    simp [hfg i h1]

theorem splitLeftCount_leaf (b : BTreeNode) (hleaf : b.info.nodetype = BTREE_LEAF_NODE) :
    splitLeftCount b = (b.info.numkeys + 2) / 2 := by
  simp [splitLeftCount, hleaf]

theorem splitRightCount_leaf (b : BTreeNode) (hleaf : b.info.nodetype = BTREE_LEAF_NODE) :
    splitRightCount b = b.info.numkeys - (b.info.numkeys + 2) / 2 := by
  simp [splitRightCount, splitLeftCount, hleaf]

theorem splitRight_nodetype (b : BTreeNode) :
    (splitRight b).info.nodetype = b.info.nodetype := by
  unfold splitRight
  split_ifs <;> rfl

/-- The pairs of the left half of a split leaf. -/
theorem splitLeft_pairs (b : BTreeNode) (hn : 1 ≤ b.info.numkeys)
    (hleaf : b.info.nodetype = BTREE_LEAF_NODE) :
    (splitLeft b).pairs = b.pairs.take ((b.info.numkeys + 2) / 2) := by
  have e := map_range_eq_take_drop (fun i => (b.keyAt i, b.valAt i))
    (fun i => ((splitLeft b).keyAt i, (splitLeft b).valAt i)) 0
    ((b.info.numkeys + 2) / 2) b.info.numkeys (by omega) (by intro i _; simp; exact ⟨rfl, rfl⟩)
  simp only [List.drop_zero] at e
  rw [← splitLeftCount_leaf b hleaf] at e ⊢
  exact e

/-- The pairs of the right half of a split leaf. -/
theorem splitRight_pairs (b : BTreeNode) (hn : 1 ≤ b.info.numkeys)
    (hleaf : b.info.nodetype = BTREE_LEAF_NODE) :
    (splitRight b).pairs = b.pairs.drop ((b.info.numkeys + 2) / 2) := by
  have hd : (splitRight b).data = writeCells b.data 0 (readCells b.data
      (2 * ((b.info.numkeys + 2) / 2)) ((b.info.numkeys - (b.info.numkeys + 2) / 2) * 2)) := by
    simp [splitRight, hleaf, memcpyCells, BTreeNode.setNumkeys, BTreeNode.ResolveKeyVal,
      splitLeftCount_leaf b hleaf, splitRightCount_leaf b hleaf]
  have hnk : (splitRight b).info.numkeys = b.info.numkeys - (b.info.numkeys + 2) / 2 := by
    rw [← splitRightCount_leaf b hleaf]; rfl
  have e := map_range_eq_take_drop (fun i => (b.keyAt i, b.valAt i))
    (fun i => ((splitRight b).keyAt i, (splitRight b).valAt i)) ((b.info.numkeys + 2) / 2)
    (b.info.numkeys - (b.info.numkeys + 2) / 2) b.info.numkeys (by omega) (by
      intro i hi
      simp only [BTreeNode.keyAt, BTreeNode.valAt, BTreeNode.ResolveKey, BTreeNode.ResolveVal,
        splitRight_nodetype, hleaf, if_true, hd, getCell_copy, Prod.mk.injEq]
      constructor
      · rw [if_pos (by omega)]; congr 1; omega
      · rw [if_pos (by omega)]; congr 1; omega)
  unfold BTreeNode.pairs
  rw [hnk, e, List.take_of_length_le]
  simp

theorem splitRight_capacity (A : Arch) (b : BTreeNode) :
    (splitRight b).info.GetNumSlotsAsLeaf A = b.info.GetNumSlotsAsLeaf A ∧
    (splitRight b).info.GetNumSlotsAsInterior A = b.info.GetNumSlotsAsInterior A := by
  unfold splitRight
  split_ifs <;> exact ⟨rfl, rfl⟩

/-- The split result for a leaf with at least one pair and no more pairs than a leaf has
room for: the return values and where the halves are. -/
theorem splitNode_leaf_spec (A : Arch) (t : BTreeIndex) (node splitKey : Nat)
    (b fb : BTreeNode)
    (hb : t.buffercache.blocks[node]? = some b)
    (hleaf : b.info.nodetype = BTREE_LEAF_NODE)
    (hcap : b.info.numkeys ≤ b.info.GetNumSlotsAsLeaf A)
    (hn : 1 ≤ b.info.numkeys)
    (h0 : t.superblock.info.freelist ≠ 0)
    (hf : t.buffercache.blocks[t.superblock.info.freelist]? = some fb)
    (hk : fb.info.nodetype = BTREE_UNALLOCATED_BLOCK) :
    ∃ t1,
      SplitNode A t node splitKey = some (ERROR_NOERROR, t.superblock.info.freelist,
        b.keyAt ((b.info.numkeys + 2) / 2 - 1), t1) ∧
      t1.buffercache.blocks[node]? = some (splitLeft b) ∧
      t1.buffercache.blocks[t.superblock.info.freelist]? = some (splitRight b) := by
  obtain ⟨t1, h1, _, _, h4, h5⟩ := splitNode_ok A t node splitKey b fb hb h0 hf hk
  have hne : node ≠ t.superblock.info.freelist := by
    intro e
    rw [e, hf] at hb
    simp only [Option.some.injEq] at hb
    rw [hb, hleaf] at hk
    exact absurd hk (by decide)
  have hkey : keyOrKeep (b.GetKey A (splitLeftCount b - 1)) splitKey
      = b.keyAt ((b.info.numkeys + 2) / 2 - 1) := by
    have : (b.info.numkeys + 2) / 2 - 1 < b.info.GetNumSlotsAsLeaf A := by omega
    have this1 : b.info.numkeys / 2 < b.info.GetNumSlotsAsLeaf A := by omega
    simp [BTreeNode.GetKey, BTreeNode.keySlots, hleaf, splitLeftCount_leaf b hleaf, this, this1,
      keyOrKeep, BTreeNode.keyAt]
  rw [if_pos hleaf, hkey] at h1
  exact ⟨t1, h1, h5 hne, h4⟩

theorem splitLeft_numkeys_leaf (b : BTreeNode) (hleaf : b.info.nodetype = BTREE_LEAF_NODE) :
    (splitLeft b).info.numkeys = (b.info.numkeys + 2) / 2 := by
  rw [← splitLeftCount_leaf b hleaf]; rfl

theorem splitRight_numkeys_leaf (b : BTreeNode) (hleaf : b.info.nodetype = BTREE_LEAF_NODE) :
    (splitRight b).info.numkeys = b.info.numkeys - (b.info.numkeys + 2) / 2 := by
  rw [← splitRightCount_leaf b hleaf]; rfl

/-- C14: a full LEAF with `n ≥ 1` pairs is split, the head of the free list being an
unallocated block of the cache: `SplitNode` returns no error, the new block is the old
head, the split key is `K_{nL-1}` with `nL = (n + 2) / 2`; the original block is a LEAF
with `numkeys = nL` holding the first `nL` pairs, the new block a LEAF with
`numkeys = n - nL` holding the remaining pairs in their order; the pairs of the two
blocks, one after the other, are the pairs the leaf had. -/
theorem C14_leaf_split (A : Arch) (t : BTreeIndex) (node splitKey : Nat) (b fb : BTreeNode)
    (hb : t.buffercache.blocks[node]? = some b)
    (hleaf : b.info.nodetype = BTREE_LEAF_NODE)
    (hfull : b.info.numkeys = b.info.GetNumSlotsAsLeaf A)
    (hn : 1 ≤ b.info.numkeys)
    (h0 : t.superblock.info.freelist ≠ 0)
    (hf : t.buffercache.blocks[t.superblock.info.freelist]? = some fb)
    (hk : fb.info.nodetype = BTREE_UNALLOCATED_BLOCK) :
    ∃ t1 bl br,
      SplitNode A t node splitKey = some (ERROR_NOERROR, t.superblock.info.freelist,
        b.keyAt ((b.info.numkeys + 2) / 2 - 1), t1) ∧
      t1.buffercache.blocks[node]? = some bl ∧
      t1.buffercache.blocks[t.superblock.info.freelist]? = some br ∧
      bl.info.nodetype = BTREE_LEAF_NODE ∧ br.info.nodetype = BTREE_LEAF_NODE ∧
      bl.info.numkeys = (b.info.numkeys + 2) / 2 ∧
      br.info.numkeys = b.info.numkeys - (b.info.numkeys + 2) / 2 ∧
      bl.pairs = b.pairs.take ((b.info.numkeys + 2) / 2) ∧
      br.pairs = b.pairs.drop ((b.info.numkeys + 2) / 2) ∧
      bl.pairs ++ br.pairs = b.pairs := by
  obtain ⟨t1, h1, h2, h3⟩ :=
    splitNode_leaf_spec A t node splitKey b fb hb hleaf (le_of_eq hfull) hn h0 hf hk
  refine ⟨t1, splitLeft b, splitRight b, h1, h2, h3, hleaf, ?_, splitLeft_numkeys_leaf b hleaf,
    splitRight_numkeys_leaf b hleaf, splitLeft_pairs b hn hleaf, splitRight_pairs b hn hleaf, ?_⟩
  · rw [splitRight_nodetype, hleaf]
  · rw [splitLeft_pairs b hn hleaf, splitRight_pairs b hn hleaf, List.take_append_drop]

/-- C14 at the full leaf of block 3 of `exSplit`, which stores the keys 3, 5 and 7. -/
theorem C14_leaf_split_witness :
    ∃ t1 bl br,
      SplitNode exArch exSplit 3 0 = some (ERROR_NOERROR, 6, 5, t1) ∧
      t1.buffercache.blocks[3]? = some bl ∧
      t1.buffercache.blocks[6]? = some br ∧
      bl.info.nodetype = BTREE_LEAF_NODE ∧ br.info.nodetype = BTREE_LEAF_NODE ∧
      bl.info.numkeys = 2 ∧ br.info.numkeys = 1 ∧
      bl.pairs = [(3, 30), (5, 50)] ∧ br.pairs = [(7, 70)] ∧
      bl.pairs ++ br.pairs = [(3, 30), (5, 50), (7, 70)] :=
  C14_leaf_split exArch exSplit 3 0 (exBlock BTREE_LEAF_NODE 0 3 [3, 30, 5, 50, 7, 70])
    (exBlock BTREE_UNALLOCATED_BLOCK 0 0 []) (by decide) (by decide) (by decide) (by decide)
    (by decide) (by decide) (by decide)

/-- A `SplitNode` that returns no error found an unallocated block of the cache at the
head of the free list. -/
theorem splitNode_noerror_inv (A : Arch) (t t1 : BTreeIndex) (node splitKey newNode key1 : Nat)
    (h : SplitNode A t node splitKey = some (ERROR_NOERROR, newNode, key1, t1)) :
    t.superblock.info.freelist ≠ 0 ∧
    ∃ fb, t.buffercache.blocks[t.superblock.info.freelist]? = some fb ∧
      fb.info.nodetype = BTREE_UNALLOCATED_BLOCK := by
  by_cases h0 : t.superblock.info.freelist = 0
  · exfalso
    unfold SplitNode at h
    simp only [allocateNode_empty t false h0] at h
    simp at h
  · refine ⟨h0, ?_⟩
    cases hf : t.buffercache.blocks[t.superblock.info.freelist]? with
    | some fb =>
      refine ⟨fb, rfl, ?_⟩
      by_contra hk
      unfold SplitNode at h
      simp only [allocateNode_assert t false fb h0 hf hk] at h
      simp at h
    | none =>
      exfalso
      have hlen := flushSuperblock_length (t.setFreelist BTreeNode.default.info.freelist)
      have hge : ¬ t.superblock.info.freelist < t.buffercache.blocks.length := by
        intro hlt
        rw [List.getElem?_eq_getElem hlt] at hf
        exact absurd hf (by simp)
      have ha : AllocateNode t false = some (ERROR_NOERROR, t.superblock.info.freelist,
          (t.setFreelist BTreeNode.default.info.freelist).flushSuperblock) := by
        unfold AllocateNode
        simp only [h0, if_false, Bool.false_eq_true, unserialize_none _ _ _ hf]
        rfl
      have hlen1 : (t.setFreelist BTreeNode.default.info.freelist).flushSuperblock.buffercache.blocks.length
          = t.buffercache.blocks.length := hlen
      generalize hc0 :
        (t.setFreelist BTreeNode.default.info.freelist).flushSuperblock.buffercache = c0 at hlen1
      have hs : ∀ x : BTreeNode, x.Serialize c0 t.superblock.info.freelist
          = (ERROR_IOERROR, c0) := by
        intro x
        have hge1 : ¬ t.superblock.info.freelist < c0.blocks.length := by
          rw [hlen1]; exact hge
        simp [BTreeNode.Serialize, hge1]
      unfold SplitNode at h
      simp only at h
      rw [ha] at h
      simp only [Bool.false_eq_true, if_false, ne_eq, not_true_eq_false, hc0, hs] at h
      simp at h

/-- C20 (amended to a leaf capacity of at least 3): a LEAF whose number of keys equals the
leaf capacity is split and `SplitNode` returns no error; afterwards the original block and
the new block are leaves that hold strictly fewer keys than the leaf capacity. -/
theorem C20_split_relieves (A : Arch) (t t1 : BTreeIndex) (node splitKey newNode key1 : Nat)
    (b : BTreeNode)
    (hb : t.buffercache.blocks[node]? = some b)
    (hleaf : b.info.nodetype = BTREE_LEAF_NODE)
    (hfull : b.info.numkeys = b.info.GetNumSlotsAsLeaf A)
    (hcap : 3 ≤ b.info.GetNumSlotsAsLeaf A)
    (h : SplitNode A t node splitKey = some (ERROR_NOERROR, newNode, key1, t1)) :
    ∃ bl br, t1.buffercache.blocks[node]? = some bl ∧
      t1.buffercache.blocks[newNode]? = some br ∧
      bl.info.nodetype = BTREE_LEAF_NODE ∧ br.info.nodetype = BTREE_LEAF_NODE ∧
      bl.info.numkeys < bl.info.GetNumSlotsAsLeaf A ∧
      br.info.numkeys < br.info.GetNumSlotsAsLeaf A := by
  obtain ⟨h0, fb, hf, hk⟩ := splitNode_noerror_inv A t t1 node splitKey newNode key1 h
  obtain ⟨t2, h1, h2, h3⟩ :=
    splitNode_leaf_spec A t node splitKey b fb hb hleaf (le_of_eq hfull) (by omega) h0 hf hk
  rw [h1] at h
  simp only [Option.some.injEq, Prod.mk.injEq, true_and] at h
  obtain ⟨e1, _, e2⟩ := h
  subst e1 e2
  refine ⟨splitLeft b, splitRight b, h2, h3, hleaf, ?_, ?_, ?_⟩
  · rw [splitRight_nodetype, hleaf]
  · have e : (splitLeft b).info.GetNumSlotsAsLeaf A = b.info.GetNumSlotsAsLeaf A := rfl
    rw [e, splitLeft_numkeys_leaf b hleaf]
    omega
  · rw [(splitRight_capacity A b).1, splitRight_numkeys_leaf b hleaf]
    omega

/-- C20 at the full leaf of block 3 of `exSplit`, a leaf capacity of 3. -/
theorem C20_split_relieves_witness :
    ∃ bl br, exSplitAfter.buffercache.blocks[3]? = some bl ∧
      exSplitAfter.buffercache.blocks[6]? = some br ∧
      bl.info.nodetype = BTREE_LEAF_NODE ∧ br.info.nodetype = BTREE_LEAF_NODE ∧
      bl.info.numkeys < bl.info.GetNumSlotsAsLeaf exArch ∧
      br.info.numkeys < br.info.GetNumSlotsAsLeaf exArch :=
  C20_split_relieves exArch exSplit exSplitAfter 3 0 6 5
    (exBlock BTREE_LEAF_NODE 0 3 [3, 30, 5, 50, 7, 70]) (by decide) (by decide) (by decide)
    (by decide) (by decide)

/-- C20 as stated fails for the leaf capacities 1 and 2: in blocks of 44 bytes a leaf has
room for 2 pairs, and the split of the full leaf `[(1,10),(2,20)]` returns no error and
leaves both pairs in the original block, the new leaf being empty; in blocks of 36 bytes a
leaf has room for 1 pair, and the split of the full leaf `[(1,10)]` leaves the pair in the
original block. -/
theorem C20_counterexample :
    (exSmallBlock 44 BTREE_LEAF_NODE 0 2 [1, 10, 2, 20]).info.GetNumSlotsAsLeaf exArch = 2 ∧
    (SplitNode exArch (exSmall 44 2 [1, 10, 2, 20]) 2 0).map
        (fun r => (r.1, r.2.1, r.2.2.2.buffercache.blocks[2]?, r.2.2.2.buffercache.blocks[4]?))
      = some (ERROR_NOERROR, 4, some (exSmallBlock 44 BTREE_LEAF_NODE 0 2 [1, 10, 2, 20]),
          some (exSmallBlock 44 BTREE_LEAF_NODE 0 0 [1, 10, 2, 20])) ∧
    (exSmallBlock 36 BTREE_LEAF_NODE 0 1 [1, 10]).info.GetNumSlotsAsLeaf exArch = 1 ∧
    (SplitNode exArch (exSmall 36 1 [1, 10]) 2 0).map
        (fun r => (r.1, r.2.1, r.2.2.2.buffercache.blocks[2]?, r.2.2.2.buffercache.blocks[4]?))
      = some (ERROR_NOERROR, 4, some (exSmallBlock 36 BTREE_LEAF_NODE 0 1 [1, 10]),
          some (exSmallBlock 36 BTREE_LEAF_NODE 0 0 [1, 10])) := by
  decide

/-! ## Interior split -/

theorem splitLeftCount_interior (b : BTreeNode) (hk : b.info.nodetype ≠ BTREE_LEAF_NODE) :
    splitLeftCount b = b.info.numkeys / 2 := by
  simp [splitLeftCount, hk]

theorem splitRightCount_interior (b : BTreeNode) (hk : b.info.nodetype ≠ BTREE_LEAF_NODE) :
    splitRightCount b = b.info.numkeys - b.info.numkeys / 2 - 1 := by
  simp [splitRightCount, splitLeftCount, hk]

theorem splitRight_data_interior (b : BTreeNode) (hk : b.info.nodetype ≠ BTREE_LEAF_NODE) :
    (splitRight b).data = writeCells b.data 0 (readCells b.data
      (2 * (b.info.numkeys / 2 + 1)) ((b.info.numkeys - b.info.numkeys / 2 - 1) * 2 + 1)) := by
  simp [splitRight, hk, memcpyCells, BTreeNode.setNumkeys, BTreeNode.ResolvePtr,
    splitLeftCount_interior b hk, splitRightCount_interior b hk]

/-- The keys and pointers of the left half of a split interior node. -/
theorem splitLeft_interior (b : BTreeNode)
    (hk : b.info.nodetype ≠ BTREE_LEAF_NODE) :
    (splitLeft b).info.numkeys = b.info.numkeys / 2 ∧
    (splitLeft b).keys = b.keys.take (b.info.numkeys / 2) ∧
    (splitLeft b).children = b.children.take (b.info.numkeys / 2 + 1) := by
  have hnk : (splitLeft b).info.numkeys = b.info.numkeys / 2 := by
    rw [← splitLeftCount_interior b hk]; rfl
  have e1 := map_range_eq_take_drop b.keyAt (splitLeft b).keyAt 0
    (b.info.numkeys / 2) b.info.numkeys (by omega) (by intro i _; rw [Nat.zero_add]; rfl)
  have e2 := map_range_eq_take_drop b.ptrAt (splitLeft b).ptrAt 0
    (b.info.numkeys / 2 + 1) (b.info.numkeys + 1) (by omega)
    (by intro i _; rw [Nat.zero_add]; rfl)
  simp only [List.drop_zero] at e1 e2
  refine ⟨hnk, ?_, ?_⟩
  · unfold BTreeNode.keys; rw [hnk]; exact e1
  · unfold BTreeNode.children; rw [hnk]; exact e2

/-- The keys and pointers of the right half of a split interior node. -/
theorem splitRight_interior (b : BTreeNode) (hn : 1 ≤ b.info.numkeys)
    (hk : b.info.nodetype ≠ BTREE_LEAF_NODE) :
    (splitRight b).info.numkeys = b.info.numkeys - b.info.numkeys / 2 - 1 ∧
    (splitRight b).keys = b.keys.drop (b.info.numkeys / 2 + 1) ∧
    (splitRight b).children = b.children.drop (b.info.numkeys / 2 + 1) := by
  have hnk : (splitRight b).info.numkeys = b.info.numkeys - b.info.numkeys / 2 - 1 := by
    rw [← splitRightCount_interior b hk]; rfl
  have hd := splitRight_data_interior b hk
  have e1 := map_range_eq_take_drop b.keyAt (splitRight b).keyAt (b.info.numkeys / 2 + 1)
    (b.info.numkeys - b.info.numkeys / 2 - 1) b.info.numkeys (by omega) (by
      intro i hi
      simp only [BTreeNode.keyAt, BTreeNode.ResolveKey, splitRight_nodetype, hk, if_false, hd,
        getCell_copy]
      rw [if_pos (by omega)]; congr 1; omega)
  have e2 := map_range_eq_take_drop b.ptrAt (splitRight b).ptrAt (b.info.numkeys / 2 + 1)
    (b.info.numkeys - b.info.numkeys / 2 - 1 + 1) (b.info.numkeys + 1) (by omega) (by
      intro i hi
      simp only [BTreeNode.ptrAt, BTreeNode.ResolvePtr, hd, getCell_copy]
      rw [if_pos (by omega)]; congr 1; omega)
  refine ⟨hnk, ?_, ?_⟩
  · unfold BTreeNode.keys
    rw [hnk, e1, List.take_of_length_le]
    simp; omega
  · unfold BTreeNode.children
    rw [hnk, e2, List.take_of_length_le]
    simp; omega

theorem keys_split (b : BTreeNode) (i : Nat) (hi : i < b.info.numkeys) :
    b.keys = b.keys.take i ++ b.keyAt i :: b.keys.drop (i + 1) := by
  have hl : i < b.keys.length := by simp [BTreeNode.keys, hi]
  have e : b.keys[i] = b.keyAt i := by simp [BTreeNode.keys]
  rw [← e, ← List.drop_eq_getElem_cons hl, List.take_append_drop]

/-- C15: a full ROOT or INTERIOR node with `n ≥ 1` keys is split, the head of the free
list being an unallocated block of the cache: `SplitNode` returns no error, the new block
is the old head, the split key is `K_{nL}` with `nL = n / 2`; the original block keeps the
keys `K₀ … K_{nL-1}` and the pointers `P₀ … P_{nL}` with `numkeys = nL`, the new block
holds the keys `K_{nL+1} … K_{n-1}` and the pointers `P_{nL+1} … P_n` with
`numkeys = n - nL - 1`; the keys of the node were those of the original block, the split
key, and those of the new block, in this order, so the slot of the split key is in
neither block, and when the keys of the node are distinct the split key is a key of
neither block. -/
theorem C15_interior_split (A : Arch) (t : BTreeIndex) (node splitKey : Nat)
    (b fb : BTreeNode)
    (hb : t.buffercache.blocks[node]? = some b)
    (hkind : b.info.nodetype = BTREE_ROOT_NODE ∨ b.info.nodetype = BTREE_INTERIOR_NODE)
    (hfull : b.info.numkeys = b.info.GetNumSlotsAsInterior A)
    (hn : 1 ≤ b.info.numkeys)
    (h0 : t.superblock.info.freelist ≠ 0)
    (hf : t.buffercache.blocks[t.superblock.info.freelist]? = some fb)
    (hk : fb.info.nodetype = BTREE_UNALLOCATED_BLOCK) :
    ∃ t1 bl br,
      SplitNode A t node splitKey = some (ERROR_NOERROR, t.superblock.info.freelist,
        b.keyAt (b.info.numkeys / 2), t1) ∧
      t1.buffercache.blocks[node]? = some bl ∧
      t1.buffercache.blocks[t.superblock.info.freelist]? = some br ∧
      bl.info.numkeys = b.info.numkeys / 2 ∧
      bl.keys = b.keys.take (b.info.numkeys / 2) ∧
      bl.children = b.children.take (b.info.numkeys / 2 + 1) ∧
      br.info.numkeys = b.info.numkeys - b.info.numkeys / 2 - 1 ∧
      br.keys = b.keys.drop (b.info.numkeys / 2 + 1) ∧
      br.children = b.children.drop (b.info.numkeys / 2 + 1) ∧
      b.keys = bl.keys ++ b.keyAt (b.info.numkeys / 2) :: br.keys ∧
      (b.keys.Nodup →
        b.keyAt (b.info.numkeys / 2) ∉ bl.keys ∧ b.keyAt (b.info.numkeys / 2) ∉ br.keys) := by
  have hnl : b.info.nodetype ≠ BTREE_LEAF_NODE := by
    rcases hkind with e | e <;> rw [e] <;> decide
  have hnu : b.info.nodetype ≠ BTREE_UNALLOCATED_BLOCK := by
    rcases hkind with e | e <;> rw [e] <;> decide
  obtain ⟨t1, h1, _, _, h4, h5⟩ := splitNode_ok A t node splitKey b fb hb h0 hf hk
  have hne : node ≠ t.superblock.info.freelist := by
    intro e
    rw [e, hf] at hb
    simp only [Option.some.injEq] at hb
    rw [hb] at hk
    exact hnu hk
  have hkey : keyOrKeep (b.GetKey A (splitLeftCount b)) splitKey
      = b.keyAt (b.info.numkeys / 2) := by
    have : b.info.numkeys / 2 < b.info.GetNumSlotsAsInterior A := by omega
    simp [BTreeNode.GetKey, BTreeNode.keySlots, hnl, splitLeftCount_interior b hnl, this,
      keyOrKeep, BTreeNode.keyAt]
  rw [if_neg hnl, hkey] at h1
  obtain ⟨l1, l2, l3⟩ := splitLeft_interior b hnl
  obtain ⟨r1, r2, r3⟩ := splitRight_interior b hn hnl
  have hdec : b.keys = (splitLeft b).keys ++ b.keyAt (b.info.numkeys / 2) :: (splitRight b).keys := by
    rw [l2, r2]
    exact keys_split b (b.info.numkeys / 2) (by omega)
  refine ⟨t1, splitLeft b, splitRight b, h1, h5 hne, h4, l1, l2, l3, r1, r2, r3, hdec, ?_⟩
  intro hnd
  rw [hdec] at hnd
  have h6 := List.nodup_append.mp hnd
  have h7 := List.nodup_cons.mp h6.2.1
  refine ⟨?_, h7.1⟩
  intro hmem
  exact h6.2.2 hmem (List.mem_cons_self _ _)

/-- C15 at the full root of `exFullRootFree`, the keys 10 and 20 over the blocks 2, 3
and 4. -/
theorem C15_interior_split_witness :
    ∃ t1 bl br,
      SplitNode exArch exFullRootFree 1 0 = some (ERROR_NOERROR, 5, 20, t1) ∧
      t1.buffercache.blocks[1]? = some bl ∧
      t1.buffercache.blocks[5]? = some br ∧
      bl.info.numkeys = 1 ∧ bl.keys = [10] ∧ bl.children = [2, 3] ∧
      br.info.numkeys = 0 ∧ br.keys = [] ∧ br.children = [4] ∧
      [10, 20] = bl.keys ++ 20 :: br.keys ∧
      ([10, 20].Nodup → 20 ∉ bl.keys ∧ 20 ∉ br.keys) :=
  C15_interior_split exArch exFullRootFree 1 0 (exBlock BTREE_ROOT_NODE 0 2 [2, 10, 3, 20, 4])
    (exBlock BTREE_UNALLOCATED_BLOCK 0 0 []) (by decide) (by decide) (by decide) (by decide)
    (by decide) (by decide) (by decide)

/-! ## Insertion into a leaf -/

theorem setKeyVal_leaf (A : Arch) (b : BTreeNode) (i key value : Nat)
    (hleaf : b.info.nodetype = BTREE_LEAF_NODE) (hi : i < b.info.GetNumSlotsAsLeaf A) :
    setKeyVal A b i key value
      = .ok { b with data := setCell (setCell b.data (2 * i) key) (2 * i + 1) value } := by
  simp [setKeyVal, BTreeNode.SetKey, BTreeNode.SetVal, BTreeNode.keySlots, hleaf, hi,
    BTreeNode.ResolveKey, BTreeNode.ResolveVal]

/-- The loop of `AddKeyValuePair` on a leaf with room: the pair is stored at the first
index from `i` on whose key is greater than `key`, at index `n` if there is none. -/
theorem addLoop_leaf (A : Arch) (key value newNode n : Nat) :
    ∀ (e i : Nat) (b : BTreeNode), b.info.nodetype = BTREE_LEAF_NODE → i + e = n → 1 ≤ e →
      n < b.info.GetNumSlotsAsLeaf A →
      AddKeyValuePair.loop A key value newNode n e i b
        = .ok { b with data := insertedCells b.data n (childIndex b key e i) key value } := by
  intro e
  induction e with
  | zero => intro i b _ _ h; omega
  | succ e ih =>
    intro i b hleaf hie _ hcap
    have hg : b.GetKey A i = .ok (b.keyAt i) := by
      have : i < b.info.GetNumSlotsAsLeaf A := by omega
      simp [BTreeNode.GetKey, BTreeNode.keySlots, hleaf, this, BTreeNode.keyAt]
    rw [AddKeyValuePair.loop, childIndex]
    simp only [hg]
    by_cases hlt : key < b.keyAt i
    · have hm : (memmoveCells b (b.ResolveKey (i + 1)) (b.ResolveKey i)
          ((e + 1) * 2)).info.nodetype = BTREE_LEAF_NODE := hleaf
      simp only [hlt, if_true, hm]
      rw [setKeyVal_leaf A _ i key value hm (by
        show i < b.info.GetNumSlotsAsLeaf A
        omega)]
      have he : e + 1 = n - i := by omega
      simp [memmoveCells, insertedCells, BTreeNode.ResolveKey, hleaf, he]
    · simp only [hlt, if_false]
      by_cases hlast : i = n - 1
      · have he : e = 0 := by omega
        subst he
        simp only [hlast, if_true, hleaf, childIndex]
        rw [setKeyVal_leaf A b n key value hleaf hcap]
        have e1 : n - 1 + 1 = n := by omega
        have e2 : n - n = 0 := by omega
        simp [insertedCells, e1, e2, readCells, writeCells]
      · simp only [hlast, if_false]
        exact ih (i + 1) b hleaf (by omega) (by omega) hcap

theorem getCell_insertedCells (d : List Nat) (n j key value c : Nat) (hj : j ≤ n) :
    getCell (insertedCells d n j key value) c =
      if c = 2 * j + 1 then value else if c = 2 * j then key
      else if 2 * j + 2 ≤ c ∧ c < 2 * n + 2 then getCell d (c - 2) else getCell d c := by
  unfold insertedCells
  rw [getCell_setCell, getCell_setCell, getCell_copy]
  by_cases h1 : c = 2 * j + 1
  · simp [h1]
  · by_cases h2 : c = 2 * j
    · simp [h2]
    · by_cases h3 : 2 * j + 2 ≤ c ∧ c < 2 * n + 2
      · have h4 : 2 * (j + 1) ≤ c ∧ c < 2 * (j + 1) + (n - j) * 2 := by omega
        simp only [h1, h2, h3, h4, if_false, if_true, and_self]
        congr 1; omega
      · have h4 : ¬ (2 * (j + 1) ≤ c ∧ c < 2 * (j + 1) + (n - j) * 2) := by omega
        simp only [h1, h2, h3, h4, if_false]

theorem map_range_insert {α : Type} (f g : Nat → α) (x : α) (j n : Nat) (hj : j ≤ n)
    (h1 : ∀ i, i < j → g i = f i) (h2 : g j = x)
    (h3 : ∀ i, j < i → i ≤ n → g i = f (i - 1)) :
    (List.range' 0 (n + 1)).map g
      = ((List.range' 0 n).map f).take j ++ x :: ((List.range' 0 n).map f).drop j := by
  apply List.ext_getElem?
  intro i
  have hlen : (((List.range' 0 n).map f).take j).length = j := by simp; omega
  rcases Nat.lt_trichotomy i j with hi | hi | hi
  · rw [List.getElem?_append_left (by omega)]
    have hin : i < n := by omega
    have hin1 : i < n + 1 := by omega
    simp [List.getElem?_take, hi, List.getElem?_range' , hin, hin1, h1 i hi]
  · subst hi
    rw [List.getElem?_append_right (by omega), hlen]
    have hin1 : i < n + 1 := by omega
    simp [List.getElem?_range', hin1, h2]
  · rw [List.getElem?_append_right (by omega), hlen]
    obtain ⟨k, rfl⟩ : ∃ k, i = j + 1 + k := ⟨i - j - 1, by omega⟩
    have e : j + 1 + k - j = k + 1 := by omega
    rw [e, List.getElem?_cons_succ, List.getElem?_drop]
    by_cases hk : j + 1 + k < n + 1
    · have hk1 : j + k < n := by omega
      have e3 := h3 (j + 1 + k) (by omega) (by omega)
      have e4 : j + 1 + k - 1 = j + k := by omega
      rw [e4] at e3
      simp [List.getElem?_range', hk, hk1, e3]
    · have hk1 : ¬ j + k < n := by omega
      have hk2 : n ≤ j + k := by omega
      have hk3 : n + 1 ≤ j + 1 + k := by omega
      rw [List.getElem?_eq_none (by simp; omega), List.getElem?_eq_none (by simp; omega)]

theorem childIndex_congr (b1 b2 : BTreeNode) (key : Nat)
    (h : ∀ i, b1.keyAt i = b2.keyAt i) :
    ∀ (k offset : Nat), childIndex b1 key k offset = childIndex b2 key k offset := by
  intro k
  induction k with
  | zero => intro offset; rfl
  | succ k ih => intro offset; simp only [childIndex, h, ih]

/-- What `AddKeyValuePair` does to a leaf that has room: the leaf is rewritten with one
key more and the slot area `insertedCells`. -/
theorem addKeyValuePair_leaf (A : Arch) (t : BTreeIndex) (node key value newNode : Nat)
    (b : BTreeNode)
    (hb : t.buffercache.blocks[node]? = some b)
    (hleaf : b.info.nodetype = BTREE_LEAF_NODE)
    (hroom : b.info.numkeys < b.info.GetNumSlotsAsLeaf A) :
    AddKeyValuePair A t node key value newNode = (ERROR_NOERROR,
      { t with buffercache :=
          { t.buffercache with
            blocks := t.buffercache.blocks.set node (leafInserted b key value) } }) := by
  unfold AddKeyValuePair
  simp only [unserialize_some _ _ _ _ hb, hleaf]
  by_cases hn : b.info.numkeys > 0
  · have hl := addLoop_leaf A key value newNode b.info.numkeys b.info.numkeys 0
      (b.setNumkeys (b.info.numkeys + 1)) hleaf (by omega) (by omega) hroom
    simp only [hn, if_true, hl]
    rw [serialize_of_some _ _ _ _ hb,
      childIndex_congr (b.setNumkeys (b.info.numkeys + 1)) b key (fun _ => rfl)]
    rfl
  · have h0 : b.info.numkeys = 0 := by omega
    have hs := setKeyVal_leaf A (b.setNumkeys (b.info.numkeys + 1)) 0 key value hleaf
      (by show 0 < b.info.GetNumSlotsAsLeaf A; omega)
    simp only [hn, if_false, hs]
    rw [serialize_of_some _ _ _ _ hb]
    simp [h0, childIndex, insertedCells, readCells, writeCells, BTreeNode.setNumkeys,
      leafInserted]

theorem keys_length (b : BTreeNode) : b.keys.length = b.info.numkeys := by
  simp [BTreeNode.keys]

theorem keys_getElem (b : BTreeNode) (i : Nat) (h : i < b.keys.length) :
    b.keys[i] = b.keyAt i := by
  simp [BTreeNode.keys]

/-- Strictly ascending keys stay strictly ascending when a key that is not among them is
put in before the first greater key. -/
theorem keys_insert_ascending (b : BTreeNode) (key : Nat)
    (hasc : b.keys.Pairwise (fun x y => x < y)) (hnew : key ∉ b.keys) :
    (b.keys.take (childIndex b key b.info.numkeys 0) ++
      key :: b.keys.drop (childIndex b key b.info.numkeys 0)).Pairwise (fun x y => x < y) := by
  obtain ⟨_, hj, hlow, hhigh⟩ := childIndex_spec b key b.info.numkeys 0
  generalize childIndex b key b.info.numkeys 0 = j at hj hlow hhigh
  have hsplit := hasc
  rw [← List.take_append_drop j b.keys, List.pairwise_append] at hsplit
  obtain ⟨p1, p2, p3⟩ := hsplit
  have hbelow : ∀ a ∈ b.keys.take j, a < key := by
    intro a ha
    obtain ⟨i, hi, rfl⟩ := List.mem_take_iff_getElem.mp ha
    have hi1 : i < j := by omega
    have hi2 : i < b.keys.length := by omega
    have hle := hlow i (Nat.zero_le _) hi1
    rw [keys_getElem b i hi2]
    have hne : b.keyAt i ≠ key := by
      intro e
      apply hnew
      rw [← e, ← keys_getElem b i hi2]
      exact List.getElem_mem _
    omega
  have habove : ∀ a ∈ b.keys.drop j, key < a := by
    intro a ha
    obtain ⟨i, hi, rfl⟩ := List.mem_drop_iff_getElem.mp ha
    have hjn : j < 0 + b.info.numkeys := by rw [keys_length] at hi; omega
    have hkj := hhigh hjn
    by_cases hi0 : i = 0
    · subst hi0
      rw [keys_getElem]
      exact hkj
    · have hlt := List.pairwise_iff_getElem.mp hasc j (j + i) (by omega) (by omega) (by omega)
      rw [keys_getElem, keys_getElem] at hlt
      rw [keys_getElem]
      omega
  rw [List.pairwise_append, List.pairwise_cons]
  refine ⟨p1, ⟨habove, p2⟩, ?_⟩
  intro a ha x hx
  rcases List.mem_cons.mp hx with e | e
  · rw [e]; exact hbelow a ha
  · exact p3 a ha x e

/-- C16: a LEAF with `n` pairs, `n` less than the leaf capacity, has strictly ascending
keys and `key` is not among them: `AddKeyValuePair(node, key, value, 0)` returns no error
and rewrites the block, and only this block, as a LEAF with `numkeys = n + 1` whose pairs
are the original pairs in their order with `(key, value)` put in at index `j`, the first
index whose key is greater than `key` (`n` if there is none); the keys of the leaf are
strictly ascending again. -/
theorem C16_sorted_leaf_insertion (A : Arch) (t : BTreeIndex) (node key value : Nat)
    (b : BTreeNode)
    (hb : t.buffercache.blocks[node]? = some b)
    (hleaf : b.info.nodetype = BTREE_LEAF_NODE)
    (hroom : b.info.numkeys < b.info.GetNumSlotsAsLeaf A)
    (hasc : b.keys.Pairwise (fun x y => x < y))
    (hnew : key ∉ b.keys) :
    ∃ (b1 : BTreeNode) (j : Nat),
      AddKeyValuePair A t node key value 0 = (ERROR_NOERROR,
        { t with buffercache :=
            { t.buffercache with blocks := t.buffercache.blocks.set node b1 } }) ∧
      b1.info.nodetype = BTREE_LEAF_NODE ∧
      b1.info.numkeys = b.info.numkeys + 1 ∧
      j ≤ b.info.numkeys ∧
      (∀ i, i < j → b.keyAt i < key) ∧
      (j < b.info.numkeys → key < b.keyAt j) ∧
      b1.pairs = b.pairs.take j ++ (key, value) :: b.pairs.drop j ∧
      b1.keys = b.keys.take j ++ key :: b.keys.drop j ∧
      b1.keys.Pairwise (fun x y => x < y) := by
  obtain ⟨_, hj, hlow, hhigh⟩ := childIndex_spec b key b.info.numkeys 0
  have hj1 : childIndex b key b.info.numkeys 0 ≤ b.info.numkeys := by omega
  have hcell := fun c => getCell_insertedCells b.data b.info.numkeys
    (childIndex b key b.info.numkeys 0) key value c hj1
  have hkeys : (leafInserted b key value).keys
      = b.keys.take (childIndex b key b.info.numkeys 0) ++
        key :: b.keys.drop (childIndex b key b.info.numkeys 0) := by
    apply map_range_insert _ _ _ _ _ hj1
    · intro i hi
      simp only [BTreeNode.keyAt, BTreeNode.ResolveKey, leafInserted, hleaf, if_true,
        hcell]
      rw [if_neg (by omega), if_neg (by omega), if_neg (by omega)]
    · simp only [BTreeNode.keyAt, BTreeNode.ResolveKey, leafInserted, hleaf, if_true,
        hcell]
      rw [if_neg (by omega)]
    · intro i hi1 hi2
      simp only [BTreeNode.keyAt, BTreeNode.ResolveKey, leafInserted, hleaf, if_true,
        hcell]
      rw [if_neg (by omega), if_neg (by omega), if_pos (by omega)]
      congr 1; omega
  refine ⟨leafInserted b key value, childIndex b key b.info.numkeys 0,
    addKeyValuePair_leaf A t node key value 0 b hb hleaf hroom, hleaf, rfl, hj1, ?_, ?_, ?_,
    hkeys, ?_⟩
  · intro i hi
    have hle := hlow i (Nat.zero_le _) hi
    have hne : b.keyAt i ≠ key := by
      intro e
      apply hnew
      have hi2 : i < b.keys.length := by rw [keys_length]; omega
      rw [← e, ← keys_getElem b i hi2]
      exact List.getElem_mem _
    omega
  · intro hlt
    exact hhigh (by omega)
  · apply map_range_insert _ _ _ _ _ hj1
    · intro i hi
      simp only [BTreeNode.keyAt, BTreeNode.valAt, BTreeNode.ResolveKey, BTreeNode.ResolveVal,
        leafInserted, hleaf, if_true, hcell, Prod.mk.injEq]
      constructor
      · rw [if_neg (by omega), if_neg (by omega), if_neg (by omega)]
      · rw [if_neg (by omega), if_neg (by omega), if_neg (by omega)]
    · simp only [BTreeNode.keyAt, BTreeNode.valAt, BTreeNode.ResolveKey, BTreeNode.ResolveVal,
        leafInserted, hleaf, if_true, hcell, Prod.mk.injEq]
      constructor
      · rw [if_neg (by omega)]
      · trivial
    · intro i hi1 hi2
      simp only [BTreeNode.keyAt, BTreeNode.valAt, BTreeNode.ResolveKey, BTreeNode.ResolveVal,
        leafInserted, hleaf, if_true, hcell, Prod.mk.injEq]
      constructor
      · rw [if_neg (by omega), if_neg (by omega), if_pos (by omega)]
        congr 1; omega
      · rw [if_neg (by omega), if_neg (by omega), if_pos (by omega)]
        congr 1; omega
  · rw [hkeys]
    exact keys_insert_ascending b key hasc hnew

/-- C16 at the leaf of block 3 of `exSplitAfter`, which stores the keys 3 and 5 and has
room for three pairs: the pair `(4, 40)` goes to index 1. -/
theorem C16_sorted_leaf_insertion_witness :
    ∃ (b1 : BTreeNode) (j : Nat),
      AddKeyValuePair exArch exSplitAfter 3 4 40 0 = (ERROR_NOERROR,
        { exSplitAfter with buffercache :=
            { exSplitAfter.buffercache with
              blocks := exSplitAfter.buffercache.blocks.set 3 b1 } }) ∧
      b1.info.nodetype = BTREE_LEAF_NODE ∧
      b1.info.numkeys = 3 ∧
      j ≤ 2 ∧
      (∀ i, i < j → (exBlock BTREE_LEAF_NODE 0 2 [3, 30, 5, 50, 7, 70]).keyAt i < 4) ∧
      (j < 2 → 4 < (exBlock BTREE_LEAF_NODE 0 2 [3, 30, 5, 50, 7, 70]).keyAt j) ∧
      b1.pairs = [(3, 30), (5, 50)].take j ++ (4, 40) :: [(3, 30), (5, 50)].drop j ∧
      b1.keys = [3, 5].take j ++ 4 :: [3, 5].drop j ∧
      b1.keys.Pairwise (fun x y => x < y) :=
  C16_sorted_leaf_insertion exArch exSplitAfter 3 4 40
    (exBlock BTREE_LEAF_NODE 0 2 [3, 30, 5, 50, 7, 70]) (by decide) (by decide) (by decide)
    (by decide) (by decide)

/-! ## Runs that leave the data model -/

/-- C12 fails on the fresh index `exTiny`, where block 1 is the only block of kind ROOT
and the root named by the superblock: `Insert(5, 7)` finds the root full after the first
key, grows the tree and returns no error; afterwards the superblock names block 5 as the
root, its children are the blocks 1 and 4, and the three blocks 1, 4 and 5 all have kind
ROOT, none of them kind INTERIOR. -/
theorem C12_root_growth_leaves_three_roots :
    exTiny.superblock.info.rootnode = 1 ∧
    blocksOfKind exTiny.buffercache BTREE_ROOT_NODE = [1] ∧
    (Insert exArch 2 exTiny 5 7).map (fun r =>
        (r.1, r.2.superblock.info.rootnode,
          r.2.buffercache.blocks[5]?.map BTreeNode.children,
          blocksOfKind r.2.buffercache BTREE_ROOT_NODE,
          blocksOfKind r.2.buffercache BTREE_INTERIOR_NODE))
      = some (ERROR_NOERROR, 5, some [1, 4], [1, 4, 5], []) := by
  decide

/-- C13 fails at the interior node of block 2 of `exSplit`, which satisfies the ordering
semantics and whose child for the key 5 is the full leaf of block 3 with the strictly
ascending keys 3, 5 and 7: `SplitNode(3)` returns the split key 5 and the new block 6,
`AddKeyValuePair(2, 5, _, 6)` returns no error, and afterwards the key 5 is reachable via
`P₀` of block 2 although `K₀ = 5`, so the ordering semantics fails, and `Lookup(5)`, which
found the value 50 before, returns ERROR_NONEXISTENT, from the parent as from the root. -/
theorem C13_split_key_stays_left :
    ordered exSplit.buffercache 1 2 = true ∧
    IsNodeFull exArch exSplit 3 = true ∧
    (exSplit.buffercache.blocks[3]?).map BTreeNode.leafKeysAscending = some true ∧
    LookupOrUpdateInternal exArch 2 exSplit.buffercache 2 BTREE_OP_LOOKUP 5 0
      = some (ERROR_NOERROR, 50, exSplit.buffercache) ∧
    SplitNode exArch exSplit 3 0 = some (ERROR_NOERROR, 6, 5, exSplitAfter) ∧
    AddKeyValuePair exArch exSplitAfter 2 5 0 6 = (ERROR_NOERROR, exSplitDone) ∧
    ordered exSplitDone.buffercache 1 2 = false ∧
    (exSplitDone.buffercache.blocks[2]?).map (fun b => (b.keyAt 0, b.ptrAt 0)) = some (5, 3) ∧
    leafPairs exSplitDone.buffercache 0 3 = [(3, 30), (5, 50)] ∧
    LookupOrUpdateInternal exArch 2 exSplitDone.buffercache 2 BTREE_OP_LOOKUP 5 0
      = some (ERROR_NONEXISTENT, 0, exSplitDone.buffercache) ∧
    Lookup exArch 3 exSplit 5 0 = some (ERROR_NOERROR, 50, exSplit) ∧
    Lookup exArch 3 exSplitDone 5 0 = some (ERROR_NONEXISTENT, 0, exSplitDone) := by
  decide

/-- C19 fails on the fresh index `exThree` of three blocks, where the superblock, the
root and the free list of block 2 account for every block: `Insert(5, 7)` allocates
block 2 for the left leaf, finds no block for the right leaf and returns ERROR_NOSPACE;
afterwards the free list is empty and the tree walk from the root visits block 1 only, so
block 2 is in neither. -/
theorem C19_first_insert_loses_a_block :
    blocksAccounted exThree 3 = true ∧
    freeListWalk exThree.buffercache 3 exThree.superblock.info.freelist = some [2] ∧
    treeBlocks exThree.buffercache 3 exThree.superblock.info.rootnode = [1] ∧
    (Insert exArch 2 exThree 5 7).map (fun r =>
        (r.1, blocksAccounted r.2 3,
          freeListWalk r.2.buffercache 3 r.2.superblock.info.freelist,
          treeBlocks r.2.buffercache 3 r.2.superblock.info.rootnode,
          r.2.buffercache.blocks.length))
      = some (ERROR_NOSPACE, false, some [], [1], 3) := by
  decide

/-! ## Formatting a cache of two blocks -/

/-- C21 fails on the code for `num_blocks = 2`.  Over every cache of exactly two blocks
`Attach(0, create = true)` returns no error, writes the superblock to block 0 and the
root to block 1, and the mounted superblock has `freelist = 2`: the field is not the
sentinel 0 and not the id of a block of the cache, which has the blocks 0 and 1 only. -/
theorem C21_two_blocks_freelist_outside (t : BTreeIndex) (blocksize : Nat)
    (b0 b1 : BTreeNode) :
    ∃ t1 sb root,
      Attach { t with buffercache := { blocksize := blocksize, blocks := [b0, b1] } } 0 true
        = some (ERROR_NOERROR, t1) ∧
      t1.buffercache.GetNumBlocks = 2 ∧
      t1.superblock = sb ∧ t1.buffercache.blocks = [sb, root] ∧
      sb.info.nodetype = BTREE_SUPERBLOCK ∧ root.info.nodetype = BTREE_ROOT_NODE ∧
      t1.superblock.info.freelist = 2 ∧
      t1.superblock.info.freelist ≠ 0 ∧
      ¬ t1.superblock.info.freelist < t1.buffercache.GetNumBlocks ∧
      t1.buffercache.blocks[t1.superblock.info.freelist]? = none := by
  refine ⟨_, _, _, rfl, rfl, rfl, rfl, rfl, rfl, rfl, ?_, ?_, rfl⟩
  · show (2 : Nat) ≠ 0
    decide
  · show ¬ (2 : Nat) < 2
    decide

end BTreeLab
